import Mathlib

/-!
# IronStack site lifecycle: a shallow embedding

The Go package `internal/site` (files `site.go`, `clone.go`) and the generator
`internal/config.Caddy` are embedded as Lean functions.

* A Go `string` is the list of its runes (`Str`).  All texts the program builds
  are valid UTF-8, for which substring search on bytes and on runes agree.
* A Go `error` is an `Option Str` (`none` is `nil`).
* The operating system is an explicit `World`: a flat table of filesystem
  entries keyed by cleaned path, and the list of external commands run so far.
* The exit status of an external command comes from an `Env` oracle, and what a
  program that writes files does to the filesystem from a `Tools` oracle.
* The state of the database server is read off the `mysql` scripts in the trace that
  succeeded.
-/

namespace IronStack

/-- A Go string, as the list of its runes. -/
abbrev Str := List Char

/-! ## `site.go`: the `Site` record and name derivation -/

/-- Go: `type Site struct`. -/
structure Site where
  Domain : Str
  Path : Str
  DBName : Str
  DBUser : Str
  DBPass : Str
  EnableSSL : Bool
  UseVarnish : Bool
  deriving DecidableEq, Repr

/-- One iteration of the loop of `sanitizeName`: the new value of `result`. -/
def sanitizeStep (result : Str) (c : Char) : Str :=
  if c = '.' ∨ c = '-' then result ++ "_".toList
  else if ('a' ≤ c ∧ c ≤ 'z') ∨ ('0' ≤ c ∧ c ≤ '9') then result ++ [c]
  else result

/-- Go: `func sanitizeName(domain string) string`, a loop over the runes of `domain`
that appends to `result`. -/
def sanitizeName (domain : Str) : Str :=
  domain.foldl sanitizeStep []

/-- Go: the constant `chars` of `generatePassword`. -/
def passwordChars : Str :=
  "abcdefghijklmnopqrstuvwxyzABCDEFGHIJKLMNOPQRSTUVWXYZ0123456789!@#$%".toList

/-- Go: `func generatePassword() string`: `b := make([]byte, 24)`, then
`b[i] = chars[i%len(chars)]` for every index `i` of `b`. -/
def generatePassword : Str :=
  (List.range 24).foldl
    (fun b i => b.set i (passwordChars.getD (i % passwordChars.length) (Char.ofNat 0)))
    (List.replicate 24 (Char.ofNat 0))

/-! ## The world outside the program -/

/-- A filesystem entry, as `os.Lstat` classifies it. -/
inductive Entry where
  | file (content : Str)
  | dir
  | symlink (target : Str)
  deriving DecidableEq, Repr

/-- The filesystem: a table from cleaned paths to entries; the first binding of a path
counts.  Paths name entries directly: no ancestor of a path the program touches is
itself a symlink. -/
abbrev FS := List (Str × Entry)

/-- The state outside the program: the filesystem and the external commands run so
far, oldest first. -/
structure World where
  fs : FS
  trace : List (List Str)
  deriving DecidableEq, Repr

/-- The exit status of each external command: `none` when it succeeds, otherwise the
error that `exec.Cmd.Run` returns. -/
structure Env where
  status : List Str → Option Str

/-- Go: `exec.Command(name, args...).Run()`.  The command is recorded and its status is
returned. -/
def runCommand (env : Env) (cmd : List Str) (w : World) : Option Str × World :=
  (env.status cmd, { w with trace := w.trace ++ [cmd] })

/-- Go: the `fmt.Sprintf` of `createDatabase`, with its five arguments
`s.DBName, s.DBUser, password, s.DBName, s.DBUser`. -/
def createDatabaseSQL (dbName dbUser password : Str) : Str :=
  "\n\t\tCREATE DATABASE IF NOT EXISTS ".toList ++ dbName ++
  ";\n\t\tCREATE USER IF NOT EXISTS \x27".toList ++ dbUser ++
  "\x27@\x27localhost\x27 IDENTIFIED BY \x27".toList ++ password ++
  "\x27;\n\t\tGRANT ALL PRIVILEGES ON ".toList ++ dbName ++
  ".* TO \x27".toList ++ dbUser ++
  "\x27@\x27localhost\x27;\n\t\tFLUSH PRIVILEGES;\n\t".toList

/-- Go: `func (m *Manager) createDatabase(s *Site) (string, error)`.  The site is
passed by pointer, so the updated site is returned as well. -/
def createDatabase (env : Env) (s : Site) (w : World) : Site × Except Str Str × World :=
  let s1 := { s with DBName := sanitizeName s.Domain ++ "_db".toList }
  let s2 := { s1 with DBUser := sanitizeName s1.Domain ++ "_user".toList }
  let password := generatePassword
  let sql := createDatabaseSQL s2.DBName s2.DBUser password
  match runCommand env ["mysql".toList, "-e".toList, sql] w with
  | (some err, w1) => (s2, Except.error err, w1)
  | (none, w1) => (s2, Except.ok password, w1)

/-! ## Paths (`path/filepath`) -/

/-- The pieces of a text between occurrences of `sep` (Go: `strings.Split` with a
one-character separator). -/
def splitOn (sep : Char) : Str → List Str
  | [] => [[]]
  | c :: t =>
    match splitOn sep t with
    | [] => [[]]
    | h :: r => if c = sep then [] :: h :: r else (c :: h) :: r

/-- One path element processed by `filepath.Clean`; `out` holds the elements written so
far.  An empty element and `.` are skipped; `..` removes the last element when there is
one to backtrack over, is dropped at the root, and is kept in a relative path. -/
def cleanStep (rooted : Bool) (out : List Str) (comp : Str) : List Str :=
  if comp = [] ∨ comp = ".".toList then out
  else if comp = "..".toList then
    if out ≠ [] ∧ out.getLast? ≠ some "..".toList then out.dropLast
    else if rooted then out
    else out ++ [comp]
  else out ++ [comp]

/-- Go: `filepath.Clean` (Unix). -/
def filepathClean (path : Str) : Str :=
  if path = [] then ".".toList
  else
    let rooted := path.head? = some '/'
    let out := (splitOn '/' path).foldl (cleanStep rooted) []
    if rooted then '/' :: "/".toList.intercalate out
    else if out = [] then ".".toList
    else "/".toList.intercalate out

/-- Go: `filepath.Join`: the elements from the first non-empty one on are joined with
`/` and cleaned; the result is empty when every element is empty. -/
def filepathJoin (elem : List Str) : Str :=
  match elem.dropWhile (fun e => e = []) with
  | [] => []
  | rest => filepathClean ("/".toList.intercalate rest)

/-- Go: `filepath.Dir`: everything up to the last separator, cleaned. -/
def filepathDir (path : Str) : Str :=
  filepathClean (path.reverse.dropWhile (fun c => c ≠ '/')).reverse

/-! ## The filesystem calls of package `os` -/

/-- The entry bound to a path. -/
def FS.lookup (fs : FS) (p : Str) : Option Entry :=
  match fs with
  | [] => none
  | (q, e) :: rest => if q = p then some e else FS.lookup rest p

/-- Path `q` is `p` or lies below `p`. -/
def isUnder (p q : Str) : Bool :=
  q = p ∨ (if p.getLast? = some '/' then p else p ++ ['/']).isPrefixOf q

/-- Removal of the binding of one path. -/
def FS.erase (fs : FS) (p : Str) : FS := fs.filter (fun b => b.1 ≠ p)

/-- Removal of a path and of everything below it. -/
def FS.eraseTree (fs : FS) (p : Str) : FS := fs.filter (fun b => ¬ isUnder p b.1)

/-- The entry at a path: the root and the current directory always exist and are
directories; any other path has the entry the table binds to it. -/
def FS.stat (fs : FS) (p : Str) : Option Entry :=
  if p = "/".toList ∨ p = ".".toList then some Entry.dir else FS.lookup fs p

/-- The path is a directory. -/
def FS.isDir (fs : FS) (p : Str) : Bool := FS.stat fs p = some Entry.dir

/-- Some entry lies strictly below the path. -/
def FS.hasChild (fs : FS) (p : Str) : Bool :=
  fs.any (fun b => b.1 ≠ p ∧ isUnder p b.1)

/-- Go: `os.Lstat`, reduced to the entry kind; the link itself is reported, not what it
points to. -/
def osLstat (path : Str) (w : World) : Except Str Entry :=
  if path = [] then Except.error ("lstat : no such file or directory".toList)
  else
    match FS.stat w.fs (filepathClean path) with
    | some e => Except.ok e
    | none => Except.error ("lstat ".toList ++ path ++ ": no such file or directory".toList)

/-- Go: `os.Remove`: `unlink` for a file or a symlink (the link, not its target), `rmdir`
for an empty directory; the root and the current directory cannot be removed. -/
def osRemove (path : Str) (w : World) : Option Str × World :=
  let key := filepathClean path
  if path = [] then (some ("remove : no such file or directory".toList), w)
  else if key = "/".toList ∨ key = ".".toList then
    (some ("remove ".toList ++ path ++ ": device or resource busy".toList), w)
  else
    match FS.lookup w.fs key with
    | none => (some ("remove ".toList ++ path ++ ": no such file or directory".toList), w)
    | some Entry.dir =>
      if FS.hasChild w.fs key then
        (some ("remove ".toList ++ path ++ ": directory not empty".toList), w)
      else (none, { w with fs := FS.erase w.fs key })
    | some _ => (none, { w with fs := FS.erase w.fs key })

/-- Go: `endsWithDot` of `os.RemoveAll`. -/
def endsWithDot (path : Str) : Bool :=
  path = ".".toList ∨ "/.".toList.isSuffixOf path

/-- Go: `os.RemoveAll`: nothing for the empty path, `EINVAL` for a path ending in a dot,
otherwise the path and everything below it are removed; an absent path is not an
error. -/
def osRemoveAll (path : Str) (w : World) : Option Str × World :=
  if path = [] then (none, w)
  else if endsWithDot path then
    (some ("RemoveAll ".toList ++ path ++ ": invalid argument".toList), w)
  else (none, { w with fs := FS.eraseTree w.fs (filepathClean path) })

/-- The ancestors of a cleaned path, outermost first, the path itself last. -/
def ancestors (key : Str) : List Str :=
  ((splitOn '/' key).inits.filter (fun cs => cs ≠ [] ∧ cs ≠ [[]])).map
    (fun cs => "/".toList.intercalate cs)

/-- Go: the recursion of `os.MkdirAll` on a path and its parents, the path first.  A path
that is a directory is accepted as it is (the fast path); a path that exists and is not
a directory is an error; otherwise the parents are made first and the directory is
created. -/
def mkdirChain : List Str → World → Option Str × World
  | [], w => (none, w)
  | a :: parents, w =>
    if FS.isDir w.fs a then (none, w)
    else
      match FS.stat w.fs a with
      | some _ => (some ("mkdir ".toList ++ a ++ ": not a directory".toList), w)
      | none =>
        match mkdirChain parents w with
        | (some err, w1) => (some err, w1)
        | (none, w1) => (none, { w1 with fs := (a, Entry.dir) :: w1.fs })

/-- Go: `os.MkdirAll`: a directory that exists is accepted, every missing directory on
the way to the path is created, and an entry on the way that is not a directory is an
error. -/
def osMkdirAll (path : Str) (w : World) : Option Str × World :=
  if path = [] then (some ("mkdir : no such file or directory".toList), w)
  else mkdirChain (ancestors (filepathClean path)).reverse w

/-- The entry a write to `key` ends at: a symlink in the last position is followed, at
most `fuel` times. -/
def followLinks (fs : FS) : Nat → Str → Option Str
  | 0, _ => none
  | fuel + 1, key =>
    match FS.lookup fs key with
    | some (Entry.symlink target) =>
      followLinks fs fuel
        (if target.head? = some '/' then filepathClean target
         else filepathJoin [filepathDir key, target])
    | _ => some key

/-- Go: `os.WriteFile`: the file is created or truncated and gets the data.  The parent
must be a directory and the path must not be one; at most 40 links are followed. -/
def osWriteFile (path : Str) (data : Str) (w : World) : Option Str × World :=
  if path = [] then (some ("open : no such file or directory".toList), w)
  else
    match followLinks w.fs 41 (filepathClean path) with
    | none => (some ("open ".toList ++ path ++ ": too many levels of symbolic links".toList), w)
    | some key =>
      if ¬ FS.isDir w.fs (filepathDir key) then
        (some ("open ".toList ++ path ++ ": no such file or directory".toList), w)
      else if FS.isDir w.fs key then
        (some ("open ".toList ++ path ++ ": is a directory".toList), w)
      else (none, { w with fs := (key, Entry.file data) :: FS.erase w.fs key })

/-! ## `config.go`: the reverse-proxy configuration -/

/-- Go: `type Caddy struct`. -/
structure Caddy where
  ConfigDir : Str
  deriving DecidableEq, Repr

/-- Go: `func NewCaddy() *Caddy`. -/
def NewCaddy : Caddy := { ConfigDir := "/etc/caddy/sites".toList }

/-- Go: the template of `Caddy.AddSite`, from its first `%s` to the second. -/
def caddyTemplateRoot : Str :=
  (" \x7b\n" ++
   "    root * /var/www/").toList

/-- Go: the template of `Caddy.AddSite`, from its second `%s` to the third. -/
def caddyTemplatePhp : Str :=
  ("/public\n" ++
   "    \n" ++
   "    # PHP handling via FrankenPHP\n" ++
   "    php_fastcgi ").toList

/-- Go: the template of `Caddy.AddSite`, from its third `%s` to the fourth. -/
def caddyTemplateBody : Str :=
  ("\n" ++
   "    \n" ++
   "    # Static file serving\n" ++
   "    file_server\n" ++
   "    \n" ++
   "    # Compression\n" ++
   "    encode gzip zstd\n" ++
   "    \n" ++
   "    # Security headers\n" ++
   "    header \x7b\n" ++
   "        X-Content-Type-Options \"nosniff\"\n" ++
   "        X-Frame-Options \"SAMEORIGIN\"\n" ++
   "        X-XSS-Protection \"1; mode=block\"\n" ++
   "        Referrer-Policy \"strict-origin-when-cross-origin\"\n" ++
   "    \x7d\n" ++
   "    \n" ++
   "    # Cache static assets\n" ++
   "    @static \x7b\n" ++
   "        path *.css *.js *.ico *.gif *.jpg *.jpeg *.png *.svg *.woff *.woff2\n" ++
   "    \x7d\n" ++
   "    header @static Cache-Control \"public, max-age=31536000, immutable\"\n" ++
   "    \n" ++
   "    # Block sensitive files\n" ++
   "    @blocked \x7b\n" ++
   "        path /wp-config.php\n" ++
   "        path /.git*\n" ++
   "        path /readme.html\n" ++
   "        path /license.txt\n" ++
   "    \x7d\n" ++
   "    respond @blocked 404\n" ++
   "    \n" ++
   "    # Logs\n" ++
   "    log \x7b\n" ++
   "        output file /var/log/caddy/").toList

/-- Go: the template of `Caddy.AddSite`, behind its fourth `%s`. -/
def caddyTemplateEnd : Str :=
  ("-access.log\n" ++
   "    \x7d\n" ++
   "\x7d\n").toList

/-- Go: the `fmt.Sprintf` of `Caddy.AddSite`: the template, which starts with a `%s`,
with its four `%s` verbs filled by the arguments, in order. -/
def caddyConfigSprintf (a1 a2 a3 a4 : Str) : Str :=
  a1 ++ caddyTemplateRoot ++ a2 ++ caddyTemplatePhp ++ a3 ++ caddyTemplateBody ++ a4 ++
    caddyTemplateEnd

/-- Go: `func (c *Caddy) AddSite(domain string, enableVarnish bool) error`. -/
def Caddy.AddSite (c : Caddy) (domain : Str) (enableVarnish : Bool) (w : World) :
    Option Str × World :=
  let w1 := (osMkdirAll c.ConfigDir w).2
  let backend := if enableVarnish then "127.0.0.1:6081".toList else "127.0.0.1:9000".toList
  let config := caddyConfigSprintf domain domain backend domain
  osWriteFile (filepathJoin [c.ConfigDir, domain ++ ".conf".toList]) config w1

/-! ## `site.go`, `clone.go`: the manager -/

/-- Go: `type Manager struct`. -/
structure Manager where
  WebRoot : Str
  CaddyConf : Caddy
  deriving DecidableEq, Repr

/-- Go: `func NewManager() *Manager`. -/
def NewManager : Manager := { WebRoot := "/var/www".toList, CaddyConf := NewCaddy }

/-- Go: `func (m *Manager) RemoveDomain(domain string) error`. -/
def Manager.RemoveDomain (m : Manager) (env : Env) (domain : Str) (w : World) :
    Option Str × World :=
  let linkPath := filepathJoin [m.WebRoot, domain]
  match osLstat linkPath w with
  | Except.error err => (some err, w)
  | Except.ok fi =>
    let w1 :=
      match fi with
      | Entry.symlink _ => (osRemove linkPath w).2
      | _ => (osRemoveAll linkPath w).2
    let w2 := (osRemove (filepathJoin ["/etc/caddy/sites".toList, domain ++ ".conf".toList]) w1).2
    let w3 := (runCommand env ["systemctl".toList, "reload".toList, "caddy".toList] w2).2
    (none, w3)

/-! ## Text replacement -/

/-- The scan of `strings.Replace` for a non-empty `old`: `skip` characters of a match
just replaced are still to be passed over; otherwise a match at the current position is
replaced by `new` and the scan goes on behind it, and a character that starts no match
is copied. -/
def replaceFrom (old new : Str) : Nat → Str → Str
  | _, [] => []
  | skip + 1, _ :: t => replaceFrom old new skip t
  | 0, c :: t =>
    if old.isPrefixOf (c :: t) then new ++ replaceFrom old new (old.length - 1) t
    else c :: replaceFrom old new 0 t

/-- Go: `strings.ReplaceAll(s, old, new)`: all non-overlapping occurrences of `old`,
from the left, are replaced by `new`; an empty `old` matches before every rune and at
the end. -/
def stringsReplaceAll (s old new : Str) : Str :=
  if old = new then s
  else if old = [] then new ++ (s.map (fun c => c :: new)).flatten
  else replaceFrom old new 0 s

/-- Go: `func replaceConfigValue(content, key, value string) string`. -/
def replaceConfigValue (content key value : Str) : Str :=
  let pattern := "define\\s*\\(\\s*\x27".toList ++ key ++
    "\x27\\s*,\\s*\x27[^\x27]*\x27\\s*\\)".toList
  let replacement := "define(\x27".toList ++ key ++ "\x27, \x27".toList ++ value ++
    "\x27)".toList
  stringsReplaceAll content pattern replacement

/-- Go: lines 46 to 49 of `Manager.Clone`: the copied `wp-config.php` content after the
three calls of `replaceConfigValue`. -/
def cloneConfigContent (content dbName dbUser dbPass : Str) : Str :=
  let c1 := replaceConfigValue content "DB_NAME".toList dbName
  let c2 := replaceConfigValue c1 "DB_USER".toList dbUser
  replaceConfigValue c2 "DB_PASSWORD".toList dbPass

/-- The effect of `wp search-replace old new --all-tables` on a stored text, taken as the
claims take it: every occurrence of `old` is replaced by `new`. -/
def searchReplace (old new content : Str) : Str := stringsReplaceAll content old new

/-- Go: lines 54 to 66 of `Manager.Clone`: the stored content after the two
`wp search-replace` commands, `https://source` to `https://target` and then
`http://source` to `https://target`. -/
def cloneRewrite (sourceDomain targetDomain content : Str) : Str :=
  let c1 := searchReplace ("https://".toList ++ sourceDomain) ("https://".toList ++ targetDomain)
    content
  searchReplace ("http://".toList ++ sourceDomain) ("https://".toList ++ targetDomain) c1

/-! ## External programs that write files, and two more calls of package `os` -/

/-- What the external programs do to the filesystem: `effect cmd fs` is the table after
the command `cmd` has run on `fs`.  Nothing is assumed about it. -/
structure Tools where
  effect : List Str → FS → FS

/-- Go: `exec.Command(name, args...).Run()` for a program that writes files (`wp core
download`, `wp config create`, `tar`, `rsync`, `wp db export`): the command is recorded,
the filesystem changes as the program changes it, and the status is returned. -/
def runTool (env : Env) (tools : Tools) (cmd : List Str) (w : World) : Option Str × World :=
  (env.status cmd, { fs := tools.effect cmd w.fs, trace := w.trace ++ [cmd] })

/-- Go: `os.Symlink(oldname, newname)`: `newname` becomes a link to `oldname`, which need
not exist; it is an error when `newname` exists or its parent is not a directory. -/
def osSymlink (oldname newname : Str) (w : World) : Option Str × World :=
  if oldname = [] ∨ newname = [] then
    (some ("symlink ".toList ++ oldname ++ " ".toList ++ newname ++
      ": no such file or directory".toList), w)
  else if FS.stat w.fs (filepathClean newname) ≠ none then
    (some ("symlink ".toList ++ oldname ++ " ".toList ++ newname ++ ": file exists".toList), w)
  else if ¬ FS.isDir w.fs (filepathDir (filepathClean newname)) then
    (some ("symlink ".toList ++ oldname ++ " ".toList ++ newname ++
      ": no such file or directory".toList), w)
  else (none, { w with fs := (filepathClean newname, Entry.symlink oldname) :: w.fs })

/-- Go: `os.ReadFile`: the content of the file the path leads to. -/
def osReadFile (path : Str) (w : World) : Except Str Str :=
  if path = [] then Except.error ("open : no such file or directory".toList)
  else
    match followLinks w.fs 41 (filepathClean path) with
    | none =>
      Except.error ("open ".toList ++ path ++ ": too many levels of symbolic links".toList)
    | some key =>
      match FS.stat w.fs key with
      | some (Entry.file content) => Except.ok content
      | some _ => Except.error ("read ".toList ++ path ++ ": is a directory".toList)
      | none => Except.error ("open ".toList ++ path ++ ": no such file or directory".toList)

/-! ## `config.go`: the WordPress constants -/

/-- Go: `func (w *WordPress) OptimizeConfig() string`. -/
def WordPress.OptimizeConfig : Str :=
  ("\n" ++
   "// IronStack Performance Optimizations\n" ++
   "define(\x27WP_MEMORY_LIMIT\x27, \x27256M\x27);\n" ++
   "define(\x27WP_MAX_MEMORY_LIMIT\x27, \x27512M\x27);\n" ++
   "define(\x27WP_POST_REVISIONS\x27, 5);\n" ++
   "define(\x27AUTOSAVE_INTERVAL\x27, 120);\n" ++
   "define(\x27EMPTY_TRASH_DAYS\x27, 7);\n" ++
   "define(\x27DISABLE_WP_CRON\x27, true);\n" ++
   "define(\x27WP_CACHE\x27, true);\n" ++
   "\n" ++
   "// DragonflyDB Object Cache\n" ++
   "define(\x27WP_REDIS_HOST\x27, \x27127.0.0.1\x27);\n" ++
   "define(\x27WP_REDIS_PORT\x27, 6379);\n" ++
   "define(\x27WP_REDIS_DATABASE\x27, 0);\n" ++
   "\n" ++
   "// Security\n" ++
   "define(\x27DISALLOW_FILE_EDIT\x27, true);\n" ++
   "define(\x27FORCE_SSL_ADMIN\x27, true);\n").toList

/-! ## `site.go`: `Create` and `Delete` -/

/-- Go: the loop `for _, dir := range dirs` of `Manager.Create`: each directory is made
with `os.MkdirAll`, and the first failure is returned with the directory named. -/
def createDirs : List Str → World → Option Str × World
  | [], w => (none, w)
  | dir :: rest, w =>
    match osMkdirAll dir w with
    | (some err, w1) =>
      (some ("failed to create directory ".toList ++ dir ++ ": ".toList ++ err), w1)
    | (none, w1) => createDirs rest w1

/-- Go: `func (m *Manager) downloadWordPress(s *Site) error`. -/
def Manager.downloadWordPress (env : Env) (tools : Tools) (s : Site) (w : World) :
    Option Str × World :=
  let publicDir := filepathJoin [s.Path, "public".toList]
  runTool env tools
    ["wp".toList, "core".toList, "download".toList, "--path=".toList ++ publicDir] w

/-- Go: `func (m *Manager) createConfig(s *Site) error`.  The error of `os.ReadFile` is
dropped, which leaves the content empty.  The content is taken to be ASCII, as WP-CLI
writes it: `len` and the slices of Go count bytes and the lists here count characters,
which is the same for ASCII content only, so every statement about the inserted block
is made for ASCII content (`isASCII`, `byteLen`). -/
def Manager.createConfig (env : Env) (tools : Tools) (s : Site) (w : World) :
    Option Str × World :=
  let publicDir := filepathJoin [s.Path, "public".toList]
  match runTool env tools
      ["wp".toList, "config".toList, "create".toList,
       "--path=".toList ++ publicDir,
       "--dbname=".toList ++ s.DBName,
       "--dbuser=".toList ++ s.DBUser,
       "--dbpass=".toList ++ s.DBPass,
       "--dbhost=localhost".toList] w with
  | (some err, w1) => (some err, w1)
  | (none, w1) =>
    let optimizations := WordPress.OptimizeConfig
    let configPath := filepathJoin [publicDir, "wp-config.php".toList]
    let content :=
      match osReadFile configPath w1 with
      | Except.ok data => data
      | Except.error _ => []
    let idx : Int := (content.length : Int) - 100
    let newContent :=
      if idx > 0 then content.take idx.toNat ++ optimizations ++ content.drop idx.toNat
      else content
    osWriteFile configPath newContent w1

/-- Go: `func (m *Manager) Create(s *Site) error`.  The site is passed by pointer, so
the updated site is returned with the error. -/
def Manager.Create (m : Manager) (env : Env) (tools : Tools) (s : Site) (w : World) :
    Site × Option Str × World :=
  let s1 := { s with Path := filepathJoin [m.WebRoot, s.Domain] }
  let dirs := [s1.Path,
    filepathJoin [s1.Path, "public".toList],
    filepathJoin [s1.Path, "logs".toList],
    filepathJoin [s1.Path, "backups".toList]]
  match createDirs dirs w with
  | (some err, w1) => (s1, some err, w1)
  | (none, w1) =>
    match createDatabase env s1 w1 with
    | (s2, Except.error err, w2) =>
      (s2, some ("failed to create database: ".toList ++ err), w2)
    | (s2, Except.ok dbPass, w2) =>
      let s3 := { s2 with DBPass := dbPass }
      match Manager.downloadWordPress env tools s3 w2 with
      | (some err, w3) => (s3, some ("failed to download WordPress: ".toList ++ err), w3)
      | (none, w3) =>
        match Manager.createConfig env tools s3 w3 with
        | (some err, w4) => (s3, some ("failed to create wp-config: ".toList ++ err), w4)
        | (none, w4) =>
          match m.CaddyConf.AddSite s3.Domain s3.UseVarnish w4 with
          | (some err, w5) => (s3, some ("failed to create Caddy config: ".toList ++ err), w5)
          | (none, w5) =>
            let w6 := (runCommand env
              ["systemctl".toList, "reload".toList, "caddy".toList] w5).2
            let w7 := (runCommand env
              ["chown".toList, "-R".toList, "www-data:www-data".toList, s3.Path] w6).2
            (s3, none, w7)

/-- Go: `func (m *Manager) Delete(domain string) error`. -/
def Manager.Delete (m : Manager) (env : Env) (domain : Str) (w : World) :
    Option Str × World :=
  let w1 := (osRemoveAll (filepathJoin [m.WebRoot, domain]) w).2
  let w2 := (osRemove (filepathJoin ["/etc/caddy/sites".toList, domain ++ ".conf".toList]) w1).2
  let w3 := (runCommand env ["systemctl".toList, "reload".toList, "caddy".toList] w2).2
  (none, w3)

/-! ## `clone.go`: aliases and promotion -/

/-- Go: `func (m *Manager) AddDomain(siteDomain, newDomain string) error`.  The error of
`AddSite` is dropped. -/
def Manager.AddDomain (m : Manager) (env : Env) (siteDomain newDomain : Str) (w : World) :
    Option Str × World :=
  let sitePath := filepathJoin [m.WebRoot, siteDomain]
  let linkPath := filepathJoin [m.WebRoot, newDomain]
  match osSymlink sitePath linkPath w with
  | (some err, w1) => (some ("failed to create symlink: ".toList ++ err), w1)
  | (none, w1) =>
    let w2 := (m.CaddyConf.AddSite newDomain true w1).2
    let w3 := (runCommand env ["systemctl".toList, "reload".toList, "caddy".toList] w2).2
    (none, w3)

/-- Go: `func (m *Manager) PushToProduction(domain string) error`.  `stamp` is the text of
`time.Now().Format("2006-01-02_15-04-05")`.  The status of every step is dropped. -/
def Manager.PushToProduction (m : Manager) (env : Env) (tools : Tools) (stamp : Str)
    (domain : Str) (w : World) : Option Str × World :=
  let stagingDomain := "staging.".toList ++ domain
  let stagingPath := filepathJoin [m.WebRoot, stagingDomain]
  let prodPath := filepathJoin [m.WebRoot, domain]
  let backupPath := "/backups/".toList ++ domain ++ "/pre-push_".toList ++ stamp ++
    ".tar.gz".toList
  let w1 := (osMkdirAll (filepathDir backupPath) w).2
  let w2 := (runTool env tools
    ["tar".toList, "-czf".toList, backupPath, "-C".toList, m.WebRoot, domain] w1).2
  let tempSQL := "/tmp/staging_".toList ++ domain ++ ".sql".toList
  let w3 := (runTool env tools
    ["wp".toList, "db".toList, "export".toList, tempSQL,
     "--path=".toList ++ stagingPath ++ "/public".toList] w2).2
  let w4 := (runTool env tools
    ["rsync".toList, "-av".toList, "--delete".toList,
     "--exclude=wp-config.php".toList, "--exclude=.htaccess".toList,
     stagingPath ++ "/public/".toList, prodPath ++ "/public/".toList] w3).2
  let w5 := (runCommand env
    ["wp".toList, "db".toList, "import".toList, tempSQL,
     "--path=".toList ++ prodPath ++ "/public".toList] w4).2
  let w6 := (osRemove tempSQL w5).2
  let w7 := (runCommand env
    ["wp".toList, "search-replace".toList,
     "https://".toList ++ stagingDomain, "https://".toList ++ domain,
     "--all-tables".toList, "--path=".toList ++ prodPath ++ "/public".toList] w6).2
  let w8 := (runCommand env
    ["wp".toList, "cache".toList, "flush".toList,
     "--path=".toList ++ prodPath ++ "/public".toList] w7).2
  (none, w8)

/-- Go: lines 114 to 119 of `Manager.PushToProduction`: the stored content after the one
`wp search-replace` command, `https://staging.domain` to `https://domain`. -/
def pushRewrite (domain content : Str) : Str :=
  searchReplace ("https://".toList ++ ("staging.".toList ++ domain)) ("https://".toList ++ domain)
    content

/-! ## `clone.go`: `Clone` -/

/-- Go: `func (m *Manager) Clone(sourceDomain, targetDomain string) error`.  Only the
copy and the database creation are checked; the status of the export, the import, the
removal of the dump, the two URL rewrites, `AddSite`, `chown` and the reload is dropped,
and so is the error of `os.ReadFile`, which leaves the content empty. -/
def Manager.Clone (m : Manager) (env : Env) (tools : Tools) (sourceDomain targetDomain : Str)
    (w : World) : Option Str × World :=
  let sourcePath := filepathJoin [m.WebRoot, sourceDomain]
  let targetPath := filepathJoin [m.WebRoot, targetDomain]
  match runTool env tools ["cp".toList, "-r".toList, sourcePath, targetPath] w with
  | (some err, w1) => (some ("copy failed: ".toList ++ err), w1)
  | (none, w1) =>
    let targetSite : Site :=
      { Domain := targetDomain, Path := targetPath, DBName := [], DBUser := [], DBPass := [],
        EnableSSL := false, UseVarnish := true }
    match createDatabase env targetSite w1 with
    | (_, Except.error err, w2) => (some ("database creation failed: ".toList ++ err), w2)
    | (targetSite1, Except.ok dbPass, w2) =>
      let tempSQL := "/tmp/clone_".toList ++ sourceDomain ++ ".sql".toList
      let w3 := (runTool env tools
        ["wp".toList, "db".toList, "export".toList, tempSQL,
         "--path=".toList ++ sourcePath ++ "/public".toList] w2).2
      let w4 := (runCommand env
        ["wp".toList, "db".toList, "import".toList, tempSQL,
         "--path=".toList ++ targetPath ++ "/public".toList] w3).2
      let w5 := (osRemove tempSQL w4).2
      let wpConfigPath := filepathJoin [targetPath, "public".toList, "wp-config.php".toList]
      let content :=
        match osReadFile wpConfigPath w5 with
        | Except.ok data => data
        | Except.error _ => []
      let newContent :=
        cloneConfigContent content targetSite1.DBName targetSite1.DBUser dbPass
      let w6 := (osWriteFile wpConfigPath newContent w5).2
      let w7 := (runCommand env
        ["wp".toList, "search-replace".toList,
         "https://".toList ++ sourceDomain, "https://".toList ++ targetDomain,
         "--all-tables".toList, "--path=".toList ++ targetPath ++ "/public".toList] w6).2
      let w8 := (runCommand env
        ["wp".toList, "search-replace".toList,
         "http://".toList ++ sourceDomain, "https://".toList ++ targetDomain,
         "--all-tables".toList, "--path=".toList ++ targetPath ++ "/public".toList] w7).2
      let w9 := (m.CaddyConf.AddSite targetDomain true w8).2
      let w10 := (runCommand env
        ["chown".toList, "-R".toList, "www-data:www-data".toList, targetPath] w9).2
      let w11 := (runCommand env ["systemctl".toList, "reload".toList, "caddy".toList] w10).2
      (none, w11)

/-! ## `csf.go`: the firewall configuration -/

/-- What the external programs print: `stdout w cmd` is the standard output of the
command `cmd` run in the world `w`.  Nothing is assumed about it. -/
structure Outputs where
  stdout : World → List Str → Str

/-- Go: `unicode.IsSpace`. -/
def unicodeIsSpace (c : Char) : Bool :=
  c = ' ' ∨ (0x09 ≤ c.toNat ∧ c.toNat ≤ 0x0D) ∨ c.toNat = 0x85 ∨ c.toNat = 0xA0 ∨
  c.toNat = 0x1680 ∨ (0x2000 ≤ c.toNat ∧ c.toNat ≤ 0x200A) ∨ c.toNat = 0x2028 ∨
  c.toNat = 0x2029 ∨ c.toNat = 0x202F ∨ c.toNat = 0x205F ∨ c.toNat = 0x3000

/-- Go: `strings.TrimSpace`: leading and trailing white space is removed. -/
def stringsTrimSpace (s : Str) : Str :=
  ((s.dropWhile unicodeIsSpace).reverse.dropWhile unicodeIsSpace).reverse

/-- Go: `strings.Trim(s, cutset)`: leading and trailing characters of the cutset are
removed. -/
def stringsTrim (s cutset : Str) : Str :=
  ((s.dropWhile (fun c => c ∈ cutset)).reverse.dropWhile (fun c => c ∈ cutset)).reverse

/-- Go: `func (c *CSF) SetConfig(key, value string) error`: the `sed` command that
rewrites the line of the key. -/
def CSF.SetConfig (env : Env) (key value : Str) (w : World) : Option Str × World :=
  runCommand env
    ["sed".toList, "-i".toList,
     "s/^".toList ++ key ++ " = .*/".toList ++ key ++ " = \x22".toList ++ value ++ "\x22/".toList,
     "/etc/csf/csf.conf".toList] w

/-- Go: `func (c *CSF) AddToConfig(key, value string) error`.  `Output()` runs `grep` and
returns what it prints.  `Except.error` is the run-time panic of the index expression
`strings.Split(current, "=")[1]` when the output holds no `=`. -/
def CSF.AddToConfig (env : Env) (outs : Outputs) (key value : Str) (w : World) :
    Except Str (Option Str × World) :=
  let grep := ["grep".toList, "^".toList ++ key ++ " =".toList, "/etc/csf/csf.conf".toList]
  let out := outs.stdout w grep
  match runCommand env grep w with
  | (some err, w1) => Except.ok (some err, w1)
  | (none, w1) =>
    let current := stringsTrimSpace out
    match (splitOn '=' current)[1]? with
    | none => Except.error "runtime error: index out of range [1] with length 1".toList
    | some current1 =>
      let current2 := stringsTrim current1 "\x22 ".toList
      if ¬ value <:+: current2 then
        let current3 := if current2 ≠ [] then current2 ++ ",".toList else current2
        let current4 := current3 ++ value
        Except.ok (CSF.SetConfig env key current4 w1)
      else Except.ok (none, w1)

/-- Go: `func (c *CSF) Restart() error`. -/
def CSF.Restart (env : Env) (w : World) : Option Str × World :=
  runCommand env ["csf".toList, "-r".toList] w

/-- Go: `func (c *CSF) OpenPort(port int) error`; `fmt.Sprintf("%d", port)` is the
decimal text of the port.  The results of the two `AddToConfig` calls are dropped. -/
def CSF.OpenPort (env : Env) (outs : Outputs) (port : Int) (w : World) :
    Except Str (Option Str × World) :=
  match CSF.AddToConfig env outs "TCP_IN".toList (toString port).toList w with
  | Except.error e => Except.error e
  | Except.ok (_, w1) =>
    match CSF.AddToConfig env outs "TCP_OUT".toList (toString port).toList w1 with
    | Except.error e => Except.error e
    | Except.ok (_, w2) => Except.ok (CSF.Restart env w2)

/-! ## Vocabulary of the statements -/

/-- A character a domain may be built from in the name-derivation claims: a lowercase
letter, a digit, `.` or `-`. -/
def domainChar (c : Char) : Prop :=
  ('a' ≤ c ∧ c ≤ 'z') ∨ ('0' ≤ c ∧ c ≤ '9') ∨ c = '.' ∨ c = '-'

instance : DecidablePred domainChar := fun c => by unfold domainChar; infer_instance

/-- Every character of the domain is a lowercase letter, a digit, `.` or `-`. -/
def domainChars (d : Str) : Prop := ∀ c ∈ d, domainChar c

instance : DecidablePred domainChars := fun d => by unfold domainChars; infer_instance

/-- The separators that `sanitizeName` folds. -/
def isSeparator (c : Char) : Prop := c = '.' ∨ c = '-'

instance : DecidablePred isSeparator := fun c => by unfold isSeparator; infer_instance

/-- Replacement of each `.` and `-` by `_`. -/
def foldSeparator (c : Char) : Char := if c = '.' ∨ c = '-' then '_' else c

/-- Two domains have the same length and agree at every position, except where both
have a separator. -/
def sameUpToSeparators (d1 d2 : Str) : Prop :=
  List.Forall₂ (fun a b => a = b ∨ (isSeparator a ∧ isSeparator b)) d1 d2

/-- The alphabet named by the password requirement: `a-z`, `A-Z`, `0-9`, `!@#$%`. -/
def passwordAlphabet (c : Char) : Prop :=
  ('a' ≤ c ∧ c ≤ 'z') ∨ ('A' ≤ c ∧ c ≤ 'Z') ∨ ('0' ≤ c ∧ c ≤ '9') ∨
    c = '!' ∨ c = '@' ∨ c = '#' ∨ c = '$' ∨ c = '%'

instance : DecidablePred passwordAlphabet := fun c => by
  unfold passwordAlphabet; infer_instance

/-- A character of a hostname: an ASCII letter, a digit, `.` or `-`. -/
def hostChar (c : Char) : Prop :=
  ('a' ≤ c ∧ c ≤ 'z') ∨ ('A' ≤ c ∧ c ≤ 'Z') ∨ ('0' ≤ c ∧ c ≤ '9') ∨ c = '.' ∨ c = '-'

instance : DecidablePred hostChar := fun c => by unfold hostChar; infer_instance

/-- Every character is a hostname character. -/
def hostChars (h : Str) : Prop := ∀ c ∈ h, hostChar c

instance : DecidablePred hostChars := fun h => by unfold hostChars; infer_instance

/-- A label of a hostname: 1 to 63 letters, digits and hyphens, no hyphen at either
end. -/
def validLabel (l : Str) : Prop :=
  l ≠ [] ∧ l.length ≤ 63 ∧ (∀ c ∈ l, hostChar c ∧ c ≠ '.') ∧
    l.head? ≠ some '-' ∧ l.getLast? ≠ some '-'

instance : DecidablePred validLabel := fun l => by unfold validLabel; infer_instance

/-- A syntactically valid DNS hostname: at most 253 characters, made of valid labels
separated by dots. -/
def validHostname (h : Str) : Prop :=
  h.length ≤ 253 ∧ ∀ l ∈ splitOn '.' h, validLabel l

instance : DecidablePred validHostname := fun h => by unfold validHostname; infer_instance

/-- The hostname ends in a non-empty prefix of `https`: in `h`, `ht`, `htt`, `http` or
`https`. -/
def endsInSchemePrefix (h : Str) : Prop :=
  "h".toList <:+ h ∨ "ht".toList <:+ h ∨ "htt".toList <:+ h ∨ "http".toList <:+ h ∨
    "https".toList <:+ h

instance : DecidablePred endsInSchemePrefix := fun h => by
  unfold endsInSchemePrefix; infer_instance

/-- Borders of the replaced text `P`, the inserted text `N` and a watched text `Q` that
allow no new occurrence of `Q` to arise from a replacement. -/
structure NoNewOccurrence (P N Q : Str) : Prop where
  nonempty : P ≠ []
  left : ∀ V : Str, V ≠ [] → V <+: N → V <:+ Q → V <+: P
  right : ∀ S : Str, S ≠ [] → S <:+ N → S <+: Q → False
  notIn : ¬ Q <:+: N
  notAround : ¬ N <:+: Q

/-- The two URL schemes of the rewrite, with their separator. -/
def isScheme (X : Str) : Prop := X = "http://".toList ∨ X = "https://".toList

/-- Every element written by `filepath.Clean` for a rooted path is a proper name. -/
def properNames (out : List Str) : Prop :=
  ∀ c ∈ out, c ≠ [] ∧ c ≠ ".".toList ∧ '/' ∉ c

/-- An environment in which every external command succeeds. -/
def allSucceed : Env := { status := fun _ => none }

/-- The empty world. -/
def emptyWorld : World := { fs := [], trace := [] }

/-- A fresh site for a domain, as `Create` and `Clone` receive or build it. -/
def siteOf (domain : Str) (useVarnish : Bool) : Site :=
  { Domain := domain, Path := [], DBName := [], DBUser := [], DBPass := [],
    EnableSSL := false, UseVarnish := useVarnish }

/-- A web root with the site `example.com`, its alias `www.example.com` (a symlink to the
site), and the proxy configuration of both. -/
def aliasWorld : World :=
  { fs :=
      [("/var/www".toList, Entry.dir),
       ("/var/www/example.com".toList, Entry.dir),
       ("/var/www/example.com/public".toList, Entry.dir),
       ("/var/www/example.com/public/index.php".toList, Entry.file "<?php".toList),
       ("/var/www/www.example.com".toList, Entry.symlink "/var/www/example.com".toList),
       ("/etc/caddy/sites".toList, Entry.dir),
       ("/etc/caddy/sites/example.com.conf".toList, Entry.file "example.com".toList),
       ("/etc/caddy/sites/www.example.com.conf".toList, Entry.file "www.example.com".toList)],
    trace := [] }

/-- The SQL scripts the database server has accepted, oldest first: the scripts of the
`mysql -e` commands in the trace that succeeded. -/
def mysqlScripts (env : Env) (w : World) : List Str :=
  w.trace.filterMap (fun cmd =>
    match cmd with
    | [prog, flag, sql] =>
      if prog = "mysql".toList ∧ flag = "-e".toList ∧ env.status cmd = none then some sql
      else none
    | _ => none)

/-- The database exists on the server: an accepted script created it and no script
accepted later drops a database. -/
def databaseExists (env : Env) (w : World) (name : Str) : Prop :=
  ∃ (before after : List Str) (script : Str),
    mysqlScripts env w = before ++ script :: after ∧
    "CREATE DATABASE IF NOT EXISTS ".toList ++ name ++ ";".toList <:+: script ∧
    ∀ later ∈ after, ¬ "DROP DATABASE".toList <:+: later

/-- The database user exists on the server: an accepted script created it and no script
accepted later drops a user. -/
def userExists (env : Env) (w : World) (user : Str) : Prop :=
  ∃ (before after : List Str) (script : Str),
    mysqlScripts env w = before ++ script :: after ∧
    "CREATE USER IF NOT EXISTS \x27".toList ++ user ++ "\x27@\x27localhost\x27".toList
      <:+: script ∧
    ∀ later ∈ after, ¬ "DROP USER".toList <:+: later

/-- External programs that leave the filesystem as it is. -/
def noEffect : Tools := { effect := fun _ fs => fs }

/-- A sample of WP-CLI: `wp core download` puts an `index.php` into the directory of its
`--path=` argument and `wp config create` a `wp-config.php`; other programs leave the
filesystem as it is. -/
def sampleTools : Tools :=
  { effect := fun cmd fs =>
      match cmd with
      | [_, c1, c2, path] =>
        if c1 = "core".toList ∧ c2 = "download".toList then
          (path.drop 7 ++ "/index.php".toList, Entry.file "<?php".toList) :: fs
        else fs
      | _ :: c1 :: c2 :: path :: _ =>
        if c1 = "config".toList ∧ c2 = "create".toList then
          (path.drop 7 ++ "/wp-config.php".toList,
            Entry.file "<?php\n/* That\x27s all, stop editing! */\n".toList) :: fs
        else fs
      | _ => fs }

/-- A manager whose proxy configuration directory is not the default one. -/
def customManager : Manager :=
  { WebRoot := "/var/www".toList, CaddyConf := { ConfigDir := "/srv/caddy/sites".toList } }

/-- An environment in which the `tar` program fails and every other command succeeds. -/
def tarFails : Env :=
  { status := fun cmd => if cmd.head? = some "tar".toList then some "exit status 2".toList
      else none }

/-- An environment in which `mysql` fails and every other command succeeds. -/
def mysqlFails : Env :=
  { status := fun cmd => if cmd.head? = some "mysql".toList then some "exit status 1".toList
      else none }

/-- The command `createDatabase` runs for a site. -/
def mysqlCommand (s : Site) : List Str :=
  ["mysql".toList, "-e".toList,
    createDatabaseSQL (sanitizeName s.Domain ++ "_db".toList)
      (sanitizeName s.Domain ++ "_user".toList) generatePassword]

/-- The four directories `Create` makes for a site: the site path and its `public`,
`logs` and `backups` subdirectories. -/
def layoutDirs (m : Manager) (s : Site) : List Str :=
  [filepathJoin [m.WebRoot, s.Domain],
   filepathJoin [filepathJoin [m.WebRoot, s.Domain], "public".toList],
   filepathJoin [filepathJoin [m.WebRoot, s.Domain], "logs".toList],
   filepathJoin [filepathJoin [m.WebRoot, s.Domain], "backups".toList]]

/-- The site as `Create` leaves it when the database step has succeeded. -/
def provisionedSite (m : Manager) (s : Site) : Site :=
  { s with Path := filepathJoin [m.WebRoot, s.Domain],
           DBName := sanitizeName s.Domain ++ "_db".toList,
           DBUser := sanitizeName s.Domain ++ "_user".toList,
           DBPass := generatePassword }

/-- The script of a command, when the command is a `mysql -e` command that succeeded. -/
def acceptedScript (env : Env) (cmd : List Str) : Option Str :=
  match cmd with
  | [prog, flag, sql] =>
    if prog = "mysql".toList ∧ flag = "-e".toList ∧ env.status cmd = none then some sql
    else none
  | _ => none

/-- Nothing but directories lies on the way to the path: each of its ancestors, and the
path itself, is free or a directory. -/
def onlyDirectories (w : World) (path : Str) : Prop :=
  ∀ a ∈ ancestors (filepathClean path), FS.stat w.fs a = none ∨ FS.stat w.fs a = some Entry.dir

/-- World `w1` is `w` with directories added at free paths. -/
def directoriesAdded (w w1 : World) : Prop :=
  (∀ p : Str, FS.stat w1.fs p = FS.stat w.fs p ∨
    (FS.stat w.fs p = none ∧ FS.stat w1.fs p = some Entry.dir)) ∧
  (∀ (p : Str) (e : Entry), FS.lookup w.fs p = some e → FS.lookup w1.fs p = some e)

instance (w : World) (path : Str) : Decidable (onlyDirectories w path) := by
  unfold onlyDirectories; infer_instance

/-- A filesystem in which the layout of `example.com` is already present. -/
def existingLayoutWorld : World :=
  { fs :=
      [("/var".toList, Entry.dir),
       ("/var/www".toList, Entry.dir),
       ("/var/www/example.com".toList, Entry.dir),
       ("/var/www/example.com/public".toList, Entry.dir),
       ("/var/www/example.com/logs".toList, Entry.dir),
       ("/var/www/example.com/backups".toList, Entry.dir),
       ("/var/www/example.com/public/old.html".toList, Entry.file "old".toList)],
    trace := [] }

/-- A filesystem with the web root `/var/www` and no site in it. -/
def webRootWorld : World :=
  { fs := [("/var".toList, Entry.dir), ("/var/www".toList, Entry.dir)], trace := [] }

/-- The backend address that `Caddy.AddSite` chooses for a flag: the cache address with
the flag set, the direct application address with the flag clear. -/
def backendAddress (enableVarnish : Bool) : Str :=
  if enableVarnish then "127.0.0.1:6081".toList else "127.0.0.1:9000".toList

/-- Nothing exists at the path or below it. -/
def FS.absent (fs : FS) (p : Str) : Prop := ∀ b ∈ fs, isUnder p b.1 = false

instance (fs : FS) (p : Str) : Decidable (FS.absent fs p) := by
  unfold FS.absent; infer_instance

/-- A filesystem in which the proxy configuration path of `example.com` is a directory
that is not empty, so that it cannot be removed with `os.Remove`. -/
def blockedConfigWorld : World :=
  { fs :=
      [("/var/www".toList, Entry.dir),
       ("/var/www/example.com".toList, Entry.dir),
       ("/etc/caddy/sites".toList, Entry.dir),
       ("/etc/caddy/sites/example.com.conf".toList, Entry.dir),
       ("/etc/caddy/sites/example.com.conf/Caddyfile".toList, Entry.file "example.com".toList)],
    trace := [] }

/-- A single path component that names an entry: not empty, not `.` or `..`, without
`/`. -/
def siteName (d : Str) : Prop := d ≠ [] ∧ d ≠ ".".toList ∧ d ≠ "..".toList ∧ '/' ∉ d

instance : DecidablePred siteName := fun d => by unfold siteName; infer_instance

/-- The command `createConfig` runs for a site. -/
def configCommand (s : Site) : List Str :=
  ["wp".toList, "config".toList, "create".toList,
   "--path=".toList ++ filepathJoin [s.Path, "public".toList],
   "--dbname=".toList ++ s.DBName,
   "--dbuser=".toList ++ s.DBUser,
   "--dbpass=".toList ++ s.DBPass,
   "--dbhost=localhost".toList]

/-- The path of the configuration file of a site. -/
def configPath (s : Site) : Str :=
  filepathJoin [filepathJoin [s.Path, "public".toList], "wp-config.php".toList]

/-- The lines of a `wp-config.php` before the marker, as WP-CLI writes them, shortened to
the database settings. -/
def configHead : Str :=
  ("<?php\n" ++
   "define( \x27DB_NAME\x27, \x27example_com_db\x27 );\n" ++
   "define( \x27DB_USER\x27, \x27example_com_user\x27 );\n" ++
   "define( \x27DB_PASSWORD\x27, \x27secret\x27 );\n").toList

/-- The marker of `createConfig`. -/
def configMarker : Str := "/* That\x27s all, stop editing!".toList

/-- The rest of a `wp-config.php` from the end of the marker on, as WP-CLI writes it. -/
def configTail : Str :=
  (" Happy publishing. */\n" ++
   "if ( ! defined( \x27ABSPATH\x27 ) ) \x7b\n" ++
   "\tdefine( \x27ABSPATH\x27, __DIR__ . \x27/\x27 );\n" ++
   "\x7d\n" ++
   "require_once ABSPATH . \x27wp-settings.php\x27;\n").toList

/-- A `wp-config.php` as WP-CLI writes it: the settings, the marker line and the lines
that load WordPress. -/
def standardConfig : Str := configHead ++ configMarker ++ configTail

/-- The entries of the tree at `source`, renamed to lie at `target`. -/
def copyTree (fs : FS) (source target : Str) : FS :=
  (fs.filter (fun b => isUnder source b.1)).map
    (fun b => (target ++ b.1.drop source.length, b.2))

/-- A model of the external programs: `cp -r source target` copies the tree at `source`
to `target` (into `target` when that is a directory), `wp core download` puts an
`index.php` into the directory of its `--path=` argument, `wp config create` a
`wp-config.php` with the content `standardConfig`, and `wp db export` writes the dump
file; other programs leave the filesystem as it is. -/
def modelTools : Tools :=
  { effect := fun cmd fs =>
      match cmd with
      | [prog, c1, c2, path] =>
        if prog = "cp".toList ∧ c1 = "-r".toList then
          (if FS.isDir fs path then
            copyTree fs c2 (path ++ "/".toList ++ ((splitOn '/' c2).getLast?.getD []))
          else copyTree fs c2 path) ++ fs
        else if c1 = "core".toList ∧ c2 = "download".toList then
          (path.drop 7 ++ "/index.php".toList, Entry.file "<?php".toList) :: fs
        else fs
      | _ :: c1 :: c2 :: path :: _ =>
        if c1 = "config".toList ∧ c2 = "create".toList then
          (path.drop 7 ++ "/wp-config.php".toList, Entry.file standardConfig) :: fs
        else if c1 = "db".toList ∧ c2 = "export".toList then
          (path, Entry.file "-- MySQL dump".toList) :: FS.erase fs path
        else fs
      | _ => fs }

/-- A filesystem in which the proxy configuration cannot be written: `/etc/caddy` is a
regular file, so that the directory `/etc/caddy/sites` cannot be made. -/
def brokenProxyWorld : World :=
  { fs :=
      [("/var".toList, Entry.dir),
       ("/var/www".toList, Entry.dir),
       ("/var/www/example.com".toList, Entry.dir),
       ("/var/www/example.com/public".toList, Entry.dir),
       ("/etc".toList, Entry.dir),
       ("/etc/caddy".toList, Entry.file [])],
    trace := [] }

/-- An environment in which the reload of the proxy fails and every other command
succeeds. -/
def reloadFails : Env :=
  { status := fun cmd =>
      if cmd = ["systemctl".toList, "reload".toList, "caddy".toList] then
        some "exit status 1".toList
      else none }

/-- The `grep` command with which `AddToConfig` reads the line of a key. -/
def grepCommand (key : Str) : List Str :=
  ["grep".toList, "^".toList ++ key ++ " =".toList, "/etc/csf/csf.conf".toList]

/-- The line of `csf.conf` that stores a value for a key, as `grep` prints it. -/
def csfLine (key value : Str) : Str :=
  key ++ " = \x22".toList ++ value ++ "\x22\n".toList

/-- A key of `csf.conf`: it holds no `=` and begins with a character that is not white
space. -/
def csfKey (key : Str) : Prop :=
  '=' ∉ key ∧ ∃ c : Char, key.head? = some c ∧ unicodeIsSpace c = false

/-- A stored list: it holds no `=` and neither begins nor ends with a quote or a
blank. -/
def csfList (l : Str) : Prop :=
  '=' ∉ l ∧ l.head? ≠ some '\x22' ∧ l.head? ≠ some ' ' ∧
  l.getLast? ≠ some '\x22' ∧ l.getLast? ≠ some ' '

instance : DecidablePred csfList := fun l => by unfold csfList; infer_instance

/-- Programs whose output is the line `KEY = "8080,443"` for every `grep` of a key. -/
def sampleOutputs : Outputs :=
  { stdout := fun _ cmd =>
      match cmd with
      | [_, pattern, _] => csfLine ((pattern.drop 1).dropLast.dropLast) "8080,443".toList
      | _ => [] }

/-- The path is a symbolic link. -/
def FS.isLink (fs : FS) (p : Str) : Bool :=
  match FS.lookup fs p with
  | some (Entry.symlink _) => true
  | _ => false

/-- The dump file of `Clone`. -/
def cloneDumpPath (sourceDomain : Str) : Str :=
  "/tmp/clone_".toList ++ sourceDomain ++ ".sql".toList

/-- The dump file of `PushToProduction`. -/
def pushDumpPath (domain : Str) : Str :=
  "/tmp/staging_".toList ++ domain ++ ".sql".toList

/-- The world in which `Clone` removes the dump: the world after the copy, the database
creation, the export and the import. -/
def cloneDumpWorld (m : Manager) (env : Env) (tools : Tools) (sourceDomain targetDomain : Str)
    (w : World) : World :=
  let sourcePath := filepathJoin [m.WebRoot, sourceDomain]
  let targetPath := filepathJoin [m.WebRoot, targetDomain]
  let w1 := (runTool env tools ["cp".toList, "-r".toList, sourcePath, targetPath] w).2
  let w2 := (createDatabase env (Site.mk targetDomain targetPath [] [] [] false true) w1).2.2
  let w3 := (runTool env tools
    ["wp".toList, "db".toList, "export".toList, cloneDumpPath sourceDomain,
     "--path=".toList ++ sourcePath ++ "/public".toList] w2).2
  (runCommand env
    ["wp".toList, "db".toList, "import".toList, cloneDumpPath sourceDomain,
     "--path=".toList ++ targetPath ++ "/public".toList] w3).2

/-- The world in which `PushToProduction` removes the dump: the world after the backup,
the export, the file sync and the import. -/
def pushDumpWorld (m : Manager) (env : Env) (tools : Tools) (stamp domain : Str)
    (w : World) : World :=
  let stagingPath := filepathJoin [m.WebRoot, "staging.".toList ++ domain]
  let prodPath := filepathJoin [m.WebRoot, domain]
  let backupPath := "/backups/".toList ++ domain ++ "/pre-push_".toList ++ stamp ++
    ".tar.gz".toList
  let w1 := (osMkdirAll (filepathDir backupPath) w).2
  let w2 := (runTool env tools
    ["tar".toList, "-czf".toList, backupPath, "-C".toList, m.WebRoot, domain] w1).2
  let w3 := (runTool env tools
    ["wp".toList, "db".toList, "export".toList, pushDumpPath domain,
     "--path=".toList ++ stagingPath ++ "/public".toList] w2).2
  let w4 := (runTool env tools
    ["rsync".toList, "-av".toList, "--delete".toList,
     "--exclude=wp-config.php".toList, "--exclude=.htaccess".toList,
     stagingPath ++ "/public/".toList, prodPath ++ "/public/".toList] w3).2
  (runCommand env
    ["wp".toList, "db".toList, "import".toList, pushDumpPath domain,
     "--path=".toList ++ prodPath ++ "/public".toList] w4).2

/-- An environment in which every `wp` command fails and every other command
succeeds. -/
def wpFails : Env :=
  { status := fun cmd => if cmd.head? = some "wp".toList then some "exit status 1".toList
      else none }

/-- A server with the site `example.com`, its `wp-config.php` and its proxy
configuration. -/
def sourceSiteWorld : World :=
  { fs :=
      [("/var".toList, Entry.dir),
       ("/var/www".toList, Entry.dir),
       ("/var/www/example.com".toList, Entry.dir),
       ("/var/www/example.com/public".toList, Entry.dir),
       ("/var/www/example.com/public/wp-config.php".toList, Entry.file standardConfig),
       ("/var/www/example.com/public/index.php".toList, Entry.file "<?php".toList),
       ("/etc".toList, Entry.dir),
       ("/etc/caddy".toList, Entry.dir),
       ("/etc/caddy/sites".toList, Entry.dir),
       ("/etc/caddy/sites/example.com.conf".toList, Entry.file "example.com".toList),
       ("/tmp".toList, Entry.dir)],
    trace := [] }

/-- Go: `len(s)` of a string: the number of bytes of its UTF-8 encoding. -/
def byteLen (s : Str) : Nat := (s.map Char.utf8Size).sum

/-- Every character is an ASCII character, which UTF-8 encodes in one byte. -/
def isASCII (s : Str) : Prop := ∀ c ∈ s, c.toNat < 128

instance : DecidablePred isASCII := fun s => by unfold isASCII; infer_instance

/-! ## Name derivation -/

theorem sanitizeStep_append (acc : Str) (c : Char) :
    sanitizeStep acc c = acc ++ sanitizeStep [] c := by
  unfold sanitizeStep
  split
  · simp
  · split <;> simp

theorem foldl_sanitizeStep (d acc : Str) :
    d.foldl sanitizeStep acc = acc ++ d.foldl sanitizeStep [] := by
  induction d generalizing acc with
  | nil => simp
  | cons c t ih =>
    simp only [List.foldl_cons]
    rw [ih (sanitizeStep acc c), ih (sanitizeStep [] c), sanitizeStep_append acc c,
      List.append_assoc]

theorem sanitizeName_nil : sanitizeName [] = [] := rfl

theorem sanitizeName_cons (c : Char) (d : Str) :
    sanitizeName (c :: d) = sanitizeStep [] c ++ sanitizeName d := by
  unfold sanitizeName
  rw [List.foldl_cons, foldl_sanitizeStep]

theorem sanitizeStep_domainChar (c : Char) (h : domainChar c) :
    sanitizeStep [] c = [foldSeparator c] := by
  unfold sanitizeStep foldSeparator
  by_cases hs : c = '.' ∨ c = '-'
  · simp [hs]
  · have hl : ('a' ≤ c ∧ c ≤ 'z') ∨ ('0' ≤ c ∧ c ≤ '9') := by
      unfold domainChar at h
      rcases h with h | h | h | h
      · exact Or.inl h
      · exact Or.inr h
      · exact absurd (Or.inl h) hs
      · exact absurd (Or.inr h) hs
    simp [hs, hl]

theorem sanitizeName_domainChars (d : Str) (h : domainChars d) :
    sanitizeName d = d.map foldSeparator := by
  induction d with
  | nil => rfl
  | cons c t ih =>
    rw [sanitizeName_cons, sanitizeStep_domainChar c (h c (List.mem_cons_self c t)),
      ih (fun x hx => h x (List.mem_cons_of_mem c hx))]
    rfl


theorem foldSeparator_eq_iff (a b : Char) (ha : domainChar a) (hb : domainChar b) :
    foldSeparator a = foldSeparator b ↔ a = b ∨ (isSeparator a ∧ isSeparator b) := by
  have hu : ¬ domainChar '_' := by decide
  unfold foldSeparator isSeparator
  by_cases hsa : a = '.' ∨ a = '-' <;> by_cases hsb : b = '.' ∨ b = '-'
  · simp [hsa, hsb]
  · simp only [hsa, hsb, if_true, if_false, and_false, or_false]
    constructor
    · intro h; rw [← h] at hb; exact absurd hb hu
    · intro h; exact absurd (h ▸ hsa) hsb
  · simp only [hsa, hsb, if_true, if_false, false_and, or_false]
    constructor
    · intro h; rw [h] at ha; exact absurd ha hu
    · intro h; exact absurd (h ▸ hsb) hsa
  · simp [hsa, hsb]

theorem map_foldSeparator_eq_iff (d1 d2 : Str) (h1 : domainChars d1) (h2 : domainChars d2) :
    d1.map foldSeparator = d2.map foldSeparator ↔ sameUpToSeparators d1 d2 := by
  unfold sameUpToSeparators
  induction d1 generalizing d2 with
  | nil =>
    cases d2 with
    | nil => simp
    | cons b t => simp
  | cons a s ih =>
    cases d2 with
    | nil => simp
    | cons b t =>
      have ha := h1 a (List.mem_cons_self a s)
      have hb := h2 b (List.mem_cons_self b t)
      have hs : domainChars s := fun x hx => h1 x (List.mem_cons_of_mem a hx)
      have ht : domainChars t := fun x hx => h2 x (List.mem_cons_of_mem b hx)
      simp only [List.map_cons, List.cons.injEq, List.forall₂_cons]
      rw [foldSeparator_eq_iff a b ha hb, ih t hs ht]

theorem sanitizeName_eq_iff (d1 d2 : Str) (h1 : domainChars d1) (h2 : domainChars d2) :
    sanitizeName d1 = sanitizeName d2 ↔ sameUpToSeparators d1 d2 := by
  rw [sanitizeName_domainChars d1 h1, sanitizeName_domainChars d2 h2]
  exact map_foldSeparator_eq_iff d1 d2 h1 h2

theorem createDatabase_DBName (env : Env) (s : Site) (w : World) :
    (createDatabase env s w).1.DBName = sanitizeName s.Domain ++ "_db".toList := by
  unfold createDatabase
  simp only []
  split <;> rfl

theorem createDatabase_DBUser (env : Env) (s : Site) (w : World) :
    (createDatabase env s w).1.DBUser = sanitizeName s.Domain ++ "_user".toList := by
  unfold createDatabase
  simp only []
  split <;> rfl

/-- C1 (amended): for two domains built from lowercase letters, digits, `.` and `-`,
the database names that `createDatabase` derives coincide exactly when the domains have
the same length and agree at every position except where both have a separator (`.` or
`-`); the same holds for the database users.  So distinct domains get distinct names
unless they differ only by exchanging `.` and `-`. -/
theorem createDatabase_names_coincide_iff (env : Env) (s1 s2 : Site) (w1 w2 : World)
    (h1 : domainChars s1.Domain) (h2 : domainChars s2.Domain) :
    ((createDatabase env s1 w1).1.DBName = (createDatabase env s2 w2).1.DBName ↔
        sameUpToSeparators s1.Domain s2.Domain) ∧
    ((createDatabase env s1 w1).1.DBUser = (createDatabase env s2 w2).1.DBUser ↔
        sameUpToSeparators s1.Domain s2.Domain) := by
  simp only [createDatabase_DBName, createDatabase_DBUser, List.append_left_inj]
  exact ⟨sanitizeName_eq_iff _ _ h1 h2, sanitizeName_eq_iff _ _ h1 h2⟩

/-- C1, counterexample: the distinct domains `a.b` and `a-b` are built from the allowed
characters and `createDatabase` derives the same database name and the same user for
both. -/
theorem createDatabase_names_not_injective :
    domainChars "a.b".toList ∧ domainChars "a-b".toList ∧ "a.b".toList ≠ "a-b".toList ∧
    sanitizeName "a.b".toList ++ "_db".toList = sanitizeName "a-b".toList ++ "_db".toList ∧
    sanitizeName "a.b".toList ++ "_user".toList = sanitizeName "a-b".toList ++ "_user".toList ∧
    (createDatabase allSucceed (siteOf "a.b".toList true) emptyWorld).1.DBName =
      (createDatabase allSucceed (siteOf "a-b".toList true) emptyWorld).1.DBName ∧
    (createDatabase allSucceed (siteOf "a.b".toList true) emptyWorld).1.DBUser =
      (createDatabase allSucceed (siteOf "a-b".toList true) emptyWorld).1.DBUser := by
  decide

/-- C1, witness: the amended statement at `shop.example.com` and `shop-example.com`. -/
theorem createDatabase_names_coincide_iff_witness : domainChars "shop.example.com".toList ∧ domainChars "shop-example.com".toList ∧
    (((createDatabase allSucceed (siteOf "shop.example.com".toList true) emptyWorld).1.DBName =
        (createDatabase allSucceed (siteOf "shop-example.com".toList false) emptyWorld).1.DBName ↔
        sameUpToSeparators "shop.example.com".toList "shop-example.com".toList) ∧
    ((createDatabase allSucceed (siteOf "shop.example.com".toList true) emptyWorld).1.DBUser =
        (createDatabase allSucceed (siteOf "shop-example.com".toList false) emptyWorld).1.DBUser ↔
        sameUpToSeparators "shop.example.com".toList "shop-example.com".toList)) :=
  ⟨by decide, by decide, createDatabase_names_coincide_iff allSucceed _ _ emptyWorld emptyWorld
    (by decide) (by decide)⟩


theorem sanitizeStep_cases (c : Char) :
    (isSeparator c ∧ sanitizeStep [] c = ['_']) ∨
    (¬ isSeparator c ∧ c ≠ '_' ∧ sanitizeStep [] c = [c]) ∨
    (¬ isSeparator c ∧ sanitizeStep [] c = []) := by
  unfold sanitizeStep isSeparator
  by_cases hs : c = '.' ∨ c = '-'
  · left; simp [hs]
  · by_cases hl : ('a' ≤ c ∧ c ≤ 'z') ∨ ('0' ≤ c ∧ c ≤ '9')
    · right; left
      refine ⟨hs, ?_, by simp [hs, hl]⟩
      rintro rfl
      revert hl
      decide
    · right; right; simp [hs, hl]

theorem sanitizeName_singleton (c : Char) : sanitizeName [c] = sanitizeStep [] c := rfl

theorem sanitizeName_sanitizeStep (c : Char) :
    sanitizeName (sanitizeStep [] c) = (sanitizeStep [] c).filter (fun x => x ≠ '_') := by
  rcases sanitizeStep_cases c with ⟨_, h⟩ | ⟨hs, hu, h⟩ | ⟨_, h⟩
  · rw [h]; decide
  · rw [h, sanitizeName_singleton, h]; simp [hu]
  · rw [h]; rfl

theorem sanitizeName_append (a b : Str) :
    sanitizeName (a ++ b) = sanitizeName a ++ sanitizeName b := by
  induction a with
  | nil => simp [sanitizeName_nil]
  | cons c t ih => simp only [List.cons_append, sanitizeName_cons, ih, List.append_assoc]

theorem sanitizeName_twice (d : Str) :
    sanitizeName (sanitizeName d) = (sanitizeName d).filter (fun x => x ≠ '_') := by
  induction d with
  | nil => rfl
  | cons c t ih =>
    rw [sanitizeName_cons, sanitizeName_append, ih, sanitizeName_sanitizeStep, List.filter_append]

theorem underscore_mem_sanitizeName (d : Str) :
    '_' ∈ sanitizeName d ↔ ∃ c ∈ d, isSeparator c := by
  induction d with
  | nil => simp [sanitizeName_nil]
  | cons c t ih =>
    rw [sanitizeName_cons, List.mem_append, ih]
    rcases sanitizeStep_cases c with ⟨hs, h⟩ | ⟨hs, hu, h⟩ | ⟨hs, h⟩
    · rw [h]; simp [hs]
    · rw [h]; simp [hs, Ne.symm hu]
    · rw [h]; simp [hs]

/-- C2 (amended): sanitizing a sanitized name deletes its underscores, so
`sanitizeName (sanitizeName d)` equals `sanitizeName d` exactly when `d` contains no `.`
and no `-`. -/
theorem sanitizeName_resanitize (d : Str) :
    sanitizeName (sanitizeName d) = (sanitizeName d).filter (fun x => x ≠ '_') ∧
    (sanitizeName (sanitizeName d) = sanitizeName d ↔ ∀ c ∈ d, c ≠ '.' ∧ c ≠ '-') := by
  refine ⟨sanitizeName_twice d, ?_⟩
  rw [sanitizeName_twice, List.filter_eq_self]
  constructor
  · intro h c hc
    by_contra hn
    have hsep : isSeparator c := by
      unfold isSeparator
      by_contra hn2
      exact hn ⟨fun h1 => hn2 (Or.inl h1), fun h2 => hn2 (Or.inr h2)⟩
    have hm := (underscore_mem_sanitizeName d).2 ⟨c, hc, hsep⟩
    simpa using h '_' hm
  · intro h x hx
    simp only [ne_eq, decide_eq_true_eq]
    rintro rfl
    obtain ⟨c, hc, hs⟩ := (underscore_mem_sanitizeName d).1 hx
    rcases hs with hs | hs
    · exact (h c hc).1 hs
    · exact (h c hc).2 hs

/-- C2, counterexample: `sanitizeName "a.b"` is `a_b`, and sanitizing that again gives
`ab`. -/
theorem sanitizeName_not_idempotent :
    sanitizeName (sanitizeName "a.b".toList) = "ab".toList ∧
    sanitizeName "a.b".toList = "a_b".toList ∧
    sanitizeName (sanitizeName "a.b".toList) ≠ sanitizeName "a.b".toList := by
  decide

/-- C3: for a domain made only of lowercase letters, digits, `.` and `-`,
`createDatabase` sets `DBName` to the domain with each `.` and `-` replaced by `_`
followed by `_db`, and `DBUser` to the same stem followed by `_user`. -/
theorem createDatabase_names (env : Env) (s : Site) (w : World) (h : domainChars s.Domain) :
    (createDatabase env s w).1.DBName = s.Domain.map foldSeparator ++ "_db".toList ∧
    (createDatabase env s w).1.DBUser = s.Domain.map foldSeparator ++ "_user".toList := by
  rw [createDatabase_DBName, createDatabase_DBUser, sanitizeName_domainChars _ h]
  exact ⟨rfl, rfl⟩

/-- C3, witness: for `example.com` the database is `example_com_db` and the user is
`example_com_user`. -/
theorem createDatabase_names_example :
    domainChars (siteOf "example.com".toList true).Domain ∧
    ((createDatabase allSucceed (siteOf "example.com".toList true) emptyWorld).1.DBName =
        (siteOf "example.com".toList true).Domain.map foldSeparator ++ "_db".toList ∧
      (createDatabase allSucceed (siteOf "example.com".toList true) emptyWorld).1.DBUser =
        (siteOf "example.com".toList true).Domain.map foldSeparator ++ "_user".toList) ∧
    (createDatabase allSucceed (siteOf "example.com".toList true) emptyWorld).1.DBName =
      "example_com_db".toList ∧
    (createDatabase allSucceed (siteOf "example.com".toList true) emptyWorld).1.DBUser =
      "example_com_user".toList :=
  ⟨by decide, createDatabase_names allSucceed _ emptyWorld (by decide), by decide, by decide⟩

/-- C4: the password of `generatePassword` has at least 24 characters, each of them in
the alphabet `a-z`, `A-Z`, `0-9`, `!@#$%`. -/
theorem generatePassword_length_alphabet :
    24 ≤ generatePassword.length ∧ ∀ c ∈ generatePassword, passwordAlphabet c := by
  decide

/-- C5, the code at the failing input: `generatePassword` is the constant
`abcdefghijklmnopqrstuvwx`, its `i`-th character is `chars[i % len(chars)]`, and the
sites `example.com` and `example2.com` provisioned by `createDatabase` receive that same
password. -/
theorem generatePassword_fixed_pattern :
    generatePassword = "abcdefghijklmnopqrstuvwx".toList ∧
    (∀ i, i < 24 → generatePassword.get? i = passwordChars.get? (i % passwordChars.length)) ∧
    ((createDatabase allSucceed (siteOf "example.com".toList true) emptyWorld).2.1 =
        Except.ok "abcdefghijklmnopqrstuvwx".toList ∧
     (createDatabase allSucceed (siteOf "example2.com".toList true) emptyWorld).2.1 =
        Except.ok "abcdefghijklmnopqrstuvwx".toList) := by
  exact ⟨by decide, by decide, rfl, rfl⟩

/-! ## The reverse-proxy configuration text -/

/-- C6: the text `Caddy.AddSite` writes is a function of the domain and the flag alone:
for every domain there are a text `pre` ending in `php_fastcgi ` and a text `post`
starting a new line such that, for every generator and world, the text written is
`pre`, the backend address, `post`, where the address is `127.0.0.1:6081` with the flag
set and `127.0.0.1:9000` with the flag clear. -/
theorem Caddy.AddSite_text (domain : Str) :
    ∃ pre post : Str,
      "php_fastcgi ".toList <:+ pre ∧ "\n".toList <+: post ∧
      (∀ (c : Caddy) (w : World),
        c.AddSite domain true w =
          osWriteFile (filepathJoin [c.ConfigDir, domain ++ ".conf".toList])
            (pre ++ "127.0.0.1:6081".toList ++ post) (osMkdirAll c.ConfigDir w).2) ∧
      (∀ (c : Caddy) (w : World),
        c.AddSite domain false w =
          osWriteFile (filepathJoin [c.ConfigDir, domain ++ ".conf".toList])
            (pre ++ "127.0.0.1:9000".toList ++ post) (osMkdirAll c.ConfigDir w).2) := by
  refine ⟨domain ++ caddyTemplateRoot ++ domain ++ caddyTemplatePhp,
    caddyTemplateBody ++ domain ++ caddyTemplateEnd, ?_, ?_, ?_, ?_⟩
  · have h : "php_fastcgi ".toList <:+ caddyTemplatePhp :=
      ⟨"/public\n    \n    # PHP handling via FrankenPHP\n    ".toList, by decide⟩
    exact h.trans (List.suffix_append _ _)
  · have h : "\n".toList <+: caddyTemplateBody := ⟨caddyTemplateBody.tail, rfl⟩
    rw [List.append_assoc]
    exact h.trans (List.prefix_append _ _)
  · intro c w
    simp only [Caddy.AddSite, caddyConfigSprintf, if_true, List.append_assoc]
  · intro c w
    simp only [Caddy.AddSite, caddyConfigSprintf, List.append_assoc]
    rfl

/-- C7, the code at the failing input: `replaceConfigValue` leaves
`define('DB_NAME', 'old');` as it is, and the three calls of `Clone` leave a copied
`wp-config.php` with the source's database name, user and password as it is. -/
theorem replaceConfigValue_literal_pattern :
    replaceConfigValue "define('DB_NAME', 'old');".toList "DB_NAME".toList "new".toList =
      "define('DB_NAME', 'old');".toList ∧
    cloneConfigContent
      "define( 'DB_NAME', 'example_com_db' );\ndefine( 'DB_USER', 'example_com_user' );\ndefine( 'DB_PASSWORD', 'secret' );\n".toList
      "example2_com_db".toList "example2_com_user".toList generatePassword =
      "define( 'DB_NAME', 'example_com_db' );\ndefine( 'DB_USER', 'example_com_user' );\ndefine( 'DB_PASSWORD', 'secret' );\n".toList := by
  constructor
  · decide
  · decide

/-! ## Removal of a domain -/

theorem FS.lookup_filter (fs : FS) (keep : Str → Bool) (q : Str) :
    FS.lookup (fs.filter (fun b => keep b.1)) q = if keep q then FS.lookup fs q else none := by
  induction fs with
  | nil => simp [FS.lookup]
  | cons b rest ih =>
    obtain ⟨k, e⟩ := b
    by_cases hk : keep k = true
    · rw [List.filter_cons_of_pos (by simpa using hk)]
      by_cases hq : k = q
      · subst hq; simp [FS.lookup, hk]
      · simp only [FS.lookup, hq, if_false]; exact ih
    · rw [List.filter_cons_of_neg (by simpa using hk)]
      by_cases hq : k = q
      · subst hq; rw [ih]; simp [hk]
      · simp only [FS.lookup, hq, if_false]; exact ih

theorem FS.lookup_erase_self (fs : FS) (p : Str) : FS.lookup (FS.erase fs p) p = none := by
  have h := FS.lookup_filter fs (fun k => decide (k ≠ p)) p
  simpa [FS.erase] using h

theorem FS.lookup_erase_ne (fs : FS) (p q : Str) (h : q ≠ p) :
    FS.lookup (FS.erase fs p) q = FS.lookup fs q := by
  have h1 := FS.lookup_filter fs (fun k => decide (k ≠ p)) q
  simpa [FS.erase, h] using h1

theorem FS.lookup_erase_none (fs : FS) (p q : Str) (h : FS.lookup fs q = none) :
    FS.lookup (FS.erase fs p) q = none := by
  by_cases hq : q = p
  · subst hq; exact FS.lookup_erase_self fs q
  · rw [FS.lookup_erase_ne fs p q hq, h]

theorem FS.lookup_eraseTree_under (fs : FS) (p q : Str) (h : isUnder p q = true) :
    FS.lookup (FS.eraseTree fs p) q = none := by
  have h1 := FS.lookup_filter fs (fun k => decide (¬ isUnder p k = true)) q
  simpa [FS.eraseTree, h] using h1

theorem osRemove_fs (path : Str) (w : World) :
    (osRemove path w).2.fs = w.fs ∨ (osRemove path w).2.fs = FS.erase w.fs (filepathClean path) := by
  unfold osRemove
  simp only []
  split
  · left; rfl
  · split
    · left; rfl
    · split
      · left; rfl
      · split
        · left; rfl
        · right; rfl
      · right; rfl

theorem osRemove_lookup_ne (path : Str) (w : World) (q : Str) (h : q ≠ filepathClean path) :
    FS.lookup (osRemove path w).2.fs q = FS.lookup w.fs q := by
  rcases osRemove_fs path w with h1 | h1
  · rw [h1]
  · rw [h1, FS.lookup_erase_ne _ _ _ h]

theorem osRemove_lookup_none (path : Str) (w : World) (q : Str) (h : FS.lookup w.fs q = none) :
    FS.lookup (osRemove path w).2.fs q = none := by
  rcases osRemove_fs path w with h1 | h1
  · rw [h1, h]
  · rw [h1, FS.lookup_erase_none _ _ _ h]

theorem osRemove_symlink (path : Str) (w : World) (target : Str)
    (h : osLstat path w = Except.ok (Entry.symlink target)) :
    (osRemove path w).2.fs = FS.erase w.fs (filepathClean path) := by
  unfold osLstat at h
  unfold osRemove
  by_cases hp : path = []
  · simp [hp] at h
  · simp only [hp, if_false] at h ⊢
    by_cases hk : filepathClean path = "/".toList ∨ filepathClean path = ".".toList
    · rw [FS.stat, if_pos hk] at h
      simp at h
    · rw [FS.stat, if_neg hk] at h
      rw [if_neg hk]
      cases hl : FS.lookup w.fs (filepathClean path) with
      | none => simp [hl] at h
      | some e =>
        simp only [hl, Except.ok.injEq] at h
        subst h
        rfl

theorem osLstat_ok_ne_nil (path : Str) (w : World) (e : Entry) (h : osLstat path w = Except.ok e) :
    path ≠ [] := by
  rintro rfl
  simp [osLstat] at h

theorem osRemoveAll_fs (path : Str) (w : World) (h1 : path ≠ []) (h2 : endsWithDot path = false) :
    (osRemoveAll path w).2.fs = FS.eraseTree w.fs (filepathClean path) := by
  simp [osRemoveAll, h1, h2]

theorem runCommand_fs (env : Env) (cmd : List Str) (w : World) :
    (runCommand env cmd w).2.fs = w.fs := rfl

theorem Manager.RemoveDomain_effect (m : Manager) (env : Env) (domain : Str) (w : World)
    (fi : Entry) (h : osLstat (filepathJoin [m.WebRoot, domain]) w = Except.ok fi) :
    (m.RemoveDomain env domain w).1 = none ∧
    match fi with
    | Entry.symlink _ =>
      FS.lookup (m.RemoveDomain env domain w).2.fs
          (filepathClean (filepathJoin [m.WebRoot, domain])) = none ∧
      ∀ q : Str, q ≠ filepathClean (filepathJoin [m.WebRoot, domain]) →
        q ≠ filepathClean (filepathJoin ["/etc/caddy/sites".toList, domain ++ ".conf".toList]) →
        FS.lookup (m.RemoveDomain env domain w).2.fs q = FS.lookup w.fs q
    | _ =>
      endsWithDot (filepathJoin [m.WebRoot, domain]) = false →
      ∀ q : Str, isUnder (filepathClean (filepathJoin [m.WebRoot, domain])) q = true →
        FS.lookup (m.RemoveDomain env domain w).2.fs q = none := by
  have hne := osLstat_ok_ne_nil _ _ _ h
  cases fi with
  | symlink target =>
    have hrm := osRemove_symlink _ _ _ h
    simp only [Manager.RemoveDomain, h, runCommand_fs]
    refine ⟨trivial, ?_, ?_⟩
    · apply osRemove_lookup_none
      rw [hrm]; exact FS.lookup_erase_self _ _
    · intro q hq1 hq2
      rw [osRemove_lookup_ne _ _ _ hq2, hrm, FS.lookup_erase_ne _ _ _ hq1]
  | dir =>
    simp only [Manager.RemoveDomain, h, runCommand_fs]
    refine ⟨trivial, ?_⟩
    intro hd q hq
    apply osRemove_lookup_none
    rw [osRemoveAll_fs _ _ hne hd]
    exact FS.lookup_eraseTree_under _ _ _ hq
  | file content =>
    simp only [Manager.RemoveDomain, h, runCommand_fs]
    refine ⟨trivial, ?_⟩
    intro hd q hq
    apply osRemove_lookup_none
    rw [osRemoveAll_fs _ _ hne hd]
    exact FS.lookup_eraseTree_under _ _ _ hq

/-! ## Replacement of all occurrences -/

theorem replaceFrom_skip (old new : Str) (k : Nat) (s : Str) :
    replaceFrom old new k s = replaceFrom old new 0 (s.drop k) := by
  induction s generalizing k with
  | nil => simp [replaceFrom]
  | cons c t ih =>
    cases k with
    | zero => rfl
    | succ k => simp only [replaceFrom, List.drop_succ_cons]; exact ih k

theorem replaceFrom_nil (old new : Str) : replaceFrom old new 0 [] = [] := rfl

theorem replaceFrom_match (old new s : Str) (hne : old ≠ []) (h : old <+: s) :
    replaceFrom old new 0 s = new ++ replaceFrom old new 0 (s.drop old.length) := by
  cases s with
  | nil => exact absurd (List.prefix_nil.1 h) hne
  | cons c t =>
    have hp : old.isPrefixOf (c :: t) = true := List.isPrefixOf_iff_prefix.2 h
    have hlen : 0 < old.length := List.length_pos.2 hne
    simp only [replaceFrom, hp, if_true]
    rw [replaceFrom_skip]
    congr 2
    obtain ⟨n, hn⟩ : ∃ n, old.length = n + 1 := ⟨old.length - 1, by omega⟩
    rw [hn]; rfl

theorem replaceFrom_copy (old new : Str) (c : Char) (t : Str) (h : ¬ old <+: c :: t) :
    replaceFrom old new 0 (c :: t) = c :: replaceFrom old new 0 t := by
  have hp : ¬ old.isPrefixOf (c :: t) = true := fun hp => h (List.isPrefixOf_iff_prefix.1 hp)
  simp only [replaceFrom, hp, if_false]
  simp


theorem prefix_replaceFrom (P N Q : Str) (hb : NoNewOccurrence P N Q) :
    ∀ (n : Nat) (s V : Str), s.length = n → V <:+ Q → V <+: replaceFrom P N 0 s → V <+: s := by
  intro n
  induction n using Nat.strong_induction_on with
  | _ n ih =>
    intro s V hn hV hpre
    by_cases hVnil : V = []
    · subst hVnil; exact List.nil_prefix
    cases s with
    | nil => simpa [replaceFrom_nil] using hpre
    | cons c t =>
      by_cases hp : P <+: c :: t
      · rw [replaceFrom_match P N _ hb.nonempty hp] at hpre
        rcases List.prefix_or_prefix_of_prefix hpre (List.prefix_append N _) with h1 | h1
        · exact (hb.left V hVnil h1 hV).trans hp
        · exact absurd (h1.isInfix.trans hV.isInfix) hb.notAround
      · rw [replaceFrom_copy P N c t hp] at hpre
        cases V with
        | nil => exact List.nil_prefix
        | cons v V1 =>
          rw [List.cons_prefix_cons] at hpre ⊢
          refine ⟨hpre.1, ?_⟩
          have hV1 : V1 <:+ Q := (List.suffix_cons v V1).trans hV
          exact ih t.length (by simp at hn; omega) t V1 rfl hV1 hpre.2

theorem infix_append_cases (Q A B : Str) (h : Q <:+: A ++ B) :
    Q <:+: A ∨ Q <:+: B ∨ ∃ S : Str, S ≠ [] ∧ S <:+ A ∧ S <+: Q := by
  obtain ⟨t, hQt, htAB⟩ := List.infix_iff_prefix_suffix.1 h
  rcases List.suffix_or_suffix_of_suffix htAB (List.suffix_append A B) with h1 | h1
  · right; left
    exact List.infix_iff_prefix_suffix.2 ⟨t, hQt, h1⟩
  · obtain ⟨S, hS⟩ := h1
    have hSA : S <:+ A := by
      obtain ⟨u, hu⟩ := htAB
      rw [← hS, ← List.append_assoc] at hu
      exact ⟨u, List.append_cancel_right hu⟩
    rw [← hS] at hQt
    rcases List.prefix_or_prefix_of_prefix hQt (List.prefix_append S B) with h2 | h2
    · left; exact h2.isInfix.trans hSA.isInfix
    · by_cases hSnil : S = []
      · subst hSnil
        right; left
        simpa using hQt.isInfix
      · right; right; exact ⟨S, hSnil, hSA, h2⟩

theorem infix_replaceFrom (P N Q : Str) (hb : NoNewOccurrence P N Q) :
    ∀ (n : Nat) (s : Str), s.length = n → Q <:+: replaceFrom P N 0 s →
      ∃ u : Str, u <:+ s ∧ Q <+: u ∧ ¬ P <+: u := by
  intro n
  induction n using Nat.strong_induction_on with
  | _ n ih =>
    intro s hn hin
    cases s with
    | nil =>
      exfalso
      rw [replaceFrom_nil] at hin
      have hQ : Q = [] := List.infix_nil.1 hin
      exact hb.notIn (hQ ▸ ⟨[], N, by simp⟩)
    | cons c t =>
      by_cases hp : P <+: c :: t
      · rw [replaceFrom_match P N _ hb.nonempty hp] at hin
        rcases infix_append_cases Q N _ hin with h1 | h1 | ⟨S, hS, hSN, hSQ⟩
        · exact absurd h1 hb.notIn
        · have hlen : ((c :: t).drop P.length).length < n := by
            have := List.length_pos.2 hb.nonempty
            simp only [List.length_drop, List.length_cons]
            simp only [List.length_cons] at hn
            omega
          obtain ⟨u, hu, hQu, hPu⟩ := ih _ hlen _ rfl h1
          exact ⟨u, hu.trans (List.drop_suffix _ _), hQu, hPu⟩
        · exact absurd hSQ (fun h => hb.right S hS hSN h)
      · rw [replaceFrom_copy P N c t hp] at hin
        rcases List.infix_cons_iff.1 hin with h1 | h1
        · rw [← replaceFrom_copy P N c t hp] at h1
          have := prefix_replaceFrom P N Q hb _ (c :: t) Q rfl (List.suffix_refl Q) h1
          exact ⟨c :: t, List.suffix_refl _, this, hp⟩
        · obtain ⟨u, hu, hQu, hPu⟩ := ih t.length (by simp at hn; omega) t rfl h1
          exact ⟨u, hu.trans (List.suffix_cons c t), hQu, hPu⟩

theorem stringsReplaceAll_no_new (P N Q s : Str) (hb : NoNewOccurrence P N Q)
    (h : Q <:+: stringsReplaceAll s P N) :
    ∃ u : Str, u <:+ s ∧ Q <+: u ∧ ¬ P <+: u := by
  unfold stringsReplaceAll at h
  by_cases hPN : P = N
  · subst hPN
    obtain ⟨t, hQt, hts⟩ := List.infix_iff_prefix_suffix.1 (by simpa using h)
    refine ⟨t, hts, hQt, ?_⟩
    intro hPt
    rcases List.prefix_or_prefix_of_prefix hQt hPt with h1 | h1
    · exact hb.notIn h1.isInfix
    · exact hb.notAround h1.isInfix
  · simp only [hPN, hb.nonempty, if_false] at h
    exact infix_replaceFrom P N Q hb _ s rfl h

theorem stringsReplaceAll_removes (P N s : Str) (hb : NoNewOccurrence P N P) :
    ¬ P <:+: stringsReplaceAll s P N := by
  intro h
  obtain ⟨u, _, h1, h2⟩ := stringsReplaceAll_no_new P N P s hb h
  exact h2 h1

theorem stringsReplaceAll_keeps_absent (P N Q s : Str) (hb : NoNewOccurrence P N Q)
    (hs : ¬ Q <:+: s) : ¬ Q <:+: stringsReplaceAll s P N := by
  intro h
  obtain ⟨u, h0, h1, _⟩ := stringsReplaceAll_no_new P N Q s hb h
  exact hs (List.infix_iff_prefix_suffix.2 ⟨u, h1, h0⟩)

/-! ## URL schemes and hostnames -/

theorem suffix_append_cases (V A B : Str) (h : V <:+ A ++ B) :
    V <:+ B ∨ ∃ S : Str, S ≠ [] ∧ S <:+ A ∧ V = S ++ B := by
  rcases List.suffix_or_suffix_of_suffix h (List.suffix_append A B) with h1 | h1
  · exact Or.inl h1
  · obtain ⟨S, hS⟩ := h1
    by_cases hSnil : S = []
    · subst hSnil; left; simp at hS; rw [hS]
    · right
      refine ⟨S, hSnil, ?_, hS.symm⟩
      obtain ⟨u, hu⟩ := h
      rw [← hS, ← List.append_assoc] at hu
      exact ⟨u, List.append_cancel_right hu⟩

theorem suffix_https_head (S : Str) (h : S <:+ "https://".toList) (hh : S.head? = some 'h') :
    S = "https://".toList := by
  have hm : S ∈ "https://".toList.tails := (List.mem_tails _ _).2 h
  rw [show "https://".toList.tails = ["https://".toList, "ttps://".toList, "tps://".toList,
    "ps://".toList, "s://".toList, "://".toList, "//".toList, "/".toList, []] from by decide] at hm
  simp only [List.mem_cons, List.mem_singleton] at hm
  rcases hm with rfl | rfl | rfl | rfl | rfl | rfl | rfl | rfl | hm
  · rfl
  all_goals first | (exact absurd hh (by decide)) | (simp at hm; subst hm; exact absurd hh (by decide))

theorem suffix_http_head (S : Str) (h : S <:+ "http://".toList) (hh : S.head? = some 'h') :
    S = "http://".toList := by
  have hm : S ∈ "http://".toList.tails := (List.mem_tails _ _).2 h
  rw [show "http://".toList.tails = ["http://".toList, "ttp://".toList, "tp://".toList,
    "p://".toList, "://".toList, "//".toList, "/".toList, []] from by decide] at hm
  simp only [List.mem_cons, List.mem_singleton] at hm
  rcases hm with rfl | rfl | rfl | rfl | rfl | rfl | rfl | hm
  · rfl
  all_goals first | (exact absurd hh (by decide)) | (simp at hm; subst hm; exact absurd hh (by decide))

theorem head_of_prefix_scheme (V X y : Str) (hX : isScheme X) (hV : V ≠ []) (h : V <+: X ++ y) :
    V.head? = some 'h' := by
  cases V with
  | nil => exact absurd rfl hV
  | cons v V1 =>
    rcases hX with rfl | rfl
    · have : v = 'h' := (List.cons_prefix_cons.1 h).1
      simp [this]
    · have : v = 'h' := (List.cons_prefix_cons.1 h).1
      simp [this]

theorem suffix_scheme_cases (V X x : Str) (hX : isScheme X) (h : V <:+ X ++ x)
    (hh : V.head? = some 'h') : V <:+ x ∨ V = X ++ x := by
  rcases suffix_append_cases V X x h with h1 | ⟨S, hS, hSX, rfl⟩
  · exact Or.inl h1
  · right
    have hSh : S.head? = some 'h' := by
      cases S with
      | nil => exact absurd rfl hS
      | cons a S1 => simpa using hh
    rcases hX with rfl | rfl
    · rw [suffix_http_head S hSX hSh]
    · rw [suffix_https_head S hSX hSh]

theorem hostChars_of_suffix (V h : Str) (hh : hostChars h) (hV : V <:+ h) : hostChars V :=
  fun c hc => hh c (hV.subset hc)

theorem prefix_https_host (V y : Str) (hV : hostChars V) (h : V <+: "https://".toList ++ y) :
    V <+: "https".toList := by
  have hcolon : ¬ hostChar ':' := by decide
  rcases V with _ | ⟨a, _ | ⟨b, _ | ⟨c, _ | ⟨d, _ | ⟨e, _ | ⟨f, V⟩⟩⟩⟩⟩⟩
  all_goals simp only [show "https://".toList = ['h','t','t','p','s',':','/','/'] from rfl,
    show "https".toList = ['h','t','t','p','s'] from rfl, List.cons_append,
    List.cons_prefix_cons, List.nil_prefix, and_true] at h ⊢
  · exact h
  · exact h
  · exact h
  · exact h
  · exact h
  · exfalso
    have hf : f = ':' := h.2.2.2.2.2.1
    exact hcolon (hf ▸ hV f (by simp))

theorem prefix_http_host (V y : Str) (hV : hostChars V) (h : V <+: "http://".toList ++ y) :
    V <+: "http".toList := by
  have hcolon : ¬ hostChar ':' := by decide
  rcases V with _ | ⟨a, _ | ⟨b, _ | ⟨c, _ | ⟨d, _ | ⟨e, V⟩⟩⟩⟩⟩
  all_goals simp only [show "http://".toList = ['h','t','t','p',':','/','/'] from rfl,
    show "http".toList = ['h','t','t','p'] from rfl, List.cons_append,
    List.cons_prefix_cons, List.nil_prefix, and_true] at h ⊢
  · exact h
  · exact h
  · exact h
  · exact h
  · exfalso
    have he : e = ':' := h.2.2.2.2.1
    exact hcolon (he ▸ hV e (by simp))

theorem http_not_prefix_https (a b : Str) : ¬ "http://".toList ++ a <+: "https://".toList ++ b := by
  simp [show "https://".toList = ['h','t','t','p','s',':','/','/'] from rfl,
    show "http://".toList = ['h','t','t','p',':','/','/'] from rfl]

theorem https_not_prefix_http (a b : Str) : ¬ "https://".toList ++ a <+: "http://".toList ++ b := by
  simp [show "https://".toList = ['h','t','t','p','s',':','/','/'] from rfl,
    show "http://".toList = ['h','t','t','p',':','/','/'] from rfl]

theorem endsInSchemePrefix_of (V h : Str) (hV : V ≠ []) (hp : V <+: "https".toList) (hs : V <:+ h) :
    endsInSchemePrefix h := by
  have hm : V ∈ "https".toList.inits := (List.mem_inits _ _).2 hp
  rw [show "https".toList.inits = [[], "h".toList, "ht".toList, "htt".toList, "http".toList,
    "https".toList] from by decide] at hm
  simp only [List.mem_cons, List.not_mem_nil, or_false] at hm
  unfold endsInSchemePrefix
  rcases hm with rfl | rfl | rfl | rfl | rfl | rfl
  · exact absurd rfl hV
  · exact Or.inl hs
  · exact Or.inr (Or.inl hs)
  · exact Or.inr (Or.inr (Or.inl hs))
  · exact Or.inr (Or.inr (Or.inr (Or.inl hs)))
  · exact Or.inr (Or.inr (Or.inr (Or.inr hs)))

theorem prefix_http_of_prefix_https (V h : Str) (hp : V <+: "https".toList) (hs : V <:+ h)
    (hn : ¬ "https".toList <:+ h) : V <+: "http".toList := by
  have hm : V ∈ "https".toList.inits := (List.mem_inits _ _).2 hp
  rw [show "https".toList.inits = [[], "h".toList, "ht".toList, "htt".toList, "http".toList,
    "https".toList] from by decide] at hm
  simp only [List.mem_cons, List.not_mem_nil, or_false] at hm
  rcases hm with rfl | rfl | rfl | rfl | rfl | rfl
  · exact List.nil_prefix
  · decide
  · decide
  · decide
  · decide
  · exact absurd hs hn

/-! ## Cleaned paths -/

theorem splitOn_ne_nil (sep : Char) (s : Str) : splitOn sep s ≠ [] := by
  cases s with
  | nil => simp [splitOn]
  | cons c t =>
    unfold splitOn
    split
    · simp
    · split <;> simp

theorem splitOn_no_sep (sep : Char) (s : Str) : ∀ c ∈ splitOn sep s, sep ∉ c := by
  induction s with
  | nil => simp [splitOn]
  | cons a t ih =>
    intro c hc
    unfold splitOn at hc
    split at hc
    · simp at hc; subst hc; simp
    · rename_i h r heq
      rw [heq] at ih
      by_cases ha : a = sep
      · simp only [ha, if_true, List.mem_cons] at hc
        rcases hc with rfl | rfl | hc
        · simp
        · exact ih c (by simp)
        · exact ih c (by simp [hc])
      · simp only [ha, if_false, List.mem_cons] at hc
        rcases hc with rfl | hc
        · have := ih h (by simp)
          simp only [List.mem_cons, not_or]
          exact ⟨fun h0 => ha h0.symm, this⟩
        · exact ih c (by simp [hc])

theorem cleanStep_properNames (out : List Str) (comp : Str) (h : properNames out)
    (hc : '/' ∉ comp) : properNames (cleanStep true out comp) := by
  unfold cleanStep
  split
  · exact h
  · rename_i h1
    split
    · split
      · intro c hc1
        exact h c (List.dropLast_subset out hc1)
      · simp only [if_true]
        exact h
    · intro c hc1
      rcases List.mem_append.1 hc1 with h2 | h2
      · exact h c h2
      · simp only [List.mem_singleton] at h2
        subst h2
        exact ⟨fun h0 => h1 (Or.inl h0), fun h0 => h1 (Or.inr h0), hc⟩

theorem foldl_cleanStep_properNames (comps : List Str) (out : List Str) (h : properNames out)
    (hc : ∀ c ∈ comps, '/' ∉ c) : properNames (comps.foldl (cleanStep true) out) := by
  induction comps generalizing out with
  | nil => exact h
  | cons a t ih =>
    simp only [List.foldl_cons]
    exact ih _ (cleanStep_properNames out a h (hc a (by simp)))
      (fun c hc1 => hc c (List.mem_cons_of_mem a hc1))

theorem intercalate_cons_cons (sep a b : Str) (t : List Str) :
    sep.intercalate (a :: b :: t) = a ++ sep ++ sep.intercalate (b :: t) := by
  simp [List.intercalate, List.intersperse]

theorem intercalate_singleton (sep a : Str) : sep.intercalate [a] = a := by
  simp [List.intercalate, List.intersperse]

theorem slashDot_not_suffix (out : List Str) (h : properNames out) (hne : out ≠ []) :
    ¬ "/.".toList <:+ '/' :: "/".toList.intercalate out ∧ "/".toList.intercalate out ≠ [] := by
  induction out with
  | nil => exact absurd rfl hne
  | cons a t ih =>
    obtain ⟨ha1, ha2, ha3⟩ := h a (by simp)
    cases t with
    | nil =>
      rw [intercalate_singleton]
      refine ⟨?_, ha1⟩
      intro hs
      rcases List.suffix_cons_iff.1 hs with h1 | h1
      · have : a = ".".toList := by
          have h2 : "/.".toList = '/' :: ".".toList := rfl
          rw [h2] at h1
          exact (List.cons.inj h1).2.symm
        exact ha2 this
      · exact ha3 (h1.subset (by decide))
    | cons b t1 =>
      have ht : properNames (b :: t1) := fun c hc => h c (List.mem_cons_of_mem a hc)
      obtain ⟨ih1, ih2⟩ := ih ht (by simp)
      rw [intercalate_cons_cons]
      refine ⟨?_, by simp [ha1]⟩
      intro hs
      have hs1 : "/.".toList <:+ ('/' :: a) ++ ('/' :: "/".toList.intercalate (b :: t1)) := by
        simpa [List.append_assoc] using hs
      rcases suffix_append_cases _ _ _ hs1 with h1 | ⟨S, hS, _, hSeq⟩
      · exact ih1 h1
      · have hl := congrArg List.length hSeq
        have hS1 : 0 < S.length := List.length_pos.2 hS
        have hZ : 0 < ("/".toList.intercalate (b :: t1)).length := List.length_pos.2 ih2
        simp only [List.length_append, List.length_cons] at hl
        have : "/.".toList.length = 2 := rfl
        omega

theorem filepathClean_rooted (path : Str) (h : path.head? = some '/') :
    filepathClean path =
      '/' :: "/".toList.intercalate ((splitOn '/' path).foldl (cleanStep true) []) := by
  have hne : path ≠ [] := by
    rintro rfl
    simp at h
  unfold filepathClean
  rw [if_neg hne]
  simp only [h, decide_True, if_true]

theorem endsWithDot_filepathClean_rooted (path : Str) (h : path.head? = some '/') :
    endsWithDot (filepathClean path) = false := by
  rw [filepathClean_rooted path h]
  have hp := foldl_cleanStep_properNames (splitOn '/' path) [] (fun c hc => by simp at hc)
    (splitOn_no_sep '/' path)
  generalize (splitOn '/' path).foldl (cleanStep true) [] = out at hp
  have h1 : ¬ ('/' :: "/".toList.intercalate out = ".".toList) := by
    intro h0
    have := (List.cons.inj h0).1
    exact absurd this (by decide)
  have h2 : ¬ "/.".toList <:+ '/' :: "/".toList.intercalate out := by
    by_cases ho : out = []
    · subst ho
      decide
    · exact (slashDot_not_suffix out hp ho).1
  have h3 : ¬ ("/.".toList.isSuffixOf ('/' :: "/".toList.intercalate out) = true) :=
    fun h0 => h2 (List.isSuffixOf_iff_suffix.1 h0)
  unfold endsWithDot
  rw [decide_eq_false_iff_not]
  intro h0
  rcases h0 with h0 | h0
  · exact h1 h0
  · exact h3 h0

theorem filepathJoin_rooted (root d : Str) (h : root.head? = some '/') :
    filepathJoin [root, d] ≠ [] ∧ endsWithDot (filepathJoin [root, d]) = false := by
  cases root with
  | nil => simp at h
  | cons r rs =>
    have hr : r = '/' := by simpa using h
    subst hr
    have hj : filepathJoin ['/' :: rs, d] =
        filepathClean ("/".toList.intercalate ['/' :: rs, d]) := by
      simp [filepathJoin, List.dropWhile]
    have hhead : ("/".toList.intercalate ['/' :: rs, d]).head? = some '/' := by
      rw [intercalate_cons_cons]; rfl
    rw [hj]
    refine ⟨?_, endsWithDot_filepathClean_rooted _ hhead⟩
    rw [filepathClean_rooted _ hhead]
    simp

/-- C10: for a manager with an absolute web root, `RemoveDomain` on an existing entry
returns nil and branches on the entry type.  When `WebRoot/domain` is a symlink, the
link is gone afterwards and every other path, apart from the proxy configuration file of
the domain, is bound as before: the directory the link points to and all its content are
untouched.  When `WebRoot/domain` is not a symlink, the entry and everything below it
are gone. -/
theorem Manager.RemoveDomain_by_entry_type (m : Manager) (env : Env) (domain : Str)
    (w : World) (fi : Entry) (hroot : m.WebRoot.head? = some '/')
    (h : osLstat (filepathJoin [m.WebRoot, domain]) w = Except.ok fi) :
    (m.RemoveDomain env domain w).1 = none ∧
    match fi with
    | Entry.symlink _ =>
      FS.lookup (m.RemoveDomain env domain w).2.fs
          (filepathClean (filepathJoin [m.WebRoot, domain])) = none ∧
      ∀ q : Str, q ≠ filepathClean (filepathJoin [m.WebRoot, domain]) →
        q ≠ filepathClean (filepathJoin ["/etc/caddy/sites".toList, domain ++ ".conf".toList]) →
        FS.lookup (m.RemoveDomain env domain w).2.fs q = FS.lookup w.fs q
    | _ =>
      ∀ q : Str, isUnder (filepathClean (filepathJoin [m.WebRoot, domain])) q = true →
        FS.lookup (m.RemoveDomain env domain w).2.fs q = none := by
  have hdot := (filepathJoin_rooted m.WebRoot domain hroot).2
  have heff := Manager.RemoveDomain_effect m env domain w fi h
  cases fi with
  | symlink target => exact heff
  | dir => exact ⟨heff.1, heff.2 hdot⟩
  | file content => exact ⟨heff.1, heff.2 hdot⟩

/-- C10, witness: in `aliasWorld`, removing the alias `www.example.com` removes the link
and leaves the site's `index.php` in place, and removing the site `example.com` removes
the directory and its `index.php`. -/
theorem Manager.RemoveDomain_by_entry_type_witness :
    NewManager.WebRoot.head? = some '/' ∧
    osLstat (filepathJoin [NewManager.WebRoot, "www.example.com".toList]) aliasWorld =
      Except.ok (Entry.symlink "/var/www/example.com".toList) ∧
    ((NewManager.RemoveDomain allSucceed "www.example.com".toList aliasWorld).1 = none ∧
      FS.lookup (NewManager.RemoveDomain allSucceed "www.example.com".toList aliasWorld).2.fs
        "/var/www/www.example.com".toList = none ∧
      FS.lookup (NewManager.RemoveDomain allSucceed "www.example.com".toList aliasWorld).2.fs
        "/var/www/example.com/public/index.php".toList = some (Entry.file "<?php".toList)) ∧
    osLstat (filepathJoin [NewManager.WebRoot, "example.com".toList]) aliasWorld =
      Except.ok Entry.dir ∧
    ((NewManager.RemoveDomain allSucceed "example.com".toList aliasWorld).1 = none ∧
      FS.lookup (NewManager.RemoveDomain allSucceed "example.com".toList aliasWorld).2.fs
        "/var/www/example.com".toList = none ∧
      FS.lookup (NewManager.RemoveDomain allSucceed "example.com".toList aliasWorld).2.fs
        "/var/www/example.com/public/index.php".toList = none) := by
  have h1 := Manager.RemoveDomain_by_entry_type NewManager allSucceed "www.example.com".toList
    aliasWorld (Entry.symlink "/var/www/example.com".toList) (by decide) rfl
  have h2 := Manager.RemoveDomain_by_entry_type NewManager allSucceed "example.com".toList
    aliasWorld Entry.dir (by decide) rfl
  refine ⟨by decide, rfl, ⟨h1.1, h1.2.1, ?_⟩, rfl, ⟨h2.1, h2.2 _ (by decide), h2.2 _ (by decide)⟩⟩
  rw [h1.2.2 _ (by decide) (by decide)]
  decide

/-! ## The URL rewrite of `Clone` -/

theorem mem_splitOn_cases (sep : Char) (s : Str) (c : Char) (hc : c ∈ s) :
    c = sep ∨ ∃ l ∈ splitOn sep s, c ∈ l := by
  induction s with
  | nil => simp at hc
  | cons a t ih =>
    have hne := splitOn_ne_nil sep t
    unfold splitOn
    cases hsp : splitOn sep t with
    | nil => exact absurd hsp hne
    | cons h r =>
      simp only []
      rw [hsp] at ih
      by_cases ha : a = sep
      · rcases List.mem_cons.1 hc with h1 | h1
        · left; rw [h1, ha]
        · rcases ih h1 with h2 | ⟨l, hl, hcl⟩
          · exact Or.inl h2
          · right
            refine ⟨l, ?_, hcl⟩
            simp only [ha, if_true]
            exact List.mem_cons_of_mem _ hl
      · simp only [ha, if_false]
        rcases List.mem_cons.1 hc with h1 | h1
        · right
          exact ⟨a :: h, by simp, by simp [h1]⟩
        · rcases ih h1 with h2 | ⟨l, hl, hcl⟩
          · exact Or.inl h2
          · right
            rcases List.mem_cons.1 hl with h3 | h3
            · exact ⟨a :: h, by simp, by simp [← h3, hcl]⟩
            · exact ⟨l, by simp [h3], hcl⟩

/-- Every syntactically valid hostname is made of hostname characters, so the rewrite
statements below cover all valid hostnames. -/
theorem hostChars_of_validHostname (h : Str) (hv : validHostname h) : hostChars h := by
  intro c hc
  rcases mem_splitOn_cases '.' h c hc with h1 | ⟨l, hl, hcl⟩
  · subst h1; decide
  · exact ((hv.2 l hl).2.2.1 c hcl).1

theorem isScheme_ne_nil (X : Str) (hX : isScheme X) : X ≠ [] := by
  rcases hX with rfl | rfl <;> decide

theorem colon_mem_scheme (X : Str) (hX : isScheme X) : ':' ∈ X := by
  rcases hX with rfl | rfl <;> decide

theorem scheme_prefix_cases (Xa Xb a b : Str) (ha : isScheme Xa) (hb : isScheme Xb)
    (h : Xa ++ a <+: Xb ++ b) : Xa = Xb ∧ a <+: b := by
  rcases ha with rfl | rfl <;> rcases hb with rfl | rfl
  · exact ⟨rfl, (List.prefix_append_right_inj _).1 h⟩
  · exact absurd h (http_not_prefix_https a b)
  · exact absurd h (https_not_prefix_http a b)
  · exact ⟨rfl, (List.prefix_append_right_inj _).1 h⟩

theorem scheme_infix_aligned (Xa Xb a b : Str) (ha : isScheme Xa) (hb : isScheme Xb)
    (hhost : hostChars b) (h : Xa ++ a <:+: Xb ++ b) : Xa ++ a <+: Xb ++ b := by
  obtain ⟨t, hpt, hts⟩ := List.infix_iff_prefix_suffix.1 h
  have hne : Xa ++ a ≠ [] := by
    intro h0
    exact isScheme_ne_nil Xa ha (List.append_eq_nil.1 h0).1
  have hhead : t.head? = some 'h' := by
    have h1 : (Xa ++ a).head? = some 'h' :=
      head_of_prefix_scheme (Xa ++ a) Xa a ha hne (List.prefix_refl _)
    obtain ⟨r, rfl⟩ := hpt
    cases hxa : Xa ++ a with
    | nil => exact absurd hxa hne
    | cons x xs => rw [hxa] at h1; simpa using h1
  rcases suffix_scheme_cases t Xb b hb hts hhead with h1 | h1
  · exfalso
    have hcolon : ¬ hostChar ':' := by decide
    have hmem : ':' ∈ t := hpt.subset (List.mem_append_left a (colon_mem_scheme Xa ha))
    exact hcolon (hostChars_of_suffix t b hhost h1 ':' hmem)
  · rw [← h1]; exact hpt

theorem noNewOccurrence_scheme (Xp Xq p q tgt : Str) (hXp : isScheme Xp) (hXq : isScheme Xq)
    (hq : hostChars q) (ht : hostChars tgt) (htgt : ¬ endsInSchemePrefix tgt)
    (hleft : ∀ V : Str, V ≠ [] → V <+: "https".toList → V <:+ q → V <+: Xp ++ p)
    (hcross : Xq = "https://".toList → ¬ q <+: tgt ∧ ¬ tgt <+: q) :
    NoNewOccurrence (Xp ++ p) ("https://".toList ++ tgt) (Xq ++ q) := by
  have hS : isScheme "https://".toList := Or.inr rfl
  have hnotIn : ¬ Xq ++ q <+: "https://".toList ++ tgt := by
    intro h
    obtain ⟨h1, h2⟩ := scheme_prefix_cases Xq _ q tgt hXq hS h
    exact (hcross h1).1 h2
  have hnotAround : ¬ "https://".toList ++ tgt <+: Xq ++ q := by
    intro h
    obtain ⟨h1, h2⟩ := scheme_prefix_cases _ Xq tgt q hS hXq h
    exact (hcross h1.symm).2 h2
  refine ⟨?_, ?_, ?_, ?_, ?_⟩
  · intro h0
    exact isScheme_ne_nil Xp hXp (List.append_eq_nil.1 h0).1
  · intro V hV hVN hVQ
    have hhead := head_of_prefix_scheme V _ tgt hS hV hVN
    rcases suffix_scheme_cases V Xq q hXq hVQ hhead with h1 | h1
    · have hVh : hostChars V := hostChars_of_suffix V q hq h1
      exact hleft V hV (prefix_https_host V tgt hVh hVN) h1
    · subst h1
      exact absurd hVN hnotIn
  · intro S hSne hSN hSQ
    have hhead := head_of_prefix_scheme S Xq q hXq hSne hSQ
    rcases suffix_scheme_cases S _ tgt hS hSN hhead with h1 | h1
    · have hSh : hostChars S := hostChars_of_suffix S tgt ht h1
      have hSp : S <+: "https".toList := by
        rcases hXq with rfl | rfl
        · exact (prefix_http_host S q hSh hSQ).trans ⟨"s".toList, rfl⟩
        · exact prefix_https_host S q hSh hSQ
      exact htgt (endsInSchemePrefix_of S tgt hSne hSp h1)
    · subst h1
      exact hnotAround hSQ
  · intro h
    exact hnotIn (scheme_infix_aligned Xq _ q tgt hXq hS ht h)
  · intro h
    exact hnotAround (scheme_infix_aligned _ Xq tgt q hS hXq hq h)

theorem https_prefix_scheme (V p : Str) (h : V <+: "https".toList) :
    V <+: "https://".toList ++ p :=
  h.trans ⟨"://".toList ++ p, rfl⟩

theorem http_prefix_scheme (V p : Str) (h : V <+: "http".toList) :
    V <+: "http://".toList ++ p :=
  h.trans ⟨"://".toList ++ p, rfl⟩

/-- C8 (amended): with each search-replace taken as replacement of all occurrences, for
hostnames `source` and `target` such that `source` does not end in `https` and `target`
does not end in `h`, `ht`, `htt`, `http` or `https`, and for every content without an
occurrence of `http://target`, the content after the two rewrites of `Clone` contains no
occurrence of `http://source` and none of `http://target`. -/
theorem cloneRewrite_no_http (source target content : Str)
    (hs : hostChars source) (ht : hostChars target)
    (hsrc : ¬ "https".toList <:+ source) (htgt : ¬ endsInSchemePrefix target)
    (hc : ¬ "http://".toList ++ target <:+: content) :
    ¬ "http://".toList ++ source <:+: cloneRewrite source target content ∧
    ¬ "http://".toList ++ target <:+: cloneRewrite source target content := by
  have hH : isScheme "http://".toList := Or.inl rfl
  have hS : isScheme "https://".toList := Or.inr rfl
  have hne : "http://".toList ≠ "https://".toList := by decide
  unfold cloneRewrite searchReplace
  constructor
  · apply stringsReplaceAll_removes
    exact noNewOccurrence_scheme _ _ source source target hH hH hs ht htgt
      (fun V _ hV hVs => http_prefix_scheme V source
        (prefix_http_of_prefix_https V source hV hVs hsrc))
      (fun h => absurd h hne)
  · apply stringsReplaceAll_keeps_absent
    · exact noNewOccurrence_scheme _ _ source target target hH hH ht ht htgt
        (fun V hV hVp hVs => absurd (endsInSchemePrefix_of V target hV hVp hVs) htgt)
        (fun h => absurd h hne)
    · apply stringsReplaceAll_keeps_absent
      · exact noNewOccurrence_scheme _ _ source target target hS hH ht ht htgt
          (fun V _ hVp _ => https_prefix_scheme V source hVp)
          (fun h => absurd h hne)
      · exact hc

/-- C9 (amended): for hostnames `source` and `target`, neither a prefix of the other,
`source` not ending in `https` and `target` not ending in `h`, `ht`, `htt`, `http` or
`https`, the content after the two rewrites of `Clone` contains no occurrence of
`https://source` and none of `http://source`, whatever the content was.  Occurrences of
the bare source domain are not rewritten. -/
theorem cloneRewrite_no_source_url (source target content : Str)
    (hs : hostChars source) (ht : hostChars target)
    (hsrc : ¬ "https".toList <:+ source) (htgt : ¬ endsInSchemePrefix target)
    (h1 : ¬ source <+: target) (h2 : ¬ target <+: source) :
    ¬ "https://".toList ++ source <:+: cloneRewrite source target content ∧
    ¬ "http://".toList ++ source <:+: cloneRewrite source target content := by
  have hH : isScheme "http://".toList := Or.inl rfl
  have hS : isScheme "https://".toList := Or.inr rfl
  have hne : "http://".toList ≠ "https://".toList := by decide
  unfold cloneRewrite searchReplace
  constructor
  · apply stringsReplaceAll_keeps_absent
    · exact noNewOccurrence_scheme _ _ source source target hH hS hs ht htgt
        (fun V _ hV hVs => http_prefix_scheme V source
          (prefix_http_of_prefix_https V source hV hVs hsrc))
        (fun _ => ⟨h1, h2⟩)
    · apply stringsReplaceAll_removes
      exact noNewOccurrence_scheme _ _ source source target hS hS hs ht htgt
        (fun V _ hVp _ => https_prefix_scheme V source hVp)
        (fun _ => ⟨h1, h2⟩)
  · apply stringsReplaceAll_removes
    exact noNewOccurrence_scheme _ _ source source target hH hH hs ht htgt
      (fun V _ hV hVs => http_prefix_scheme V source
        (prefix_http_of_prefix_https V source hV hVs hsrc))
      (fun h => absurd h hne)

/-- C8, counterexample: for the valid hostnames `a.com` and `b.ch` and a content without
`http://b.ch`, the rewrites of `Clone` leave an occurrence of `http://a.com`; for
another such content they produce an occurrence of `http://b.ch`. -/
theorem cloneRewrite_leaves_http :
    validHostname "a.com".toList ∧ validHostname "b.ch".toList ∧ "a.com".toList ≠ "b.ch".toList ∧
    ¬ "http://b.ch".toList <:+: "http://a.comttp://a.com".toList ∧
    cloneRewrite "a.com".toList "b.ch".toList "http://a.comttp://a.com".toList =
      "https://b.chttp://a.com".toList ∧
    "http://".toList ++ "a.com".toList <:+:
      cloneRewrite "a.com".toList "b.ch".toList "http://a.comttp://a.com".toList ∧
    ¬ "http://b.ch".toList <:+: "http://a.comttp://b.ch".toList ∧
    cloneRewrite "a.com".toList "b.ch".toList "http://a.comttp://b.ch".toList =
      "https://b.chttp://b.ch".toList ∧
    "http://".toList ++ "b.ch".toList <:+:
      cloneRewrite "a.com".toList "b.ch".toList "http://a.comttp://b.ch".toList := by
  refine ⟨by decide, by decide, by decide, by decide, by decide, ?_, by decide, by decide, ?_⟩
  · exact ⟨"https://b.c".toList, [], by decide⟩
  · exact ⟨"https://b.c".toList, [], by decide⟩

/-- C9, counterexample: `example2.com` does not contain `example.com`, and the rewrites
of `Clone` leave the content `admin@example.com //example.com/logo.png` as it is, with
its two occurrences of `example.com`. -/
theorem cloneRewrite_leaves_source :
    validHostname "example.com".toList ∧ validHostname "example2.com".toList ∧
    ¬ "example.com".toList <:+: "example2.com".toList ∧
    cloneRewrite "example.com".toList "example2.com".toList
        "admin@example.com //example.com/logo.png".toList =
      "admin@example.com //example.com/logo.png".toList ∧
    "example.com".toList <:+:
      cloneRewrite "example.com".toList "example2.com".toList
        "admin@example.com //example.com/logo.png".toList := by
  refine ⟨by decide, by decide, by decide, by decide, ?_⟩
  exact ⟨"admin@".toList, " //example.com/logo.png".toList, by decide⟩

/-- The side conditions of the amended rewrite statements cannot be dropped: a source
ending in `https`, a target ending in `https`, a target that is a prefix of the source,
a source that is a prefix of the target and a target ending in `h` each leave a source
or target URL behind. -/
theorem cloneRewrite_side_conditions :
    "http://a.https".toList <:+:
      cloneRewrite "a.https".toList "b.com".toList "http://a.http://a.https".toList ∧
    "http://b.https".toList <:+:
      cloneRewrite "a.com".toList "b.https".toList "http://b.http://a.com".toList ∧
    "https://a.com.au".toList <:+:
      cloneRewrite "a.com.au".toList "a.com".toList "https://a.com.au.au".toList ∧
    "https://a.com".toList <:+:
      cloneRewrite "a.com".toList "a.com.au".toList "https://a.com".toList ∧
    "https://a.com".toList <:+:
      cloneRewrite "a.com".toList "b.ch".toList "https://a.comttps://a.com".toList := by
  refine ⟨⟨[], "://b.com".toList, by decide⟩, ⟨[], "://b.https".toList, by decide⟩,
    ⟨[], [], by decide⟩, ⟨[], ".au".toList, by decide⟩, ⟨"https://b.c".toList, [], by decide⟩⟩

/-- C8, witness: the amended statement at `example.com`, `example2.com` and a content
with one URL of each scheme. -/
theorem cloneRewrite_no_http_witness :
    hostChars "example.com".toList ∧ hostChars "example2.com".toList ∧
    ¬ "https".toList <:+ "example.com".toList ∧ ¬ endsInSchemePrefix "example2.com".toList ∧
    ¬ "http://".toList ++ "example2.com".toList <:+:
      "see http://example.com/a and https://example.com/b".toList ∧
    (¬ "http://".toList ++ "example.com".toList <:+:
        cloneRewrite "example.com".toList "example2.com".toList
          "see http://example.com/a and https://example.com/b".toList ∧
      ¬ "http://".toList ++ "example2.com".toList <:+:
        cloneRewrite "example.com".toList "example2.com".toList
          "see http://example.com/a and https://example.com/b".toList) ∧
    cloneRewrite "example.com".toList "example2.com".toList
        "see http://example.com/a and https://example.com/b".toList =
      "see https://example2.com/a and https://example2.com/b".toList :=
  ⟨by decide, by decide, by decide, by decide, by decide,
    cloneRewrite_no_http _ _ _ (by decide) (by decide) (by decide) (by decide) (by decide),
    by decide⟩

/-- C9, witness: the amended statement at `example.com`, `example2.com` and a content
that names the source with and without a scheme. -/
theorem cloneRewrite_no_source_url_witness :
    hostChars "example.com".toList ∧ hostChars "example2.com".toList ∧
    ¬ "https".toList <:+ "example.com".toList ∧ ¬ endsInSchemePrefix "example2.com".toList ∧
    ¬ "example.com".toList <+: "example2.com".toList ∧
    ¬ "example2.com".toList <+: "example.com".toList ∧
    (¬ "https://".toList ++ "example.com".toList <:+:
        cloneRewrite "example.com".toList "example2.com".toList
          "admin@example.com http://example.com/ https://example.com/".toList ∧
      ¬ "http://".toList ++ "example.com".toList <:+:
        cloneRewrite "example.com".toList "example2.com".toList
          "admin@example.com http://example.com/ https://example.com/".toList) :=
  ⟨by decide, by decide, by decide, by decide, by decide, by decide,
    cloneRewrite_no_source_url _ _ _ (by decide) (by decide) (by decide) (by decide)
      (by decide) (by decide)⟩

/-! ## The configuration rewrite of `Clone` -/

theorem replaceFrom_absent (old new s : Str) (h : ¬ old <:+: s) :
    replaceFrom old new 0 s = s := by
  induction s with
  | nil => rfl
  | cons c t ih =>
    have h1 : ¬ old <+: c :: t := fun hp => h hp.isInfix
    have h2 : ¬ old <:+: t := fun hi => h (hi.trans (List.suffix_cons c t).isInfix)
    rw [replaceFrom_copy old new c t h1, ih h2]

theorem stringsReplaceAll_absent (s old new : Str) (h : ¬ old <:+: s) :
    stringsReplaceAll s old new = s := by
  have hne : old ≠ [] := by
    rintro rfl
    exact h ⟨[], s, by simp⟩
  unfold stringsReplaceAll
  split
  · rfl
  · exact replaceFrom_absent old new s h

/-- A content in which the text of the regular expression does not occur literally is
returned unchanged by `replaceConfigValue`. -/
theorem replaceConfigValue_unchanged (content key value : Str)
    (h : ¬ "define\\s*\\(\\s*\x27".toList ++ key ++
      "\x27\\s*,\\s*\x27[^\x27]*\x27\\s*\\)".toList <:+: content) :
    replaceConfigValue content key value = content :=
  stringsReplaceAll_absent content _ _ h

/-! ## The trace of the calls -/

theorem mkdirChain_trace (chain : List Str) (w : World) :
    (mkdirChain chain w).2.trace = w.trace := by
  induction chain with
  | nil => rfl
  | cons a parents ih =>
    unfold mkdirChain
    split
    · rfl
    · split
      · rfl
      · split
        · rename_i err w1 h
          rw [h] at ih; exact ih
        · rename_i w1 h
          rw [h] at ih; exact ih

theorem osMkdirAll_trace (path : Str) (w : World) : (osMkdirAll path w).2.trace = w.trace := by
  unfold osMkdirAll
  split
  · rfl
  · exact mkdirChain_trace _ w

theorem createDirs_trace (dirs : List Str) (w : World) :
    (createDirs dirs w).2.trace = w.trace := by
  induction dirs generalizing w with
  | nil => rfl
  | cons d rest ih =>
    unfold createDirs
    split
    · rename_i err w1 h
      have := osMkdirAll_trace d w
      rw [h] at this; exact this
    · rename_i w1 h
      have := osMkdirAll_trace d w
      rw [h] at this
      rw [ih w1]; exact this

theorem osWriteFile_trace (path data : Str) (w : World) :
    (osWriteFile path data w).2.trace = w.trace := by
  unfold osWriteFile
  split
  · rfl
  · split
    · rfl
    · split
      · rfl
      · split <;> rfl

theorem osRemove_trace (path : Str) (w : World) : (osRemove path w).2.trace = w.trace := by
  unfold osRemove
  simp only []
  split
  · rfl
  · split
    · rfl
    · split
      · rfl
      · split <;> rfl
      · rfl

theorem osRemoveAll_trace (path : Str) (w : World) : (osRemoveAll path w).2.trace = w.trace := by
  unfold osRemoveAll
  split
  · rfl
  · split <;> rfl

theorem osSymlink_trace (o n : Str) (w : World) : (osSymlink o n w).2.trace = w.trace := by
  unfold osSymlink
  split
  · rfl
  · split
    · rfl
    · split <;> rfl

theorem Caddy.AddSite_trace (c : Caddy) (d : Str) (b : Bool) (w : World) :
    (c.AddSite d b w).2.trace = w.trace := by
  unfold Caddy.AddSite
  simp only []
  rw [osWriteFile_trace, osMkdirAll_trace]


theorem createDatabase_eq (env : Env) (s : Site) (w : World) :
    createDatabase env s w =
      ({ s with DBName := sanitizeName s.Domain ++ "_db".toList,
                DBUser := sanitizeName s.Domain ++ "_user".toList },
        (match env.status (mysqlCommand s) with
          | some err => Except.error err
          | none => Except.ok generatePassword),
        { w with trace := w.trace ++ [mysqlCommand s] }) := by
  unfold createDatabase runCommand mysqlCommand
  simp only []
  cases h : env.status ["mysql".toList, "-e".toList,
    createDatabaseSQL (sanitizeName s.Domain ++ "_db".toList)
      (sanitizeName s.Domain ++ "_user".toList) generatePassword] <;> rfl

/-! ## The steps of Create -/

theorem Manager.Create_layout_error (m : Manager) (env : Env) (tools : Tools) (s : Site)
    (w w1 : World) (err : Str) (h : createDirs (layoutDirs m s) w = (some err, w1)) :
    m.Create env tools s w = ({ s with Path := filepathJoin [m.WebRoot, s.Domain] }, some err, w1) := by
  unfold layoutDirs at h
  simp only [Manager.Create, h]

theorem Manager.Create_database_error (m : Manager) (env : Env) (tools : Tools) (s : Site)
    (w w1 : World) (e : Str) (h : createDirs (layoutDirs m s) w = (none, w1))
    (he : env.status (mysqlCommand s) = some e) :
    m.Create env tools s w =
      ({ s with Path := filepathJoin [m.WebRoot, s.Domain],
                DBName := sanitizeName s.Domain ++ "_db".toList,
                DBUser := sanitizeName s.Domain ++ "_user".toList },
        some ("failed to create database: ".toList ++ e),
        { w1 with trace := w1.trace ++ [mysqlCommand s] }) := by
  unfold layoutDirs at h
  have hm : mysqlCommand { s with Path := filepathJoin [m.WebRoot, s.Domain] } = mysqlCommand s := rfl
  simp only [Manager.Create, h, createDatabase_eq, hm, he]

theorem Manager.downloadWordPress_trace (env : Env) (tools : Tools) (s : Site) (w : World) :
    ∃ c : List Str, c.head? = some "wp".toList ∧
      (Manager.downloadWordPress env tools s w).2.trace = w.trace ++ [c] :=
  ⟨["wp".toList, "core".toList, "download".toList,
    "--path=".toList ++ filepathJoin [s.Path, "public".toList]], rfl, rfl⟩

theorem Manager.createConfig_trace (env : Env) (tools : Tools) (s : Site) (w : World) :
    ∃ c : List Str, c.head? = some "wp".toList ∧
      (Manager.createConfig env tools s w).2.trace = w.trace ++ [c] := by
  refine ⟨["wp".toList, "config".toList, "create".toList,
       "--path=".toList ++ filepathJoin [s.Path, "public".toList],
       "--dbname=".toList ++ s.DBName,
       "--dbuser=".toList ++ s.DBUser,
       "--dbpass=".toList ++ s.DBPass,
       "--dbhost=localhost".toList], rfl, ?_⟩
  unfold Manager.createConfig runTool
  simp only []
  split
  · rename_i err w1 h
    simp only [Prod.mk.injEq] at h
    rw [← h.2]
  · rename_i w1 h
    simp only [Prod.mk.injEq] at h
    rw [osWriteFile_trace, ← h.2]

theorem Manager.Create_success (m : Manager) (env : Env) (tools : Tools) (s : Site)
    (w : World) (h : (m.Create env tools s w).2.1 = none) :
    ∃ (w1 w4 : World) (rest : List (List Str)),
      createDirs (layoutDirs m s) w = (none, w1) ∧
      env.status (mysqlCommand s) = none ∧
      (m.CaddyConf.AddSite s.Domain s.UseVarnish w4).1 = none ∧
      (m.Create env tools s w).1 = provisionedSite m s ∧
      (m.Create env tools s w).2.2.fs = (m.CaddyConf.AddSite s.Domain s.UseVarnish w4).2.fs ∧
      (m.Create env tools s w).2.2.trace = w.trace ++ mysqlCommand s :: rest ∧
      ∀ c ∈ rest, c.head? ≠ some "mysql".toList := by
  have hm : mysqlCommand { s with Path := filepathJoin [m.WebRoot, s.Domain] } = mysqlCommand s := rfl
  have hwp : ∀ c : List Str, c.head? = some "wp".toList → c.head? ≠ some "mysql".toList := by
    intro c hc
    rw [hc]
    decide
  cases hd : createDirs (layoutDirs m s) w with
  | mk r1 w1 =>
    have ht1 : w1.trace = w.trace := by
      have := createDirs_trace (layoutDirs m s) w
      rw [hd] at this; exact this
    cases r1 with
    | some err =>
      rw [Manager.Create_layout_error m env tools s w w1 err hd] at h
      simp at h
    | none =>
      cases hs : env.status (mysqlCommand s) with
      | some e =>
        rw [Manager.Create_database_error m env tools s w w1 e hd hs] at h
        simp at h
      | none =>
        unfold layoutDirs at hd
        obtain ⟨c3, hc3, ht3⟩ := Manager.downloadWordPress_trace env tools (provisionedSite m s)
          { w1 with trace := w1.trace ++ [mysqlCommand s] }
        cases hdl : Manager.downloadWordPress env tools
            (provisionedSite m s) { w1 with trace := w1.trace ++ [mysqlCommand s] } with
        | mk r3 w3 =>
          rw [hdl] at ht3
          obtain ⟨c4, hc4, ht4⟩ := Manager.createConfig_trace env tools (provisionedSite m s) w3
          cases hcf : Manager.createConfig env tools (provisionedSite m s) w3 with
          | mk r4 w4 =>
            rw [hcf] at ht4
            cases had : m.CaddyConf.AddSite s.Domain s.UseVarnish w4 with
            | mk r5 w5 =>
              have ht5 : w5.trace = w4.trace := by
                have := Caddy.AddSite_trace m.CaddyConf s.Domain s.UseVarnish w4
                rw [had] at this; exact this
              unfold provisionedSite at hdl hcf
              simp only [Manager.Create, hd, createDatabase_eq, hm, hs, hdl] at h ⊢
              cases r3 with
              | some e => simp at h
              | none =>
                simp only [hcf] at h ⊢
                cases r4 with
                | some e => simp at h
                | none =>
                  simp only [had] at h ⊢
                  cases r5 with
                  | some e => simp at h
                  | none =>
                    have ht3' : w3.trace = w1.trace ++ [mysqlCommand s] ++ [c3] := ht3
                    have ht4' : w4.trace = w3.trace ++ [c4] := ht4
                    refine ⟨w1, w4, [c3, c4, ["systemctl".toList, "reload".toList, "caddy".toList],
                      ["chown".toList, "-R".toList, "www-data:www-data".toList,
                        filepathJoin [m.WebRoot, s.Domain]]], rfl, trivial, ?_, rfl, ?_, ?_, ?_⟩
                    · rw [had]
                    · rw [had]; rfl
                    · simp only [runCommand, ht5, ht4', ht3', ht1, List.append_assoc,
                        List.singleton_append, List.cons_append, List.nil_append]
                    · intro c hc
                      simp only [List.mem_cons, List.mem_singleton, List.not_mem_nil,
                        or_false] at hc
                      rcases hc with rfl | rfl | rfl | rfl
                      · exact hwp _ hc3
                      · exact hwp _ hc4
                      · decide
                      · simp

/-! ## Create followed by Delete -/

theorem mysqlScripts_eq (env : Env) (w : World) :
    mysqlScripts env w = w.trace.filterMap (acceptedScript env) := rfl

theorem acceptedScript_other (env : Env) (cmd : List Str)
    (h : cmd.head? ≠ some "mysql".toList) : acceptedScript env cmd = none := by
  unfold acceptedScript
  split
  · rename_i prog flag sql
    have hp : prog ≠ "mysql".toList := fun hp => h (by simp [hp])
    rw [if_neg (fun hc => hp hc.1)]
  · rfl

theorem acceptedScript_mysqlCommand (env : Env) (s : Site)
    (h : env.status (mysqlCommand s) = none) :
    acceptedScript env (mysqlCommand s) =
      some (createDatabaseSQL (sanitizeName s.Domain ++ "_db".toList)
        (sanitizeName s.Domain ++ "_user".toList) generatePassword) := by
  unfold mysqlCommand at h ⊢
  unfold acceptedScript
  simp only [h, and_self, if_true]

theorem filterMap_acceptedScript_others (env : Env) (cmds : List (List Str))
    (h : ∀ c ∈ cmds, c.head? ≠ some "mysql".toList) :
    cmds.filterMap (acceptedScript env) = [] := by
  induction cmds with
  | nil => rfl
  | cons c t ih =>
    rw [List.filterMap_cons, acceptedScript_other env c (h c (by simp))]
    exact ih (fun x hx => h x (List.mem_cons_of_mem c hx))

theorem Manager.Delete_trace (m : Manager) (env : Env) (domain : Str) (w : World) :
    (m.Delete env domain w).2.trace =
      w.trace ++ [["systemctl".toList, "reload".toList, "caddy".toList]] := by
  simp only [Manager.Delete, runCommand, osRemove_trace, osRemoveAll_trace]

theorem Manager.Delete_removes_tree (m : Manager) (env : Env) (domain : Str) (w : World)
    (h1 : filepathJoin [m.WebRoot, domain] ≠ [])
    (h2 : endsWithDot (filepathJoin [m.WebRoot, domain]) = false) (q : Str)
    (hq : isUnder (filepathClean (filepathJoin [m.WebRoot, domain])) q = true) :
    FS.lookup (m.Delete env domain w).2.fs q = none := by
  simp only [Manager.Delete, runCommand_fs]
  apply osRemove_lookup_none
  rw [osRemoveAll_fs _ _ h1 h2]
  exact FS.lookup_eraseTree_under _ _ _ hq

theorem createDatabaseSQL_creates (name user pw : Str) :
    "CREATE DATABASE IF NOT EXISTS ".toList ++ name ++ ";".toList <:+:
        createDatabaseSQL name user pw ∧
    "CREATE USER IF NOT EXISTS \x27".toList ++ user ++ "\x27@\x27localhost\x27".toList <:+:
        createDatabaseSQL name user pw := by
  constructor
  · refine ⟨"\n\t\t".toList, "\n\t\tCREATE USER IF NOT EXISTS \x27".toList ++ user ++
      "\x27@\x27localhost\x27 IDENTIFIED BY \x27".toList ++ pw ++
      "\x27;\n\t\tGRANT ALL PRIVILEGES ON ".toList ++ name ++
      ".* TO \x27".toList ++ user ++
      "\x27@\x27localhost\x27;\n\t\tFLUSH PRIVILEGES;\n\t".toList, ?_⟩
    unfold createDatabaseSQL
    simp only [List.append_assoc]
    rfl
  · refine ⟨"\n\t\tCREATE DATABASE IF NOT EXISTS ".toList ++ name ++ ";\n\t\t".toList,
      " IDENTIFIED BY \x27".toList ++ pw ++
      "\x27;\n\t\tGRANT ALL PRIVILEGES ON ".toList ++ name ++
      ".* TO \x27".toList ++ user ++
      "\x27@\x27localhost\x27;\n\t\tFLUSH PRIVILEGES;\n\t".toList, ?_⟩
    unfold createDatabaseSQL
    simp only [List.append_assoc]
    rfl

/-- C11 (amended): for a manager with an absolute web root, after a successful `Create`
of a site followed immediately by `Delete` of its domain, `Delete` has returned nil and
no entry is left at or below `WebRoot/domain`; the database and the database user that
`Create` provisioned still exist, since `Delete` runs no database command. -/
theorem Manager.Create_Delete_residue (m : Manager) (env : Env) (tools : Tools) (s : Site)
    (w : World) (hroot : m.WebRoot.head? = some '/')
    (hc : (m.Create env tools s w).2.1 = none) :
    (m.Delete env s.Domain (m.Create env tools s w).2.2).1 = none ∧
    (∀ q : Str, isUnder (filepathClean (filepathJoin [m.WebRoot, s.Domain])) q = true →
      FS.lookup (m.Delete env s.Domain (m.Create env tools s w).2.2).2.fs q = none) ∧
    databaseExists env (m.Delete env s.Domain (m.Create env tools s w).2.2).2
      (m.Create env tools s w).1.DBName ∧
    userExists env (m.Delete env s.Domain (m.Create env tools s w).2.2).2
      (m.Create env tools s w).1.DBUser := by
  obtain ⟨w1, w4, rest, _, hs, _, hsite, _, htrace, hrest⟩ :=
    Manager.Create_success m env tools s w hc
  have hj := filepathJoin_rooted m.WebRoot s.Domain hroot
  have hscripts : mysqlScripts env (m.Delete env s.Domain (m.Create env tools s w).2.2).2 =
      mysqlScripts env w ++
        createDatabaseSQL (sanitizeName s.Domain ++ "_db".toList)
          (sanitizeName s.Domain ++ "_user".toList) generatePassword :: [] := by
    rw [mysqlScripts_eq, Manager.Delete_trace, htrace, mysqlScripts_eq]
    simp only [List.filterMap_append, List.filterMap_cons, acceptedScript_mysqlCommand env s hs,
      filterMap_acceptedScript_others env rest hrest, List.filterMap_nil]
    rw [acceptedScript_other env _ (by decide)]
    simp
  have hsql := createDatabaseSQL_creates (sanitizeName s.Domain ++ "_db".toList)
    (sanitizeName s.Domain ++ "_user".toList) generatePassword
  refine ⟨rfl, ?_, ?_, ?_⟩
  · intro q hq
    exact Manager.Delete_removes_tree m env s.Domain _ hj.1 hj.2 q hq
  · rw [hsite]
    exact ⟨_, [], _, hscripts, hsql.1, fun l hl => absurd hl (List.not_mem_nil l)⟩
  · rw [hsite]
    exact ⟨_, [], _, hscripts, hsql.2, fun l hl => absurd hl (List.not_mem_nil l)⟩

/-- C11, counterexample: after `Create` of `example.com` on the empty world, every
command succeeding, and `Delete` of `example.com`, the site directory is gone but the
database `example_com_db` and the user `example_com_user` still exist. -/
theorem Manager.Create_Delete_leaves_database :
    (NewManager.Create allSucceed sampleTools (siteOf "example.com".toList true) emptyWorld).2.1
      = none ∧
    (NewManager.Create allSucceed sampleTools (siteOf "example.com".toList true) emptyWorld).1.DBName
      = "example_com_db".toList ∧
    (NewManager.Create allSucceed sampleTools (siteOf "example.com".toList true) emptyWorld).1.DBUser
      = "example_com_user".toList ∧
    FS.lookup (NewManager.Delete allSucceed "example.com".toList
      (NewManager.Create allSucceed sampleTools (siteOf "example.com".toList true)
        emptyWorld).2.2).2.fs "/var/www/example.com".toList = none ∧
    databaseExists allSucceed (NewManager.Delete allSucceed "example.com".toList
      (NewManager.Create allSucceed sampleTools (siteOf "example.com".toList true)
        emptyWorld).2.2).2 "example_com_db".toList ∧
    userExists allSucceed (NewManager.Delete allSucceed "example.com".toList
      (NewManager.Create allSucceed sampleTools (siteOf "example.com".toList true)
        emptyWorld).2.2).2 "example_com_user".toList := by
  have hsql := createDatabaseSQL_creates "example_com_db".toList "example_com_user".toList
    generatePassword
  refine ⟨rfl, rfl, rfl, rfl, ?_, ?_⟩
  · exact ⟨[], [], _, rfl, hsql.1, fun l hl => absurd hl (List.not_mem_nil l)⟩
  · exact ⟨[], [], _, rfl, hsql.2, fun l hl => absurd hl (List.not_mem_nil l)⟩

/-- C11, witness: the amended statement at `example.com` on the empty world. -/
theorem Manager.Create_Delete_residue_witness :
    NewManager.WebRoot.head? = some '/' ∧
    (NewManager.Create allSucceed sampleTools (siteOf "example.com".toList true) emptyWorld).2.1
      = none ∧
    ((NewManager.Delete allSucceed (siteOf "example.com".toList true).Domain
      (NewManager.Create allSucceed sampleTools (siteOf "example.com".toList true)
        emptyWorld).2.2).1 = none ∧
    (∀ q : Str, isUnder (filepathClean (filepathJoin [NewManager.WebRoot,
        (siteOf "example.com".toList true).Domain])) q = true →
      FS.lookup (NewManager.Delete allSucceed (siteOf "example.com".toList true).Domain
        (NewManager.Create allSucceed sampleTools (siteOf "example.com".toList true)
          emptyWorld).2.2).2.fs q = none) ∧
    databaseExists allSucceed (NewManager.Delete allSucceed (siteOf "example.com".toList true).Domain
      (NewManager.Create allSucceed sampleTools (siteOf "example.com".toList true)
        emptyWorld).2.2).2
      (NewManager.Create allSucceed sampleTools (siteOf "example.com".toList true)
        emptyWorld).1.DBName ∧
    userExists allSucceed (NewManager.Delete allSucceed (siteOf "example.com".toList true).Domain
      (NewManager.Create allSucceed sampleTools (siteOf "example.com".toList true)
        emptyWorld).2.2).2
      (NewManager.Create allSucceed sampleTools (siteOf "example.com".toList true)
        emptyWorld).1.DBUser) :=
  ⟨by decide, rfl, Manager.Create_Delete_residue NewManager allSucceed sampleTools
    (siteOf "example.com".toList true) emptyWorld (by decide) rfl⟩

/-! ## Delete and the proxy configuration directory -/

/-- C12, the code at the failing input: for a manager whose proxy configuration
directory is `/srv/caddy/sites`, `Create` of `example.com` succeeds and writes
`/srv/caddy/sites/example.com.conf`, and after `Delete` of `example.com` that file is
still there with the same text; with the default directory `/etc/caddy/sites` the file
is gone after `Delete`. -/
theorem Manager.Delete_leaves_custom_config :
    (customManager.Create allSucceed sampleTools (siteOf "example.com".toList true)
      emptyWorld).2.1 = none ∧
    FS.lookup (customManager.Create allSucceed sampleTools (siteOf "example.com".toList true)
      emptyWorld).2.2.fs "/srv/caddy/sites/example.com.conf".toList =
      some (Entry.file (caddyConfigSprintf "example.com".toList "example.com".toList
        "127.0.0.1:6081".toList "example.com".toList)) ∧
    (customManager.Delete allSucceed "example.com".toList
      (customManager.Create allSucceed sampleTools (siteOf "example.com".toList true)
        emptyWorld).2.2).1 = none ∧
    FS.lookup (customManager.Delete allSucceed "example.com".toList
      (customManager.Create allSucceed sampleTools (siteOf "example.com".toList true)
        emptyWorld).2.2).2.fs "/srv/caddy/sites/example.com.conf".toList =
      some (Entry.file (caddyConfigSprintf "example.com".toList "example.com".toList
        "127.0.0.1:6081".toList "example.com".toList)) ∧
    FS.lookup (NewManager.Create allSucceed sampleTools (siteOf "example.com".toList true)
      emptyWorld).2.2.fs "/etc/caddy/sites/example.com.conf".toList =
      some (Entry.file (caddyConfigSprintf "example.com".toList "example.com".toList
        "127.0.0.1:6081".toList "example.com".toList)) ∧
    FS.lookup (NewManager.Delete allSucceed "example.com".toList
      (NewManager.Create allSucceed sampleTools (siteOf "example.com".toList true)
        emptyWorld).2.2).2.fs "/etc/caddy/sites/example.com.conf".toList = none :=
  ⟨rfl, rfl, rfl, rfl, rfl, rfl⟩

/-! ## The layout step of Create -/

theorem directoriesAdded_refl (w : World) : directoriesAdded w w :=
  ⟨fun _ => Or.inl rfl, fun _ _ h => h⟩

theorem directoriesAdded_trans (w w1 w2 : World) (h1 : directoriesAdded w w1)
    (h2 : directoriesAdded w1 w2) : directoriesAdded w w2 := by
  refine ⟨fun p => ?_, fun p e h => h2.2 p e (h1.2 p e h)⟩
  rcases h1.1 p with a | ⟨a1, a2⟩
  · rcases h2.1 p with b | ⟨b1, b2⟩
    · exact Or.inl (b.trans a)
    · exact Or.inr ⟨a ▸ b1, b2⟩
  · rcases h2.1 p with b | ⟨b1, _⟩
    · exact Or.inr ⟨a1, b.trans a2⟩
    · rw [a2] at b1; exact absurd b1 (by simp)

theorem FS.stat_none_lookup (fs : FS) (p : Str) (h : FS.stat fs p = none) :
    FS.lookup fs p = none ∧ p ≠ "/".toList ∧ p ≠ ".".toList := by
  unfold FS.stat at h
  by_cases hp : p = "/".toList ∨ p = ".".toList
  · rw [if_pos hp] at h; exact absurd h (by simp)
  · rw [if_neg hp] at h
    exact ⟨h, fun h1 => hp (Or.inl h1), fun h1 => hp (Or.inr h1)⟩

theorem directoriesAdded_cons (w : World) (a : Str) (h : FS.stat w.fs a = none) :
    directoriesAdded w { w with fs := (a, Entry.dir) :: w.fs } := by
  obtain ⟨hl, h1, h2⟩ := FS.stat_none_lookup w.fs a h
  constructor
  · intro p
    by_cases hp : a = p
    · subst hp
      right
      refine ⟨h, ?_⟩
      simp only [FS.stat, FS.lookup, if_true]
      rw [if_neg (fun hc => hc.elim h1 h2)]
    · left
      simp only [FS.stat, FS.lookup, hp, if_false]
  · intro p e hpe
    by_cases hp : a = p
    · subst hp; rw [hl] at hpe; exact absurd hpe (by simp)
    · simp only [FS.lookup, hp, if_false]; exact hpe

theorem mkdirChain_ok (chain : List Str) (w : World)
    (h : ∀ a ∈ chain, FS.stat w.fs a = none ∨ FS.stat w.fs a = some Entry.dir) :
    (mkdirChain chain w).1 = none ∧ directoriesAdded w (mkdirChain chain w).2 := by
  induction chain with
  | nil => exact ⟨rfl, directoriesAdded_refl w⟩
  | cons a parents ih =>
    have ih' := ih (fun x hx => h x (List.mem_cons_of_mem a hx))
    unfold mkdirChain
    by_cases hd : FS.isDir w.fs a = true
    · rw [if_pos hd]; exact ⟨rfl, directoriesAdded_refl w⟩
    · rw [if_neg hd]
      have hnone : FS.stat w.fs a = none := by
        rcases h a (List.mem_cons_self a parents) with h1 | h1
        · exact h1
        · exact absurd (by simp [FS.isDir, h1]) hd
      rw [hnone]
      simp only []
      cases hm : mkdirChain parents w with
      | mk r w1 =>
        rw [hm] at ih'
        obtain ⟨hr, hadd⟩ := ih'
        simp only [] at hr
        subst hr
        simp only []
        refine ⟨trivial, ?_⟩
        -- `a` is still free after the parents have been made, unless it has become a directory
        rcases hadd.1 a with h1 | ⟨_, h1⟩
        · exact directoriesAdded_trans w w1 _ hadd
            (directoriesAdded_cons w1 a (h1.trans hnone))
        · -- `a` was made on the way: the new binding repeats it
          refine ⟨fun p => ?_, fun p e hpe => ?_⟩
          · by_cases hp : a = p
            · subst hp
              right
              refine ⟨hnone, ?_⟩
              unfold FS.stat at h1 ⊢
              by_cases hc : a = "/".toList ∨ a = ".".toList
              · rw [if_pos hc]
              · rw [if_neg hc]; simp [FS.lookup]
            · have : FS.stat ((a, Entry.dir) :: w1.fs) p = FS.stat w1.fs p := by
                simp only [FS.stat, FS.lookup, hp, if_false]
              rw [show ({ w1 with fs := (a, Entry.dir) :: w1.fs } : World).fs =
                (a, Entry.dir) :: w1.fs from rfl, this]
              exact hadd.1 p
          · by_cases hp : a = p
            · subst hp
              have := (FS.stat_none_lookup w.fs a hnone).1
              rw [this] at hpe; exact absurd hpe (by simp)
            · simp only [FS.lookup, hp, if_false]
              exact hadd.2 p e hpe

theorem osMkdirAll_ok (path : Str) (w : World) (hne : path ≠ []) (h : onlyDirectories w path) :
    (osMkdirAll path w).1 = none ∧ directoriesAdded w (osMkdirAll path w).2 := by
  unfold osMkdirAll
  rw [if_neg hne]
  exact mkdirChain_ok _ w (fun a ha => h a (List.mem_reverse.1 ha))

theorem onlyDirectories_mono (w w1 : World) (path : Str) (hadd : directoriesAdded w w1)
    (h : onlyDirectories w path) : onlyDirectories w1 path := by
  intro a ha
  rcases hadd.1 a with h1 | ⟨_, h1⟩
  · rw [h1]; exact h a ha
  · exact Or.inr h1

theorem createDirs_ok (dirs : List Str) (w : World)
    (h : ∀ d ∈ dirs, d ≠ [] ∧ onlyDirectories w d) :
    (createDirs dirs w).1 = none ∧ directoriesAdded w (createDirs dirs w).2 := by
  induction dirs generalizing w with
  | nil => exact ⟨rfl, directoriesAdded_refl w⟩
  | cons d rest ih =>
    obtain ⟨hne, hd⟩ := h d (List.mem_cons_self d rest)
    obtain ⟨h1, h2⟩ := osMkdirAll_ok d w hne hd
    unfold createDirs
    cases hm : osMkdirAll d w with
    | mk r w1 =>
      rw [hm] at h1 h2
      simp only [] at h1 h2
      subst h1
      simp only []
      have ih' := ih w1 (fun x hx =>
        ⟨(h x (List.mem_cons_of_mem d hx)).1,
          onlyDirectories_mono w w1 x h2 (h x (List.mem_cons_of_mem d hx)).2⟩)
      exact ⟨ih'.1, directoriesAdded_trans w w1 _ h2 ih'.2⟩

theorem filepathJoin_head (root d : Str) (h : root.head? = some '/') :
    (filepathJoin [root, d]).head? = some '/' := by
  cases root with
  | nil => simp at h
  | cons r rs =>
    have hr : r = '/' := by simpa using h
    subst hr
    have hj : filepathJoin ['/' :: rs, d] =
        filepathClean ("/".toList.intercalate ['/' :: rs, d]) := by
      simp [filepathJoin, List.dropWhile]
    have hhead : ("/".toList.intercalate ['/' :: rs, d]).head? = some '/' := by
      rw [intercalate_cons_cons]; rfl
    rw [hj, filepathClean_rooted _ hhead]
    rfl

theorem layoutDirs_ne_nil (m : Manager) (s : Site) (hroot : m.WebRoot.head? = some '/') :
    ∀ d ∈ layoutDirs m s, d ≠ [] := by
  have h0 := filepathJoin_head m.WebRoot s.Domain hroot
  intro d hd
  simp only [layoutDirs, List.mem_cons, List.mem_singleton, List.not_mem_nil, or_false] at hd
  rcases hd with rfl | rfl | rfl | rfl
  · exact (filepathJoin_rooted m.WebRoot s.Domain hroot).1
  · exact (filepathJoin_rooted _ _ h0).1
  · exact (filepathJoin_rooted _ _ h0).1
  · exact (filepathJoin_rooted _ _ h0).1

theorem Manager.Create_trace (m : Manager) (env : Env) (tools : Tools) (s : Site)
    (w w1 : World) (hd : createDirs (layoutDirs m s) w = (none, w1)) :
    ∃ rest : List (List Str),
      (m.Create env tools s w).2.2.trace = w.trace ++ mysqlCommand s :: rest := by
  have hm : mysqlCommand { s with Path := filepathJoin [m.WebRoot, s.Domain] } = mysqlCommand s := rfl
  have ht1 : w1.trace = w.trace := by
    have := createDirs_trace (layoutDirs m s) w
    rw [hd] at this; exact this
  cases hs : env.status (mysqlCommand s) with
  | some e =>
    rw [Manager.Create_database_error m env tools s w w1 e hd hs]
    exact ⟨[], by simp [ht1]⟩
  | none =>
    unfold layoutDirs at hd
    obtain ⟨c3, _, ht3⟩ := Manager.downloadWordPress_trace env tools (provisionedSite m s)
      { w1 with trace := w1.trace ++ [mysqlCommand s] }
    cases hdl : Manager.downloadWordPress env tools
        (provisionedSite m s) { w1 with trace := w1.trace ++ [mysqlCommand s] } with
    | mk r3 w3 =>
      rw [hdl] at ht3
      have ht3' : w3.trace = w1.trace ++ [mysqlCommand s] ++ [c3] := ht3
      obtain ⟨c4, _, ht4⟩ := Manager.createConfig_trace env tools (provisionedSite m s) w3
      cases hcf : Manager.createConfig env tools (provisionedSite m s) w3 with
      | mk r4 w4 =>
        rw [hcf] at ht4
        have ht4' : w4.trace = w3.trace ++ [c4] := ht4
        cases had : m.CaddyConf.AddSite s.Domain s.UseVarnish w4 with
        | mk r5 w5 =>
          have ht5 : w5.trace = w4.trace := by
            have := Caddy.AddSite_trace m.CaddyConf s.Domain s.UseVarnish w4
            rw [had] at this; exact this
          unfold provisionedSite at hdl hcf
          simp only [Manager.Create, hd, createDatabase_eq, hm, hs, hdl]
          cases r3 with
          | some e => exact ⟨[c3], by simp [ht3', ht1]⟩
          | none =>
            simp only [hcf]
            cases r4 with
            | some e => exact ⟨[c3, c4], by simp [ht4', ht3', ht1]⟩
            | none =>
              simp only [had]
              cases r5 with
              | some e => exact ⟨[c3, c4], by simp [ht5, ht4', ht3', ht1]⟩
              | none =>
                exact ⟨[c3, c4, ["systemctl".toList, "reload".toList, "caddy".toList],
                  ["chown".toList, "-R".toList, "www-data:www-data".toList,
                    filepathJoin [m.WebRoot, s.Domain]]],
                  by simp [runCommand, ht5, ht4', ht3', ht1]⟩

/-- C13 (amended): for a manager with an absolute web root and a site such that nothing
but directories lies on the way to `WebRoot/domain` and its `public`, `logs` and
`backups` subdirectories, whether or not they are already present, the layout step of
`Create` does not fail: it keeps every entry that is already there, and `Create` goes on
to provision the database, the `mysql` command being the first command it runs. -/
theorem Manager.Create_accepts_existing_layout (m : Manager) (env : Env) (tools : Tools)
    (s : Site) (w : World) (hroot : m.WebRoot.head? = some '/')
    (h : ∀ d ∈ layoutDirs m s, onlyDirectories w d) :
    ∃ (w1 : World) (rest : List (List Str)),
      createDirs (layoutDirs m s) w = (none, w1) ∧
      (∀ (p : Str) (e : Entry), FS.lookup w.fs p = some e → FS.lookup w1.fs p = some e) ∧
      (m.Create env tools s w).2.2.trace = w.trace ++ mysqlCommand s :: rest := by
  have hne := layoutDirs_ne_nil m s hroot
  obtain ⟨h1, h2⟩ := createDirs_ok (layoutDirs m s) w (fun d hd => ⟨hne d hd, h d hd⟩)
  cases hc : createDirs (layoutDirs m s) w with
  | mk r w1 =>
    rw [hc] at h1 h2
    simp only [] at h1 h2
    subst h1
    obtain ⟨rest, hrest⟩ := Manager.Create_trace m env tools s w w1 hc
    exact ⟨w1, rest, rfl, h2.2, hrest⟩

/-- C13, counterexample: in `existingLayoutWorld` the directory `/var/www/example.com`
and its three subdirectories are present, and `Create` of `example.com` returns nil, has
run the `mysql` command and has kept the file that was in `public`. -/
theorem Manager.Create_on_existing_layout :
    (∀ d ∈ layoutDirs NewManager (siteOf "example.com".toList true),
      FS.lookup existingLayoutWorld.fs d = some Entry.dir) ∧
    (NewManager.Create allSucceed sampleTools (siteOf "example.com".toList true)
      existingLayoutWorld).2.1 = none ∧
    (NewManager.Create allSucceed sampleTools (siteOf "example.com".toList true)
      existingLayoutWorld).2.2.trace.head? =
      some (mysqlCommand (siteOf "example.com".toList true)) ∧
    FS.lookup (NewManager.Create allSucceed sampleTools (siteOf "example.com".toList true)
      existingLayoutWorld).2.2.fs "/var/www/example.com/public/old.html".toList =
      some (Entry.file "old".toList) := by
  refine ⟨by decide, rfl, rfl, rfl⟩

/-- C13, witness: the amended statement at `example.com` in `existingLayoutWorld`. -/
theorem Manager.Create_accepts_existing_layout_witness :
    NewManager.WebRoot.head? = some '/' ∧
    (∀ d ∈ layoutDirs NewManager (siteOf "example.com".toList true),
      onlyDirectories existingLayoutWorld d) ∧
    ∃ (w1 : World) (rest : List (List Str)),
      createDirs (layoutDirs NewManager (siteOf "example.com".toList true))
        existingLayoutWorld = (none, w1) ∧
      (∀ (p : Str) (e : Entry), FS.lookup existingLayoutWorld.fs p = some e →
        FS.lookup w1.fs p = some e) ∧
      (NewManager.Create allSucceed sampleTools (siteOf "example.com".toList true)
        existingLayoutWorld).2.2.trace =
        existingLayoutWorld.trace ++ mysqlCommand (siteOf "example.com".toList true) :: rest :=
  ⟨by decide, by decide,
    Manager.Create_accepts_existing_layout NewManager allSucceed sampleTools
      (siteOf "example.com".toList true) existingLayoutWorld (by decide) (by decide)⟩

/-! ## The errors of Create -/

theorem createDirs_error_named (dirs : List Str) (w : World) (msg : Str)
    (h : (createDirs dirs w).1 = some msg) :
    "failed to create directory ".toList <+: msg := by
  induction dirs generalizing w with
  | nil => simp [createDirs] at h
  | cons d rest ih =>
    unfold createDirs at h
    cases hm : osMkdirAll d w with
    | mk r w1 =>
      rw [hm] at h
      cases r with
      | some err =>
        simp only [Option.some.injEq] at h
        rw [← h, List.append_assoc, List.append_assoc]
        exact List.prefix_append _ _
      | none => exact ih w1 h

/-- C14 (amended): `Create` does not validate the domain.  For every site, whatever its
domain, an error of `Create` is the error of one of its five steps and names that step:
a directory of the layout could not be made, the database command failed, the WordPress
download failed, the configuration could not be created, or the proxy configuration
could not be written. -/
theorem Manager.Create_error_is_step (m : Manager) (env : Env) (tools : Tools) (s : Site)
    (w : World) (msg : Str) (h : (m.Create env tools s w).2.1 = some msg) :
    (∃ w1 : World, createDirs (layoutDirs m s) w = (some msg, w1) ∧
      "failed to create directory ".toList <+: msg) ∨
    (∃ e : Str, env.status (mysqlCommand s) = some e ∧
      msg = "failed to create database: ".toList ++ e) ∨
    (∃ (e : Str) (w2 : World),
      (Manager.downloadWordPress env tools (provisionedSite m s) w2).1 = some e ∧
      msg = "failed to download WordPress: ".toList ++ e) ∨
    (∃ (e : Str) (w3 : World),
      (Manager.createConfig env tools (provisionedSite m s) w3).1 = some e ∧
      msg = "failed to create wp-config: ".toList ++ e) ∨
    (∃ (e : Str) (w4 : World), (m.CaddyConf.AddSite s.Domain s.UseVarnish w4).1 = some e ∧
      msg = "failed to create Caddy config: ".toList ++ e) := by
  have hm : mysqlCommand { s with Path := filepathJoin [m.WebRoot, s.Domain] } = mysqlCommand s := rfl
  cases hd : createDirs (layoutDirs m s) w with
  | mk r1 w1 =>
    cases r1 with
    | some err =>
      rw [Manager.Create_layout_error m env tools s w w1 err hd] at h
      simp only [Option.some.injEq] at h
      subst h
      left
      exact ⟨w1, rfl, createDirs_error_named (layoutDirs m s) w err (by rw [hd])⟩
    | none =>
      right
      cases hs : env.status (mysqlCommand s) with
      | some e =>
        rw [Manager.Create_database_error m env tools s w w1 e hd hs] at h
        simp only [Option.some.injEq] at h
        left
        exact ⟨e, rfl, h.symm⟩
      | none =>
        right
        unfold layoutDirs at hd
        cases hdl : Manager.downloadWordPress env tools
            (provisionedSite m s) { w1 with trace := w1.trace ++ [mysqlCommand s] } with
        | mk r3 w3 =>
          cases hcf : Manager.createConfig env tools (provisionedSite m s) w3 with
          | mk r4 w4 =>
            cases had : m.CaddyConf.AddSite s.Domain s.UseVarnish w4 with
            | mk r5 w5 =>
              have hdl' := hdl
              have hcf' := hcf
              unfold provisionedSite at hdl' hcf'
              simp only [Manager.Create, hd, createDatabase_eq, hm, hs, hdl'] at h
              cases r3 with
              | some e =>
                simp only [Option.some.injEq] at h
                left
                exact ⟨e, _, by rw [hdl], h.symm⟩
              | none =>
                right
                simp only [hcf'] at h
                cases r4 with
                | some e =>
                  simp only [Option.some.injEq] at h
                  left
                  exact ⟨e, w3, by rw [hcf], h.symm⟩
                | none =>
                  right
                  simp only [had] at h
                  cases r5 with
                  | some e =>
                    simp only [Option.some.injEq] at h
                    exact ⟨e, w4, by rw [had], h.symm⟩
                  | none => simp at h

/-- C14, counterexample: the empty domain and `../x` are no valid hostnames, and `Create`
returns nil for both on the empty world: for the empty domain it has made
`/var/www/public`, run the `mysql` command for the database `_db` and written the proxy
configuration `/etc/caddy/sites/.conf`; for `../x` it has made `/var/x/public`, outside
the web root. -/
theorem Manager.Create_without_validation :
    ¬ validHostname [] ∧ ¬ validHostname "../x".toList ∧
    (NewManager.Create allSucceed sampleTools (siteOf [] true) emptyWorld).2.1 = none ∧
    FS.lookup (NewManager.Create allSucceed sampleTools (siteOf [] true) emptyWorld).2.2.fs
      "/var/www/public".toList = some Entry.dir ∧
    (NewManager.Create allSucceed sampleTools (siteOf [] true) emptyWorld).2.2.trace.head? =
      some ["mysql".toList, "-e".toList,
        createDatabaseSQL "_db".toList "_user".toList generatePassword] ∧
    FS.lookup (NewManager.Create allSucceed sampleTools (siteOf [] true) emptyWorld).2.2.fs
      "/etc/caddy/sites/.conf".toList =
      some (Entry.file (caddyConfigSprintf [] [] "127.0.0.1:6081".toList [])) ∧
    (NewManager.Create allSucceed sampleTools (siteOf "../x".toList true) emptyWorld).2.1
      = none ∧
    FS.lookup (NewManager.Create allSucceed sampleTools (siteOf "../x".toList true)
      emptyWorld).2.2.fs "/var/x/public".toList = some Entry.dir := by
  refine ⟨by decide, by decide, rfl, rfl, rfl, rfl, rfl, rfl⟩

/-- C14, witness: with a failing `mysql`, the error of `Create` for `example.com` is the
error of the database step. -/
theorem Manager.Create_error_is_step_witness :
    (NewManager.Create mysqlFails sampleTools (siteOf "example.com".toList true)
      emptyWorld).2.1 = some "failed to create database: exit status 1".toList ∧
    ((∃ w1 : World, createDirs (layoutDirs NewManager (siteOf "example.com".toList true))
        emptyWorld = (some "failed to create database: exit status 1".toList, w1) ∧
      "failed to create directory ".toList <+:
        "failed to create database: exit status 1".toList) ∨
    (∃ e : Str, mysqlFails.status (mysqlCommand (siteOf "example.com".toList true)) = some e ∧
      "failed to create database: exit status 1".toList =
        "failed to create database: ".toList ++ e) ∨
    (∃ (e : Str) (w2 : World),
      (Manager.downloadWordPress mysqlFails sampleTools
        (provisionedSite NewManager (siteOf "example.com".toList true)) w2).1 = some e ∧
      "failed to create database: exit status 1".toList =
        "failed to download WordPress: ".toList ++ e) ∨
    (∃ (e : Str) (w3 : World),
      (Manager.createConfig mysqlFails sampleTools
        (provisionedSite NewManager (siteOf "example.com".toList true)) w3).1 = some e ∧
      "failed to create database: exit status 1".toList =
        "failed to create wp-config: ".toList ++ e) ∨
    (∃ (e : Str) (w4 : World),
      (NewManager.CaddyConf.AddSite (siteOf "example.com".toList true).Domain
        (siteOf "example.com".toList true).UseVarnish w4).1 = some e ∧
      "failed to create database: exit status 1".toList =
        "failed to create Caddy config: ".toList ++ e)) :=
  ⟨rfl, Manager.Create_error_is_step NewManager mysqlFails sampleTools
    (siteOf "example.com".toList true) emptyWorld _ rfl⟩

/-- C15: when the layout step of `Create` has succeeded and the database command of
`createDatabase` fails with error `e`, `Create` returns the error
`failed to create database: ` followed by `e`, leaves `DBPass` as it was, and runs none
of the later steps: the `mysql` command is the only command it has run, and the
filesystem is as the layout step left it, without a configuration or a proxy
configuration written. -/
theorem Manager.Create_aborts_on_database_failure (m : Manager) (env : Env) (tools : Tools)
    (s : Site) (w w1 : World) (e : Str)
    (hl : createDirs (layoutDirs m s) w = (none, w1))
    (he : (createDatabase env { s with Path := filepathJoin [m.WebRoot, s.Domain] } w1).2.1 =
      Except.error e) :
    (m.Create env tools s w).2.1 = some ("failed to create database: ".toList ++ e) ∧
    (m.Create env tools s w).1.DBPass = s.DBPass ∧
    (m.Create env tools s w).2.2.trace = w.trace ++ [mysqlCommand s] ∧
    (m.Create env tools s w).2.2.fs = w1.fs := by
  have hm : mysqlCommand { s with Path := filepathJoin [m.WebRoot, s.Domain] } = mysqlCommand s := rfl
  have ht1 : w1.trace = w.trace := by
    have := createDirs_trace (layoutDirs m s) w
    rw [hl] at this; exact this
  have hs : env.status (mysqlCommand s) = some e := by
    rw [createDatabase_eq, hm] at he
    cases hst : env.status (mysqlCommand s) with
    | some err =>
      rw [hst] at he
      simp only [Except.error.injEq] at he
      rw [he]
    | none =>
      rw [hst] at he
      simp at he
  rw [Manager.Create_database_error m env tools s w w1 e hl hs]
  exact ⟨rfl, rfl, by simp [ht1], rfl⟩

/-- C15, witness: `Create` of `example.com` on the empty world with a failing `mysql`. -/
theorem Manager.Create_aborts_on_database_failure_witness :
    createDirs (layoutDirs NewManager (siteOf "example.com".toList true)) emptyWorld =
      (none, (createDirs (layoutDirs NewManager (siteOf "example.com".toList true))
        emptyWorld).2) ∧
    (createDatabase mysqlFails
      { siteOf "example.com".toList true with
        Path := filepathJoin [NewManager.WebRoot, (siteOf "example.com".toList true).Domain] }
      (createDirs (layoutDirs NewManager (siteOf "example.com".toList true))
        emptyWorld).2).2.1 = Except.error "exit status 1".toList ∧
    ((NewManager.Create mysqlFails sampleTools (siteOf "example.com".toList true)
        emptyWorld).2.1 =
      some ("failed to create database: ".toList ++ "exit status 1".toList) ∧
    (NewManager.Create mysqlFails sampleTools (siteOf "example.com".toList true)
        emptyWorld).1.DBPass = (siteOf "example.com".toList true).DBPass ∧
    (NewManager.Create mysqlFails sampleTools (siteOf "example.com".toList true)
        emptyWorld).2.2.trace =
      emptyWorld.trace ++ [mysqlCommand (siteOf "example.com".toList true)] ∧
    (NewManager.Create mysqlFails sampleTools (siteOf "example.com".toList true)
        emptyWorld).2.2.fs =
      (createDirs (layoutDirs NewManager (siteOf "example.com".toList true))
        emptyWorld).2.fs) :=
  ⟨rfl, rfl, Manager.Create_aborts_on_database_failure NewManager mysqlFails sampleTools
    (siteOf "example.com".toList true) emptyWorld _ _ rfl rfl⟩

/-! ## Promotion of a staging site -/

/-- C16 (amended): `PushToProduction` does not abort when the backup step fails.  The
status of every step is dropped: the operation returns nil, and it runs the same steps
with the same effect whatever the commands return, so also when archiving the
production content fails. -/
theorem Manager.PushToProduction_ignores_status (m : Manager) (env env1 : Env) (tools : Tools)
    (stamp domain : Str) (w : World) :
    (m.PushToProduction env tools stamp domain w).1 = none ∧
    m.PushToProduction env tools stamp domain w =
      m.PushToProduction env1 tools stamp domain w :=
  ⟨rfl, rfl⟩

/-- C16, counterexample: with a failing `tar`, `PushToProduction` of `example.com`
returns nil and has run the file sync, the database import and the URL rewrite after the
failed archive. -/
theorem Manager.PushToProduction_after_failed_backup :
    tarFails.status ["tar".toList, "-czf".toList,
      "/backups/example.com/pre-push_2026-01-02_03-04-05.tar.gz".toList, "-C".toList,
      "/var/www".toList, "example.com".toList] = some "exit status 2".toList ∧
    (NewManager.PushToProduction tarFails noEffect "2026-01-02_03-04-05".toList
      "example.com".toList emptyWorld).1 = none ∧
    (NewManager.PushToProduction tarFails noEffect "2026-01-02_03-04-05".toList
      "example.com".toList emptyWorld).2.trace.map (fun c => c.take 2) =
      [["tar".toList, "-czf".toList], ["wp".toList, "db".toList],
       ["rsync".toList, "-av".toList], ["wp".toList, "db".toList],
       ["wp".toList, "search-replace".toList], ["wp".toList, "cache".toList]] :=
  ⟨rfl, rfl, rfl⟩

/-- C17: every execution of `PushToProduction` runs exactly these six commands, in this
order: one `tar` command that archives `WebRoot/domain` into
`/backups/domain/pre-push_stamp.tar.gz`, then the staging export, the file sync, the
database import, the URL rewrite and the cache flush.  The one backup request comes
before every step that modifies production, and no later command is a `tar` command. -/
theorem Manager.PushToProduction_backup_first (m : Manager) (env : Env) (tools : Tools)
    (stamp domain : Str) (w : World) :
    ∃ rest : List (List Str),
      (m.PushToProduction env tools stamp domain w).2.trace =
        w.trace ++
          ["tar".toList, "-czf".toList,
            "/backups/".toList ++ domain ++ "/pre-push_".toList ++ stamp ++ ".tar.gz".toList,
            "-C".toList, m.WebRoot, domain] :: rest ∧
      rest =
        [["wp".toList, "db".toList, "export".toList,
            "/tmp/staging_".toList ++ domain ++ ".sql".toList,
            "--path=".toList ++ filepathJoin [m.WebRoot, "staging.".toList ++ domain] ++
              "/public".toList],
         ["rsync".toList, "-av".toList, "--delete".toList,
            "--exclude=wp-config.php".toList, "--exclude=.htaccess".toList,
            filepathJoin [m.WebRoot, "staging.".toList ++ domain] ++ "/public/".toList,
            filepathJoin [m.WebRoot, domain] ++ "/public/".toList],
         ["wp".toList, "db".toList, "import".toList,
            "/tmp/staging_".toList ++ domain ++ ".sql".toList,
            "--path=".toList ++ filepathJoin [m.WebRoot, domain] ++ "/public".toList],
         ["wp".toList, "search-replace".toList,
            "https://".toList ++ ("staging.".toList ++ domain), "https://".toList ++ domain,
            "--all-tables".toList,
            "--path=".toList ++ filepathJoin [m.WebRoot, domain] ++ "/public".toList],
         ["wp".toList, "cache".toList, "flush".toList,
            "--path=".toList ++ filepathJoin [m.WebRoot, domain] ++ "/public".toList]] ∧
      ∀ c ∈ rest, c.head? ≠ some "tar".toList := by
  refine ⟨_, ?_, rfl, ?_⟩
  · simp only [Manager.PushToProduction, runCommand, runTool, osRemove_trace,
      osMkdirAll_trace, List.append_assoc, List.singleton_append, List.cons_append,
      List.nil_append]
  · intro c hc
    simp only [List.mem_cons, List.mem_singleton, List.not_mem_nil, or_false] at hc
    rcases hc with rfl | rfl | rfl | rfl | rfl <;>
      · rw [List.head?_cons, ne_eq, Option.some.injEq]
        decide

/-! ## The URL rewrite of PushToProduction -/

theorem hostChars_staging (domain : Str) (h : hostChars domain) :
    hostChars ("staging.".toList ++ domain) := by
  intro c hc
  rcases List.mem_append.1 hc with h1 | h1
  · have : ∀ x ∈ "staging.".toList, hostChar x := by decide
    exact this c h1
  · exact h c h1

theorem staging_longer_than_domain (domain : Str) : ¬ "staging.".toList ++ domain <+: domain := by
  intro h
  have := h.length_le
  simp only [List.length_append] at this
  have h8 : "staging.".toList.length = 8 := rfl
  omega

/-- C18 (amended): with the search-replace taken as replacement of all occurrences, for
every domain made of hostname characters that does not end in `h`, `ht`, `htt`, `http` or
`https` and is not a prefix of `staging.` followed by itself, and for every stored
content, the content after the rewrite step of `PushToProduction` contains no occurrence
of `https://staging.domain`. -/
theorem pushRewrite_no_https_staging (domain content : Str) (hd : hostChars domain)
    (hend : ¬ endsInSchemePrefix domain)
    (hpre : ¬ domain <+: "staging.".toList ++ domain) :
    ¬ "https://".toList ++ ("staging.".toList ++ domain) <:+: pushRewrite domain content := by
  have hS : isScheme "https://".toList := Or.inr rfl
  unfold pushRewrite searchReplace
  apply stringsReplaceAll_removes
  exact noNewOccurrence_scheme _ _ ("staging.".toList ++ domain) ("staging.".toList ++ domain)
    domain hS hS (hostChars_staging domain hd) hd hend
    (fun V _ hVp _ => https_prefix_scheme V _ hVp)
    (fun _ => ⟨staging_longer_than_domain domain, hpre⟩)

/-- C18, counterexample: the rewrite step of `PushToProduction` for `example.com` leaves
`http://staging.example.com/x` as it is; and for `example.ch` it turns a content into
one that contains `https://staging.example.ch`. -/
theorem pushRewrite_leaves_staging :
    pushRewrite "example.com".toList "http://staging.example.com/x".toList =
      "http://staging.example.com/x".toList ∧
    "http://staging.".toList ++ "example.com".toList <:+:
      pushRewrite "example.com".toList "http://staging.example.com/x".toList ∧
    pushRewrite "example.ch".toList
        "https://staging.example.chttps://staging.example.ch".toList =
      "https://example.chttps://staging.example.ch".toList ∧
    "https://staging.".toList ++ "example.ch".toList <:+:
      pushRewrite "example.ch".toList
        "https://staging.example.chttps://staging.example.ch".toList := by
  refine ⟨by decide, ⟨[], "/x".toList, by decide⟩, by decide,
    ⟨"https://example.c".toList, [], by decide⟩⟩

/-- C18, witness: the amended statement at `example.com` and a content with one staging
URL. -/
theorem pushRewrite_no_https_staging_witness :
    hostChars "example.com".toList ∧ ¬ endsInSchemePrefix "example.com".toList ∧
    ¬ "example.com".toList <+: "staging.".toList ++ "example.com".toList ∧
    ¬ "https://".toList ++ ("staging.".toList ++ "example.com".toList) <:+:
      pushRewrite "example.com".toList "see https://staging.example.com/shop".toList ∧
    pushRewrite "example.com".toList "see https://staging.example.com/shop".toList =
      "see https://example.com/shop".toList :=
  ⟨by decide, by decide, by decide,
    pushRewrite_no_https_staging _ _ (by decide) (by decide) (by decide), by decide⟩

/-- The side conditions of the amended rewrite statement of `PushToProduction` cannot be
dropped: the domain `s` is a prefix of `staging.s`, and the rewrite leaves a staging
URL behind. -/
theorem pushRewrite_side_condition :
    "https://staging.s".toList <:+: pushRewrite "s".toList "https://staging.staging.s".toList :=
  ⟨[], [], by decide⟩

/-! ## What the filesystem calls keep and add -/

theorem FS.lookup_cons (a : Str) (e : Entry) (fs : FS) (p : Str) :
    FS.lookup ((a, e) :: fs) p = if a = p then some e else FS.lookup fs p := rfl

theorem mkdirChain_keeps (chain : List Str) (w : World) (p : Str) (e : Entry)
    (h : FS.lookup w.fs p = some e) : FS.lookup (mkdirChain chain w).2.fs p = some e := by
  induction chain with
  | nil => exact h
  | cons a parents ih =>
    unfold mkdirChain
    split
    · exact h
    · split
      · exact h
      · rename_i hnone
        split
        · rename_i err w1 hm
          rw [hm] at ih; exact ih
        · rename_i w1 hm
          rw [hm] at ih
          have hl := (FS.stat_none_lookup w.fs a hnone).1
          have hne : a ≠ p := by
            rintro rfl
            rw [hl] at h; exact absurd h (by simp)
          show FS.lookup ((a, Entry.dir) :: w1.fs) p = some e
          rw [FS.lookup_cons, if_neg hne]; exact ih

theorem mkdirChain_new (chain : List Str) (w : World) (p : Str) (e : Entry)
    (h : FS.lookup (mkdirChain chain w).2.fs p = some e) :
    e = Entry.dir ∨ FS.lookup w.fs p = some e := by
  induction chain with
  | nil => exact Or.inr h
  | cons a parents ih =>
    unfold mkdirChain at h
    split at h
    · exact Or.inr h
    · split at h
      · exact Or.inr h
      · split at h
        · rename_i err w1 hm
          rw [hm] at ih; exact ih h
        · rename_i w1 hm
          rw [hm] at ih
          have h' : FS.lookup ((a, Entry.dir) :: w1.fs) p = some e := h
          rw [FS.lookup_cons] at h'
          by_cases hap : a = p
          · rw [if_pos hap] at h'
            left; exact (Option.some.inj h').symm
          · rw [if_neg hap] at h'
            exact ih h'

theorem osMkdirAll_keeps (path : Str) (w : World) (p : Str) (e : Entry)
    (h : FS.lookup w.fs p = some e) : FS.lookup (osMkdirAll path w).2.fs p = some e := by
  unfold osMkdirAll
  split
  · exact h
  · exact mkdirChain_keeps _ w p e h

theorem osMkdirAll_new (path : Str) (w : World) (p : Str) (e : Entry)
    (h : FS.lookup (osMkdirAll path w).2.fs p = some e) :
    e = Entry.dir ∨ FS.lookup w.fs p = some e := by
  unfold osMkdirAll at h
  split at h
  · exact Or.inr h
  · exact mkdirChain_new _ w p e h

theorem followLinks_target (fs : FS) (fuel : Nat) (start key : Str)
    (h : followLinks fs fuel start = some key) (t : Str) :
    FS.lookup fs key ≠ some (Entry.symlink t) := by
  induction fuel generalizing start with
  | zero => simp [followLinks] at h
  | succ n ih =>
    unfold followLinks at h
    split at h
    · exact ih _ h
    · rename_i hns
      simp only [Option.some.injEq] at h
      subst h
      intro hc
      exact hns t hc

/-- The outcome of `os.WriteFile`: an error with the world unchanged, or the data bound
to the path the write ends at. -/
theorem osWriteFile_outcome (path data : Str) (w : World) :
    ((osWriteFile path data w).1 ≠ none ∧ (osWriteFile path data w).2 = w) ∨
    (∃ key : Str, (osWriteFile path data w).1 = none ∧
      (∀ t : Str, FS.lookup w.fs key ≠ some (Entry.symlink t)) ∧
      (osWriteFile path data w).2.fs = (key, Entry.file data) :: FS.erase w.fs key) := by
  unfold osWriteFile
  split
  · left; exact ⟨by simp, rfl⟩
  · split
    · left; exact ⟨by simp, rfl⟩
    · rename_i key hk
      split
      · left; exact ⟨by simp, rfl⟩
      · split
        · left; exact ⟨by simp, rfl⟩
        · right
          exact ⟨key, rfl, followLinks_target _ _ _ _ hk, rfl⟩

theorem osWriteFile_keeps_link (path data : Str) (w : World) (p t : Str)
    (h : FS.lookup w.fs p = some (Entry.symlink t)) :
    FS.lookup (osWriteFile path data w).2.fs p = some (Entry.symlink t) := by
  rcases osWriteFile_outcome path data w with ⟨_, h1⟩ | ⟨key, _, hk, h1⟩
  · rw [h1]; exact h
  · have hne : key ≠ p := by
      rintro rfl
      exact hk t h
    rw [h1, FS.lookup_cons, if_neg hne, FS.lookup_erase_ne _ _ _ (Ne.symm hne)]
    exact h

theorem osWriteFile_new_file (path data : Str) (w : World) (p content : Str)
    (h : FS.lookup (osWriteFile path data w).2.fs p = some (Entry.file content)) :
    content = data ∨ FS.lookup w.fs p = some (Entry.file content) := by
  rcases osWriteFile_outcome path data w with ⟨_, h1⟩ | ⟨key, _, _, h1⟩
  · rw [h1] at h; exact Or.inr h
  · rw [h1, FS.lookup_cons] at h
    by_cases hkp : key = p
    · rw [if_pos hkp] at h
      left
      have := Option.some.inj h
      exact (Entry.file.inj this).symm
    · rw [if_neg hkp, FS.lookup_erase_ne _ _ _ (Ne.symm hkp)] at h
      exact Or.inr h

theorem Caddy.AddSite_keeps_link (c : Caddy) (d : Str) (b : Bool) (w : World) (p t : Str)
    (h : FS.lookup w.fs p = some (Entry.symlink t)) :
    FS.lookup (c.AddSite d b w).2.fs p = some (Entry.symlink t) := by
  unfold Caddy.AddSite
  simp only []
  exact osWriteFile_keeps_link _ _ _ p t (osMkdirAll_keeps _ w p _ h)

theorem Caddy.AddSite_new_file (c : Caddy) (d : Str) (b : Bool) (w : World) (p content : Str)
    (h : FS.lookup (c.AddSite d b w).2.fs p = some (Entry.file content)) :
    content = caddyConfigSprintf d d
        (if b then "127.0.0.1:6081".toList else "127.0.0.1:9000".toList) d ∨
      FS.lookup w.fs p = some (Entry.file content) := by
  unfold Caddy.AddSite at h
  simp only [] at h
  rcases osWriteFile_new_file _ _ _ p content h with h1 | h1
  · exact Or.inl h1
  · rcases osMkdirAll_new _ w p _ h1 with h2 | h2
    · exact absurd h2 (by simp)
    · exact Or.inr h2

theorem Caddy.AddSite_written (c : Caddy) (d : Str) (b : Bool) (w : World)
    (h : (c.AddSite d b w).1 = none) :
    ∃ key : Str, FS.lookup (c.AddSite d b w).2.fs key =
      some (Entry.file (caddyConfigSprintf d d
        (if b then "127.0.0.1:6081".toList else "127.0.0.1:9000".toList) d)) := by
  unfold Caddy.AddSite at h ⊢
  simp only [] at h ⊢
  rcases osWriteFile_outcome
    (filepathJoin [c.ConfigDir, d ++ ".conf".toList])
    (caddyConfigSprintf d d
        (if b then "127.0.0.1:6081".toList else "127.0.0.1:9000".toList) d)
    (osMkdirAll c.ConfigDir w).2 with ⟨h1, _⟩ | ⟨key, _, _, h1⟩
  · exact absurd h h1
  · refine ⟨key, ?_⟩
    rw [h1, FS.lookup_cons, if_pos rfl]

/-! ## Aliases -/

theorem osSymlink_created (o n : Str) (w : World) (ho : o ≠ []) (hn : n ≠ [])
    (h1 : FS.stat w.fs (filepathClean n) = none)
    (h2 : FS.isDir w.fs (filepathDir (filepathClean n)) = true) :
    osSymlink o n w = (none, { w with fs := (filepathClean n, Entry.symlink o) :: w.fs }) := by
  unfold osSymlink
  rw [if_neg (fun hc => hc.elim ho hn), if_neg (fun hc => hc h1), if_neg (fun hc => hc h2)]

theorem osSymlink_exists (o n : Str) (w : World) (ho : o ≠ []) (hn : n ≠ [])
    (h1 : FS.stat w.fs (filepathClean n) ≠ none) :
    osSymlink o n w =
      (some ("symlink ".toList ++ o ++ " ".toList ++ n ++ ": file exists".toList), w) := by
  unfold osSymlink
  rw [if_neg (fun hc => hc.elim ho hn), if_pos h1]

/-- C19 (amended): `AddDomain` does not check that the site exists.  For a manager with
an absolute web root: when `WebRoot/aliasDomain` is free and its parent is a directory,
`AddDomain` returns nil and `WebRoot/aliasDomain` is a symlink to `WebRoot/siteDomain`,
whether or not `WebRoot/siteDomain` exists; when `WebRoot/aliasDomain` already exists,
`AddDomain` returns an error that names the symlink step and leaves the world as it
was, with no symlink created and no proxy configuration written. -/
theorem Manager.AddDomain_without_site_check (m : Manager) (env : Env)
    (siteDomain newDomain : Str) (w : World) (hroot : m.WebRoot.head? = some '/') :
    (FS.stat w.fs (filepathClean (filepathJoin [m.WebRoot, newDomain])) = none →
      FS.isDir w.fs (filepathDir (filepathClean (filepathJoin [m.WebRoot, newDomain]))) = true →
      (m.AddDomain env siteDomain newDomain w).1 = none ∧
      FS.lookup (m.AddDomain env siteDomain newDomain w).2.fs
          (filepathClean (filepathJoin [m.WebRoot, newDomain])) =
        some (Entry.symlink (filepathJoin [m.WebRoot, siteDomain]))) ∧
    (FS.stat w.fs (filepathClean (filepathJoin [m.WebRoot, newDomain])) ≠ none →
      (∃ err : Str, (m.AddDomain env siteDomain newDomain w).1 =
        some ("failed to create symlink: ".toList ++ err)) ∧
      (m.AddDomain env siteDomain newDomain w).2 = w) := by
  have ho := (filepathJoin_rooted m.WebRoot siteDomain hroot).1
  have hn := (filepathJoin_rooted m.WebRoot newDomain hroot).1
  constructor
  · intro h1 h2
    have hs := osSymlink_created _ _ w ho hn h1 h2
    simp only [Manager.AddDomain, hs, runCommand_fs]
    refine ⟨trivial, ?_⟩
    apply Caddy.AddSite_keeps_link
    show FS.lookup ((_, _) :: w.fs) _ = _
    rw [FS.lookup_cons, if_pos rfl]
  · intro h1
    have hs := osSymlink_exists _ _ w ho hn h1
    simp only [Manager.AddDomain, hs]
    exact ⟨⟨_, rfl⟩, trivial⟩

/-- C19, counterexample: in `webRootWorld` there is no site `nosite.com`, and
`AddDomain` of the alias `www.nosite.com` to it returns nil, creates the symlink
`/var/www/www.nosite.com` and writes the proxy configuration of the alias. -/
theorem Manager.AddDomain_to_missing_site :
    FS.stat webRootWorld.fs "/var/www/nosite.com".toList = none ∧
    (NewManager.AddDomain allSucceed "nosite.com".toList "www.nosite.com".toList
      webRootWorld).1 = none ∧
    FS.lookup (NewManager.AddDomain allSucceed "nosite.com".toList "www.nosite.com".toList
      webRootWorld).2.fs "/var/www/www.nosite.com".toList =
      some (Entry.symlink "/var/www/nosite.com".toList) ∧
    FS.lookup (NewManager.AddDomain allSucceed "nosite.com".toList "www.nosite.com".toList
      webRootWorld).2.fs "/etc/caddy/sites/www.nosite.com.conf".toList =
      some (Entry.file (caddyConfigSprintf "www.nosite.com".toList "www.nosite.com".toList
        "127.0.0.1:6081".toList "www.nosite.com".toList)) :=
  ⟨rfl, rfl, rfl, rfl⟩

/-- C19, witness: in `webRootWorld` the alias `www.nosite.com` is linked although the
site is missing, and in `aliasWorld` a second `AddDomain` of `www.example.com` fails and
changes nothing. -/
theorem Manager.AddDomain_without_site_check_witness :
    NewManager.WebRoot.head? = some '/' ∧
    ((NewManager.AddDomain allSucceed "nosite.com".toList "www.nosite.com".toList
        webRootWorld).1 = none ∧
      FS.lookup (NewManager.AddDomain allSucceed "nosite.com".toList "www.nosite.com".toList
        webRootWorld).2.fs
          (filepathClean (filepathJoin [NewManager.WebRoot, "www.nosite.com".toList])) =
        some (Entry.symlink (filepathJoin [NewManager.WebRoot, "nosite.com".toList]))) ∧
    ((∃ err : Str, (NewManager.AddDomain allSucceed "example.com".toList
        "www.example.com".toList aliasWorld).1 =
        some ("failed to create symlink: ".toList ++ err)) ∧
      (NewManager.AddDomain allSucceed "example.com".toList "www.example.com".toList
        aliasWorld).2 = aliasWorld) :=
  ⟨by decide,
    (Manager.AddDomain_without_site_check NewManager allSucceed "nosite.com".toList
      "www.nosite.com".toList webRootWorld (by decide)).1 (by decide) (by decide),
    (Manager.AddDomain_without_site_check NewManager allSucceed "example.com".toList
      "www.example.com".toList aliasWorld (by decide)).2 (by decide)⟩


theorem Manager.AddDomain_new_file (m : Manager) (env : Env) (siteDomain newDomain : Str)
    (w : World) (p content : Str)
    (h : FS.lookup (m.AddDomain env siteDomain newDomain w).2.fs p = some (Entry.file content)) :
    content = caddyConfigSprintf newDomain newDomain (backendAddress true) newDomain ∨
      FS.lookup w.fs p = some (Entry.file content) := by
  unfold Manager.AddDomain at h
  simp only [] at h
  cases hs : osSymlink (filepathJoin [m.WebRoot, siteDomain])
      (filepathJoin [m.WebRoot, newDomain]) w with
  | mk r w1 =>
    have hw1 : w1 = w ∨
        w1.fs = (filepathClean (filepathJoin [m.WebRoot, newDomain]),
          Entry.symlink (filepathJoin [m.WebRoot, siteDomain])) :: w.fs := by
      unfold osSymlink at hs
      split at hs
      · left; exact (Prod.mk.inj hs).2.symm
      · split at hs
        · left; exact (Prod.mk.inj hs).2.symm
        · split at hs
          · left; exact (Prod.mk.inj hs).2.symm
          · right; rw [← (Prod.mk.inj hs).2]
    have hold : ∀ c : Str, FS.lookup w1.fs p = some (Entry.file c) →
        FS.lookup w.fs p = some (Entry.file c) := by
      intro c hc
      rcases hw1 with h1 | h1
      · rw [h1] at hc; exact hc
      · rw [h1, FS.lookup_cons] at hc
        by_cases hkp : filepathClean (filepathJoin [m.WebRoot, newDomain]) = p
        · rw [if_pos hkp] at hc; simp at hc
        · rw [if_neg hkp] at hc; exact hc
    rw [hs] at h
    cases r with
    | some err => exact Or.inr (hold content h)
    | none =>
      simp only [runCommand_fs] at h
      rcases Caddy.AddSite_new_file _ _ _ _ p content h with h1 | h1
      · exact Or.inl h1
      · exact Or.inr (hold content h1)

/-- C20 (amended): an alias is always routed to the cache backend.  For every site that
`Create` has set up with cache flag `b` and every alias then added with `AddDomain`, the
proxy configuration of the site holds the backend address chosen by `b` (the cache
address with `b` set, the direct application address with `b` clear), and every file
that `AddDomain` writes holds the configuration of the alias with the cache address
`127.0.0.1:6081`; the two addresses are equal exactly when `b` is set. -/
theorem Manager.AddDomain_backend (m : Manager) (env : Env) (tools : Tools) (s : Site)
    (w : World) (newDomain key content : Str)
    (hc : (m.Create env tools s w).2.1 = none)
    (hk : FS.lookup (m.AddDomain env s.Domain newDomain (m.Create env tools s w).2.2).2.fs key =
      some (Entry.file content))
    (hnew : FS.lookup (m.Create env tools s w).2.2.fs key ≠ some (Entry.file content)) :
    content = caddyConfigSprintf newDomain newDomain "127.0.0.1:6081".toList newDomain ∧
    (∃ siteKey : Str, FS.lookup (m.Create env tools s w).2.2.fs siteKey =
      some (Entry.file
        (caddyConfigSprintf s.Domain s.Domain (backendAddress s.UseVarnish) s.Domain))) ∧
    ("127.0.0.1:6081".toList = backendAddress s.UseVarnish ↔ s.UseVarnish = true) := by
  obtain ⟨w1, w4, rest, _, _, hadd, _, hfs, _, _⟩ := Manager.Create_success m env tools s w hc
  refine ⟨?_, ?_, ?_⟩
  · rcases Manager.AddDomain_new_file m env s.Domain newDomain _ key content hk with h1 | h1
    · exact h1
    · exact absurd h1 hnew
  · obtain ⟨siteKey, hsk⟩ := Caddy.AddSite_written m.CaddyConf s.Domain s.UseVarnish w4 hadd
    exact ⟨siteKey, by rw [hfs]; exact hsk⟩
  · cases s.UseVarnish <;> decide

/-- C20, counterexample: the site `example.com` is created with the cache flag clear and
its proxy configuration names the direct address `127.0.0.1:9000`; the alias
`www.example.com` added to it gets a proxy configuration with the cache address
`127.0.0.1:6081`. -/
theorem Manager.AddDomain_other_backend :
    (NewManager.Create allSucceed sampleTools (siteOf "example.com".toList false)
      emptyWorld).2.1 = none ∧
    FS.lookup (NewManager.Create allSucceed sampleTools (siteOf "example.com".toList false)
      emptyWorld).2.2.fs "/etc/caddy/sites/example.com.conf".toList =
      some (Entry.file (caddyConfigSprintf "example.com".toList "example.com".toList
        "127.0.0.1:9000".toList "example.com".toList)) ∧
    (NewManager.AddDomain allSucceed "example.com".toList "www.example.com".toList
      (NewManager.Create allSucceed sampleTools (siteOf "example.com".toList false)
        emptyWorld).2.2).1 = none ∧
    FS.lookup (NewManager.AddDomain allSucceed "example.com".toList "www.example.com".toList
      (NewManager.Create allSucceed sampleTools (siteOf "example.com".toList false)
        emptyWorld).2.2).2.fs "/etc/caddy/sites/www.example.com.conf".toList =
      some (Entry.file (caddyConfigSprintf "www.example.com".toList "www.example.com".toList
        "127.0.0.1:6081".toList "www.example.com".toList)) ∧
    "127.0.0.1:9000".toList ≠ "127.0.0.1:6081".toList :=
  ⟨rfl, rfl, rfl, rfl, by decide⟩

/-- C20, witness: the amended statement for `example.com`, created with the cache flag
clear, and its alias `www.example.com`. -/
theorem Manager.AddDomain_backend_witness :
    (NewManager.Create allSucceed sampleTools (siteOf "example.com".toList false)
      emptyWorld).2.1 = none ∧
    FS.lookup (NewManager.AddDomain allSucceed (siteOf "example.com".toList false).Domain
      "www.example.com".toList
      (NewManager.Create allSucceed sampleTools (siteOf "example.com".toList false)
        emptyWorld).2.2).2.fs "/etc/caddy/sites/www.example.com.conf".toList =
      some (Entry.file (caddyConfigSprintf "www.example.com".toList "www.example.com".toList
        "127.0.0.1:6081".toList "www.example.com".toList)) ∧
    FS.lookup (NewManager.Create allSucceed sampleTools (siteOf "example.com".toList false)
      emptyWorld).2.2.fs "/etc/caddy/sites/www.example.com.conf".toList ≠
      some (Entry.file (caddyConfigSprintf "www.example.com".toList "www.example.com".toList
        "127.0.0.1:6081".toList "www.example.com".toList)) ∧
    (caddyConfigSprintf "www.example.com".toList "www.example.com".toList
        "127.0.0.1:6081".toList "www.example.com".toList =
      caddyConfigSprintf "www.example.com".toList "www.example.com".toList
        "127.0.0.1:6081".toList "www.example.com".toList ∧
    (∃ siteKey : Str, FS.lookup (NewManager.Create allSucceed sampleTools
        (siteOf "example.com".toList false) emptyWorld).2.2.fs siteKey =
      some (Entry.file
        (caddyConfigSprintf (siteOf "example.com".toList false).Domain
          (siteOf "example.com".toList false).Domain
          (backendAddress (siteOf "example.com".toList false).UseVarnish)
          (siteOf "example.com".toList false).Domain))) ∧
    ("127.0.0.1:6081".toList = backendAddress (siteOf "example.com".toList false).UseVarnish ↔
      (siteOf "example.com".toList false).UseVarnish = true)) := by
  have h0 : FS.lookup (NewManager.Create allSucceed sampleTools
      (siteOf "example.com".toList false) emptyWorld).2.2.fs
      "/etc/caddy/sites/www.example.com.conf".toList = none := rfl
  exact ⟨rfl, rfl, by rw [h0]; simp,
    Manager.AddDomain_backend NewManager allSucceed sampleTools
      (siteOf "example.com".toList false) emptyWorld "www.example.com".toList
      "/etc/caddy/sites/www.example.com.conf".toList _ rfl rfl (by rw [h0]; simp)⟩



/-! ## Sanitization position by position -/

theorem sanitizeStep_length_le (c : Char) : (sanitizeStep [] c).length ≤ 1 := by
  rcases sanitizeStep_cases c with ⟨_, h⟩ | ⟨_, _, h⟩ | ⟨_, h⟩ <;> rw [h] <;> simp

theorem sanitizeName_length_le (d : Str) : (sanitizeName d).length ≤ d.length := by
  induction d with
  | nil => simp [sanitizeName_nil]
  | cons c t ih =>
    rw [sanitizeName_cons, List.length_append, List.length_cons]
    have := sanitizeStep_length_le c
    omega

theorem sanitizeStep_uppercase (c : Char) (h : 'A' ≤ c ∧ c ≤ 'Z') : sanitizeStep [] c = [] := by
  have h1 : ¬ (c = '.' ∨ c = '-') := by
    rintro (rfl | rfl) <;> revert h <;> decide
  have h2 : ¬ (('a' ≤ c ∧ c ≤ 'z') ∨ ('0' ≤ c ∧ c ≤ '9')) := by
    rintro (⟨ha, _⟩ | ⟨_, hb⟩)
    · have hz : c ≤ 'Z' := h.2
      have : 'a' ≤ 'Z' := le_trans ha hz
      revert this; decide
    · have hA : 'A' ≤ c := h.1
      have : 'A' ≤ '9' := le_trans hA hb
      revert this; decide
  unfold sanitizeStep
  simp only [h1, h2, if_false]

theorem sanitizeName_uppercase_shorter (d : Str) (h : ∃ c ∈ d, 'A' ≤ c ∧ c ≤ 'Z') :
    (sanitizeName d).length < d.length := by
  obtain ⟨c, hc, hu⟩ := h
  obtain ⟨a, b, rfl⟩ := List.append_of_mem hc
  rw [sanitizeName_append, sanitizeName_cons, sanitizeStep_uppercase c hu]
  have h1 := sanitizeName_length_le a
  have h2 := sanitizeName_length_le b
  simp only [List.length_append, List.length_cons, List.nil_append]
  omega

/-- C28 (counterexample): an uppercase letter is dropped: `sanitizeName "Example.com"` is
`"xample_com"`, one character shorter than the domain, and the `E` is not in it. -/
theorem sanitizeName_drops_uppercase :
    sanitizeName "Example.com".toList = "xample_com".toList ∧
    (sanitizeName "Example.com".toList).length < "Example.com".toList.length ∧
    'E' ∉ sanitizeName "Example.com".toList := by
  decide

/-- C28: for every hostname written with lowercase letters, digits, `.` and `-`,
`sanitizeName` returns a string of the same length in which each `.` and `-` has become
`_` and every other character is still at its position; for every domain with an
uppercase letter the result is shorter than the domain. -/
theorem sanitizeName_keeps_positions (d : Str) :
    (domainChars d →
      (sanitizeName d).length = d.length ∧
      ∀ (i : Nat) (c : Char), d[i]? = some c →
        (sanitizeName d)[i]? = some (if c = '.' ∨ c = '-' then '_' else c)) ∧
    ((∃ c ∈ d, 'A' ≤ c ∧ c ≤ 'Z') → (sanitizeName d).length < d.length) := by
  refine ⟨fun h => ?_, sanitizeName_uppercase_shorter d⟩
  rw [sanitizeName_domainChars d h]
  refine ⟨List.length_map _ _, fun i c hc => ?_⟩
  rw [List.getElem?_map, hc]
  rfl

theorem sanitizeName_keeps_positions_witness :
    domainChars "my-site.example.com".toList ∧
    ((sanitizeName "my-site.example.com".toList).length = "my-site.example.com".toList.length ∧
      ∀ (i : Nat) (c : Char), "my-site.example.com".toList[i]? = some c →
        (sanitizeName "my-site.example.com".toList)[i]? =
          some (if c = '.' ∨ c = '-' then '_' else c)) ∧
    (∃ c ∈ "Example.com".toList, 'A' ≤ c ∧ c ≤ 'Z') ∧
    (sanitizeName "Example.com".toList).length < "Example.com".toList.length :=
  ⟨by decide, (sanitizeName_keeps_positions "my-site.example.com".toList).1 (by decide),
    by decide, (sanitizeName_keeps_positions "Example.com".toList).2 (by decide)⟩

/-! ## What Delete returns and repeats -/

theorem FS.eraseTree_absent (fs : FS) (p : Str) (h : FS.absent fs p) : FS.eraseTree fs p = fs := by
  unfold FS.eraseTree
  rw [List.filter_eq_self]
  intro b hb
  simp [h b hb]

theorem osRemoveAll_cases (path : Str) :
    (∀ w : World, (osRemoveAll path w).2 = w) ∨
    (∀ w : World,
      (osRemoveAll path w).2 = { w with fs := FS.eraseTree w.fs (filepathClean path) }) := by
  unfold osRemoveAll
  by_cases h1 : path = []
  · left; intro w; rw [if_pos h1]
  · by_cases h2 : endsWithDot path = true
    · left; intro w; rw [if_neg h1, if_pos h2]
    · right; intro w; rw [if_neg h1, if_neg h2]

theorem osRemove_cases (path : Str) (w : World) :
    ((osRemove path w).1 ≠ none ∧ (osRemove path w).2 = w) ∨
    ((osRemove path w).1 = none ∧
      (osRemove path w).2 = { w with fs := FS.erase w.fs (filepathClean path) }) := by
  unfold osRemove
  simp only []
  split
  · exact Or.inl ⟨by simp, rfl⟩
  · split
    · exact Or.inl ⟨by simp, rfl⟩
    · split
      · exact Or.inl ⟨by simp, rfl⟩
      · split
        · exact Or.inl ⟨by simp, rfl⟩
        · exact Or.inr ⟨rfl, rfl⟩
      · exact Or.inr ⟨rfl, rfl⟩

theorem osRemove_absent (path : Str) (w : World)
    (h : FS.lookup w.fs (filepathClean path) = none) : (osRemove path w).2 = w := by
  unfold osRemove
  simp only []
  split
  · rfl
  · split
    · rfl
    · rw [h]

theorem osRemove_congr (path : Str) (w w1 : World) (h : w1.fs = w.fs) :
    (osRemove path w1).1 = (osRemove path w).1 ∧ (osRemove path w1).2.fs = (osRemove path w).2.fs := by
  obtain ⟨fs, t⟩ := w
  obtain ⟨fs1, t1⟩ := w1
  simp only at h
  subst h
  unfold osRemove
  simp only []
  split
  · exact ⟨rfl, rfl⟩
  · split
    · exact ⟨rfl, rfl⟩
    · split
      · exact ⟨rfl, rfl⟩
      · split
        · exact ⟨rfl, rfl⟩
        · exact ⟨rfl, rfl⟩
      · exact ⟨rfl, rfl⟩

theorem osRemove_twice (path : Str) (w w1 : World) (h : w1.fs = (osRemove path w).2.fs) :
    (osRemove path w1).2.fs = w1.fs := by
  rcases osRemove_cases path w with ⟨_, h2⟩ | ⟨_, h2⟩
  · rw [h2] at h
    rw [(osRemove_congr path w w1 h).2, h2, h]
  · rw [h2] at h
    rw [osRemove_absent path w1 (by rw [h]; exact FS.lookup_erase_self _ _)]

theorem FS.eraseTree_erase (fs : FS) (p k : Str) :
    FS.eraseTree (FS.erase (FS.eraseTree fs p) k) p = FS.erase (FS.eraseTree fs p) k := by
  unfold FS.eraseTree FS.erase
  rw [List.filter_eq_self]
  intro b hb
  have := (List.mem_filter.1 (List.mem_filter.1 hb).1).2
  exact this

theorem FS.eraseTree_twice (fs : FS) (p : Str) :
    FS.eraseTree (FS.eraseTree fs p) p = FS.eraseTree fs p := by
  unfold FS.eraseTree
  rw [List.filter_filter]
  congr 1
  funext b
  simp

theorem Manager.Delete_fs (m : Manager) (env : Env) (domain : Str) (w : World) :
    (m.Delete env domain w).2.fs =
      (osRemove (filepathJoin ["/etc/caddy/sites".toList, domain ++ ".conf".toList])
        (osRemoveAll (filepathJoin [m.WebRoot, domain]) w).2).2.fs := by
  simp only [Manager.Delete, runCommand_fs]

theorem mysqlScripts_reload (env : Env) (w w1 : World)
    (h : w1.trace = w.trace ++ [["systemctl".toList, "reload".toList, "caddy".toList]]) :
    mysqlScripts env w1 = mysqlScripts env w := by
  rw [mysqlScripts_eq, mysqlScripts_eq, h, List.filterMap_append]
  have : [["systemctl".toList, "reload".toList, "caddy".toList]].filterMap (acceptedScript env)
      = [] := filterMap_acceptedScript_others env _ (by decide)
  rw [this, List.append_nil]

theorem Delete_fs_twice (sp cp : Str) (w w2 : World)
    (h : w2.fs = (osRemove cp (osRemoveAll sp w).2).2.fs) :
    (osRemove cp (osRemoveAll sp w2).2).2.fs = w2.fs := by
  have hA : (osRemoveAll sp w2).2.fs = w2.fs := by
    rcases osRemoveAll_cases sp with h0 | h0
    · rw [h0]
    · rw [h0 w2]
      rw [h0 w] at h
      simp only
      rw [h]
      rcases osRemove_cases cp { w with fs := FS.eraseTree w.fs (filepathClean sp) }
        with ⟨_, h3⟩ | ⟨_, h3⟩
      · rw [h3]; exact FS.eraseTree_twice _ _
      · rw [h3]; exact FS.eraseTree_erase _ _ _
  have hB := osRemove_twice cp (osRemoveAll sp w).2 (osRemoveAll sp w2).2 (by rw [hA, h])
  rw [hB, hA]

/-- C23 (counterexample): the removal of the proxy configuration fails, the configuration
is still there, and `Delete` returns nil. -/
theorem Manager.Delete_hides_failed_removal :
    (osRemove (filepathJoin ["/etc/caddy/sites".toList, "example.com".toList ++ ".conf".toList])
      (osRemoveAll (filepathJoin [NewManager.WebRoot, "example.com".toList])
        blockedConfigWorld).2).1 =
      some "remove /etc/caddy/sites/example.com.conf: directory not empty".toList ∧
    (NewManager.Delete allSucceed "example.com".toList blockedConfigWorld).1 = none ∧
    FS.lookup (NewManager.Delete allSucceed "example.com".toList blockedConfigWorld).2.fs
      "/etc/caddy/sites/example.com.conf".toList = some Entry.dir ∧
    FS.lookup (NewManager.Delete allSucceed "example.com".toList blockedConfigWorld).2.fs
      "/etc/caddy/sites/example.com.conf/Caddyfile".toList =
      some (Entry.file "example.com".toList) := by
  refine ⟨rfl, rfl, rfl, rfl⟩

/-- C23: `Delete` returns nil on every path: the result of each removal step and of the
reload is dropped, so the world after `Delete` is the one the two removals leave,
whatever they return, with the reload recorded. -/
theorem Manager.Delete_returns_nil (m : Manager) (env : Env) (domain : Str) (w : World) :
    (m.Delete env domain w).1 = none ∧
    (m.Delete env domain w).2 =
      { fs := (osRemove (filepathJoin ["/etc/caddy/sites".toList, domain ++ ".conf".toList])
          (osRemoveAll (filepathJoin [m.WebRoot, domain]) w).2).2.fs,
        trace := w.trace ++ [["systemctl".toList, "reload".toList, "caddy".toList]] } := by
  refine ⟨rfl, ?_⟩
  have ht := Manager.Delete_trace m env domain w
  have hf := Manager.Delete_fs m env domain w
  cases hd : (m.Delete env domain w).2 with
  | mk fs t =>
    rw [hd] at ht hf
    simp only at ht hf
    rw [ht, hf]

/-- C25: on a state in which nothing exists at or below `WebRoot/d` and the proxy
configuration `d.conf` does not exist, `Delete(d)` returns nil and leaves the filesystem
and the databases as they are; `Delete(d)` run twice returns nil and leaves the same
filesystem and the same databases as `Delete(d)` run once. -/
theorem Manager.Delete_idempotent (m : Manager) (env : Env) (d : Str) (w : World) :
    (FS.absent w.fs (filepathClean (filepathJoin [m.WebRoot, d])) →
      FS.lookup w.fs
        (filepathClean (filepathJoin ["/etc/caddy/sites".toList, d ++ ".conf".toList])) = none →
      (m.Delete env d w).1 = none ∧ (m.Delete env d w).2.fs = w.fs ∧
      mysqlScripts env (m.Delete env d w).2 = mysqlScripts env w) ∧
    (m.Delete env d (m.Delete env d w).2).1 = none ∧
    (m.Delete env d (m.Delete env d w).2).2.fs = (m.Delete env d w).2.fs ∧
    mysqlScripts env (m.Delete env d (m.Delete env d w).2).2 =
      mysqlScripts env (m.Delete env d w).2 := by
  refine ⟨fun h1 h2 => ⟨rfl, ?_, mysqlScripts_reload env _ _ (Manager.Delete_trace m env d w)⟩,
    rfl, ?_, mysqlScripts_reload env _ _ (Manager.Delete_trace m env d _)⟩
  · rw [Manager.Delete_fs]
    have ha : (osRemoveAll (filepathJoin [m.WebRoot, d]) w).2 = w := by
      rcases osRemoveAll_cases (filepathJoin [m.WebRoot, d]) with h | h
      · exact h w
      · rw [h w, FS.eraseTree_absent _ _ h1]
    rw [ha, osRemove_absent _ _ h2]
  · rw [Manager.Delete_fs m env d (m.Delete env d w).2]
    exact Delete_fs_twice _ _ w _ (Manager.Delete_fs m env d w)

theorem Manager.Delete_idempotent_witness :
    FS.absent aliasWorld.fs (filepathClean (filepathJoin [NewManager.WebRoot, "nosuch.com".toList])) ∧
    FS.lookup aliasWorld.fs
      (filepathClean (filepathJoin ["/etc/caddy/sites".toList,
        "nosuch.com".toList ++ ".conf".toList])) = none ∧
    ((NewManager.Delete allSucceed "nosuch.com".toList aliasWorld).1 = none ∧
      (NewManager.Delete allSucceed "nosuch.com".toList aliasWorld).2.fs = aliasWorld.fs ∧
      mysqlScripts allSucceed (NewManager.Delete allSucceed "nosuch.com".toList aliasWorld).2 =
        mysqlScripts allSucceed aliasWorld) :=
  ⟨by decide, by decide,
    (Manager.Delete_idempotent NewManager allSucceed "nosuch.com".toList aliasWorld).1
      (by decide) (by decide)⟩

/-! ## What Delete leaves alone -/

theorem splitOn_append_sep (sep : Char) (a b : Str) :
    splitOn sep (a ++ sep :: b) = splitOn sep a ++ splitOn sep b := by
  induction a with
  | nil =>
    simp only [List.nil_append]
    rw [splitOn]
    cases hb : splitOn sep b with
    | nil => exact absurd hb (splitOn_ne_nil sep b)
    | cons h r => simp [splitOn, hb]
  | cons c t ih =>
    rw [List.cons_append, splitOn, ih]
    cases ht : splitOn sep t with
    | nil => exact absurd ht (splitOn_ne_nil sep t)
    | cons h r =>
      rw [splitOn, ht]
      by_cases hc : c = sep
      · simp [hc]
      · simp [hc]

theorem splitOn_of_not_mem (sep : Char) (s : Str) (h : sep ∉ s) : splitOn sep s = [s] := by
  induction s with
  | nil => rfl
  | cons c t ih =>
    have hc : c ≠ sep := fun hc => h (by simp [hc])
    have ht : sep ∉ t := fun ht => h (List.mem_cons_of_mem _ ht)
    rw [splitOn, ih ht]
    simp [hc]

theorem cleanStep_siteName (rooted : Bool) (out : List Str) (n : Str) (h : siteName n) :
    cleanStep rooted out n = out ++ [n] := by
  unfold cleanStep
  rw [if_neg (by rintro (h1 | h1); exact h.1 h1; exact h.2.1 h1), if_neg h.2.2.1]

theorem foldl_cleanStep_siteNames (rooted : Bool) (names acc : List Str)
    (h : ∀ n ∈ names, siteName n) : names.foldl (cleanStep rooted) acc = acc ++ names := by
  induction names generalizing acc with
  | nil => simp
  | cons a t ih =>
    rw [List.foldl_cons, cleanStep_siteName rooted acc a (h a (by simp)),
      ih _ (fun n hn => h n (List.mem_cons_of_mem _ hn))]
    simp

theorem cleanStep_keeps_siteNames (out : List Str) (comp : Str) (h : ∀ n ∈ out, siteName n)
    (hc : '/' ∉ comp) : ∀ n ∈ cleanStep true out comp, siteName n := by
  unfold cleanStep
  split
  · exact h
  · rename_i h1
    split
    · rename_i h2
      split
      · intro n hn
        exact h n (List.mem_of_mem_dropLast hn)
      · simp only [if_true]
        exact h
    · rename_i h2
      intro n hn
      rcases List.mem_append.1 hn with hn | hn
      · exact h n hn
      · have : n = comp := by simpa using hn
        subst this
        exact ⟨fun e => h1 (Or.inl e), fun e => h1 (Or.inr e), h2, hc⟩

theorem foldl_cleanStep_keeps_siteNames (comps : List Str) (out : List Str)
    (h : ∀ n ∈ out, siteName n) (hc : ∀ c ∈ comps, '/' ∉ c) :
    ∀ n ∈ comps.foldl (cleanStep true) out, siteName n := by
  induction comps generalizing out with
  | nil => exact h
  | cons a t ih =>
    simp only [List.foldl_cons]
    exact ih _ (cleanStep_keeps_siteNames out a h (hc a (by simp)))
      (fun c hc1 => hc c (List.mem_cons_of_mem _ hc1))

/-- The components of a cleaned rooted path. -/
theorem rootedComponents_siteNames (path : Str) :
    ∀ n ∈ (splitOn '/' path).foldl (cleanStep true) [], siteName n :=
  foldl_cleanStep_keeps_siteNames _ [] (fun n hn => by simp at hn) (splitOn_no_sep '/' path)

theorem splitOn_intercalate (out : List Str) (hne : out ≠ []) (h : ∀ n ∈ out, '/' ∉ n) :
    splitOn '/' ("/".toList.intercalate out) = out := by
  induction out with
  | nil => exact absurd rfl hne
  | cons a t ih =>
    cases t with
    | nil =>
      rw [intercalate_singleton]
      exact splitOn_of_not_mem _ _ (h a (by simp))
    | cons b t2 =>
      rw [intercalate_cons_cons]
      have : a ++ "/".toList ++ "/".toList.intercalate (b :: t2) =
          a ++ '/' :: "/".toList.intercalate (b :: t2) := by simp
      rw [this, splitOn_append_sep, splitOn_of_not_mem _ _ (h a (by simp)),
        ih (by simp) (fun n hn => h n (List.mem_cons_of_mem _ hn))]
      rfl

theorem filepathClean_components (out : List Str) (h : ∀ n ∈ out, siteName n) :
    filepathClean ('/' :: "/".toList.intercalate out) = '/' :: "/".toList.intercalate out := by
  rw [filepathClean_rooted ('/' :: "/".toList.intercalate out) rfl]
  congr 2
  cases out with
  | nil => rfl
  | cons a t =>
    have hs : splitOn '/' ('/' :: "/".toList.intercalate (a :: t)) =
        [] :: splitOn '/' ("/".toList.intercalate (a :: t)) := by
      have := splitOn_append_sep '/' [] ("/".toList.intercalate (a :: t))
      simpa [splitOn] using this
    rw [hs, splitOn_intercalate _ (by simp) (fun n hn => (h n hn).2.2.2), List.foldl_cons]
    have : cleanStep true [] [] = [] := rfl
    rw [this, foldl_cleanStep_siteNames true _ [] h, List.nil_append]

theorem filepathJoin_siteName (root n : Str) (hroot : root.head? = some '/') (hn : siteName n) :
    filepathJoin [root, n] =
      '/' :: "/".toList.intercalate ((splitOn '/' root).foldl (cleanStep true) [] ++ [n]) := by
  have hne : root ≠ [] := by rintro rfl; simp at hroot
  have hj : filepathJoin [root, n] = filepathClean (root ++ '/' :: n) := by
    unfold filepathJoin
    simp [hne, List.intercalate, List.intersperse]
  have hh : (root ++ '/' :: n).head? = some '/' := by
    cases root with
    | nil => exact absurd rfl hne
    | cons r rs => simpa using hroot
  rw [hj, filepathClean_rooted _ hh, splitOn_append_sep, splitOn_of_not_mem _ _ hn.2.2.2,
    List.foldl_append, List.foldl_cons, List.foldl_nil, cleanStep_siteName _ _ _ hn]

theorem filepathClean_filepathJoin_siteName (root n : Str) (hroot : root.head? = some '/')
    (hn : siteName n) :
    filepathClean (filepathJoin [root, n]) =
      '/' :: "/".toList.intercalate ((splitOn '/' root).foldl (cleanStep true) [] ++ [n]) := by
  rw [filepathJoin_siteName root n hroot hn]
  apply filepathClean_components
  intro c hc
  rcases List.mem_append.1 hc with hc | hc
  · exact rootedComponents_siteNames root c hc
  · have : c = n := by simpa using hc
    subst this; exact hn

theorem isUnder_iff (p q : Str) :
    isUnder p q = true ↔
      q = p ∨ (if p.getLast? = some '/' then p else p ++ ['/']) <+: q := by
  unfold isUnder
  simp only [decide_eq_true_eq, List.isPrefixOf_iff_prefix]

theorem intercalate_append_singleton (sep : Str) (out : List Str) (n : Str) (hne : out ≠ []) :
    sep.intercalate (out ++ [n]) = sep.intercalate out ++ sep ++ n := by
  induction out with
  | nil => exact absurd rfl hne
  | cons a t ih =>
    cases t with
    | nil => simp [List.intercalate, List.intersperse]
    | cons b t2 =>
      have h1 : (a :: b :: t2) ++ [n] = a :: b :: (t2 ++ [n]) := rfl
      have h2 : (b :: t2) ++ [n] = b :: (t2 ++ [n]) := rfl
      rw [h1, intercalate_cons_cons, ← h2, ih (by simp), intercalate_cons_cons]
      simp [List.append_assoc]

/-- The text of a cleaned rooted path up to its last component. -/
theorem rooted_append_component (out : List Str) :
    ∃ base : Str, ∀ c : Str, '/' :: "/".toList.intercalate (out ++ [c]) = base ++ c := by
  by_cases hne : out = []
  · subst hne
    exact ⟨['/'], fun c => by simp [intercalate_singleton]⟩
  · exact ⟨'/' :: ("/".toList.intercalate out ++ "/".toList), fun c => by
      rw [intercalate_append_singleton _ _ _ hne]; simp⟩

theorem component_unique (d d1 r r1 : Str) (hd : '/' ∉ d) (hd1 : '/' ∉ d1)
    (hr : r = [] ∨ r.head? = some '/') (hr1 : r1 = [] ∨ r1.head? = some '/')
    (h : d ++ r = d1 ++ r1) : d = d1 := by
  induction d generalizing d1 with
  | nil =>
    cases d1 with
    | nil => rfl
    | cons c t =>
      exfalso
      simp only [List.nil_append, List.cons_append] at h
      rcases hr with hr | hr
      · rw [hr] at h; simp at h
      · rw [h] at hr
        simp only [List.head?_cons, Option.some.injEq] at hr
        exact hd1 (by simp [hr])
  | cons c t ih =>
    cases d1 with
    | nil =>
      exfalso
      simp only [List.nil_append, List.cons_append] at h
      rcases hr1 with hr1 | hr1
      · rw [hr1] at h; simp at h
      · rw [← h] at hr1
        simp only [List.head?_cons, Option.some.injEq] at hr1
        exact hd (by simp [hr1])
    | cons c1 t1 =>
      simp only [List.cons_append, List.cons.injEq] at h
      obtain ⟨hc, ht⟩ := h
      subst hc
      rw [ih t1 (fun hm => hd (List.mem_cons_of_mem _ hm))
        (fun hm => hd1 (List.mem_cons_of_mem _ hm)) ht]

theorem isUnder_component (base n q : Str) (hn : siteName n)
    (h : isUnder (base ++ n) q = true) :
    ∃ r : Str, q = base ++ (n ++ r) ∧ (r = [] ∨ r.head? = some '/') := by
  rw [isUnder_iff] at h
  have hl : (base ++ n).getLast? ≠ some '/' := by
    rw [List.getLast?_append_of_ne_nil _ hn.1]
    intro hc
    exact hn.2.2.2 (List.mem_of_getLast?_eq_some hc)
  rw [if_neg hl] at h
  rcases h with h | ⟨r, h⟩
  · exact ⟨[], by simp [h], Or.inl rfl⟩
  · exact ⟨'/' :: r, by rw [← h]; simp, Or.inr rfl⟩

theorem isUnder_other_component (base d d1 q : Str) (hd : siteName d) (hd1 : siteName d1)
    (hne : d1 ≠ d) (h : isUnder (base ++ d1) q = true) : isUnder (base ++ d) q = false := by
  cases hu : isUnder (base ++ d) q with
  | false => rfl
  | true =>
    exfalso
    obtain ⟨r1, hq1, hr1⟩ := isUnder_component base d1 q hd1 h
    obtain ⟨r, hq, hr⟩ := isUnder_component base d q hd hu
    rw [hq1] at hq
    exact hne (component_unique d1 d r1 r hd1.2.2.2 hd.2.2.2 hr1 hr (List.append_cancel_left hq))

/-- The trees of two sites with different names under one web root are apart. -/
theorem siteTrees_apart (root d d1 q : Str) (hroot : root.head? = some '/')
    (hd : siteName d) (hd1 : siteName d1) (hne : d1 ≠ d)
    (h : isUnder (filepathClean (filepathJoin [root, d1])) q = true) :
    isUnder (filepathClean (filepathJoin [root, d])) q = false := by
  rw [filepathClean_filepathJoin_siteName root d1 hroot hd1] at h
  rw [filepathClean_filepathJoin_siteName root d hroot hd]
  obtain ⟨base, hb⟩ := rooted_append_component ((splitOn '/' root).foldl (cleanStep true) [])
  rw [hb] at h ⊢
  exact isUnder_other_component base d d1 q hd hd1 hne h

theorem siteName_conf (d : Str) (h : '/' ∉ d) : siteName (d ++ ".conf".toList) := by
  refine ⟨by simp, ?_, ?_, ?_⟩
  · intro hc
    have := congrArg List.length hc
    simp at this
  · intro hc
    have := congrArg List.length hc
    simp at this
  · intro hc
    rcases List.mem_append.1 hc with hc | hc
    · exact h hc
    · revert hc; decide

theorem confPath_eq (d : Str) (h : '/' ∉ d) :
    filepathClean (filepathJoin ["/etc/caddy/sites".toList, d ++ ".conf".toList]) =
      "/etc/caddy/sites/".toList ++ (d ++ ".conf".toList) := by
  rw [filepathClean_filepathJoin_siteName "/etc/caddy/sites".toList _ rfl (siteName_conf d h)]
  have : (splitOn '/' "/etc/caddy/sites".toList).foldl (cleanStep true) [] =
      ["etc".toList, "caddy".toList, "sites".toList] := by decide
  rw [this]
  simp [List.intercalate, List.intersperse]

theorem confPath_injective (d d1 : Str) (h : '/' ∉ d) (h1 : '/' ∉ d1) (hne : d1 ≠ d) :
    filepathClean (filepathJoin ["/etc/caddy/sites".toList, d1 ++ ".conf".toList]) ≠
      filepathClean (filepathJoin ["/etc/caddy/sites".toList, d ++ ".conf".toList]) := by
  rw [confPath_eq d h, confPath_eq d1 h1]
  intro hc
  exact hne (List.append_cancel_right (List.append_cancel_left hc))

theorem FS.lookup_eraseTree_apart (fs : FS) (p q : Str) (h : isUnder p q = false) :
    FS.lookup (FS.eraseTree fs p) q = FS.lookup fs q := by
  have h1 := FS.lookup_filter fs (fun k => decide (¬ isUnder p k = true)) q
  simpa [FS.eraseTree, h] using h1

theorem Manager.Delete_frame (m : Manager) (env : Env) (d : Str) (w : World) (q : Str)
    (h1 : isUnder (filepathClean (filepathJoin [m.WebRoot, d])) q = false)
    (h2 : q ≠ filepathClean (filepathJoin ["/etc/caddy/sites".toList, d ++ ".conf".toList])) :
    FS.lookup (m.Delete env d w).2.fs q = FS.lookup w.fs q := by
  rw [Manager.Delete_fs, osRemove_lookup_ne _ _ _ h2]
  rcases osRemoveAll_cases (filepathJoin [m.WebRoot, d]) with h | h
  · rw [h]
  · rw [h]
    exact FS.lookup_eraseTree_apart _ _ _ h1

/-- C29 (counterexample): with the empty argument `Delete` removes the web root itself,
and with it the site `example.com`, its content and its alias; with the argument
`x/../example.com` it removes the site `example.com` and its proxy configuration. -/
theorem Manager.Delete_removes_other_sites :
    FS.lookup aliasWorld.fs "/var/www/example.com/public/index.php".toList =
      some (Entry.file "<?php".toList) ∧
    (NewManager.Delete allSucceed [] aliasWorld).1 = none ∧
    FS.lookup (NewManager.Delete allSucceed [] aliasWorld).2.fs "/var/www/example.com".toList
      = none ∧
    FS.lookup (NewManager.Delete allSucceed [] aliasWorld).2.fs
      "/var/www/example.com/public/index.php".toList = none ∧
    FS.lookup (NewManager.Delete allSucceed [] aliasWorld).2.fs
      "/var/www/www.example.com".toList = none ∧
    FS.lookup (NewManager.Delete allSucceed ".".toList aliasWorld).2.fs
      "/var/www/example.com/public/index.php".toList = none ∧
    FS.lookup (NewManager.Delete allSucceed "..".toList aliasWorld).2.fs
      "/var/www/example.com/public/index.php".toList = none ∧
    FS.lookup (NewManager.Delete allSucceed "x/../example.com".toList aliasWorld).2.fs
      "/var/www/example.com/public/index.php".toList = none ∧
    FS.lookup (NewManager.Delete allSucceed "x/../example.com".toList aliasWorld).2.fs
      "/etc/caddy/sites/example.com.conf".toList = none ∧
    FS.lookup aliasWorld.fs "/etc/caddy/sites/example.com.conf".toList =
      some (Entry.file "example.com".toList) := by
  refine ⟨rfl, rfl, rfl, rfl, rfl, rfl, rfl, rfl, rfl, rfl⟩

/-- C29: `Delete(d)` removes nothing but what lies at or below `WebRoot/d` and the entry
`d.conf` of `/etc/caddy/sites`.  When the web root is absolute and `d` is a single path
component, every other site `d1` keeps each entry at or below `WebRoot/d1`, the path
`d.conf` itself apart, and keeps its proxy configuration `d1.conf` when that does not
lie below `WebRoot/d`. -/
theorem Manager.Delete_only_named_site (m : Manager) (env : Env) (d : Str) (w : World)
    (hroot : m.WebRoot.head? = some '/') :
    (∀ q : Str, isUnder (filepathClean (filepathJoin [m.WebRoot, d])) q = false →
      q ≠ filepathClean (filepathJoin ["/etc/caddy/sites".toList, d ++ ".conf".toList]) →
      FS.lookup (m.Delete env d w).2.fs q = FS.lookup w.fs q) ∧
    (siteName d → ∀ d1 : Str, siteName d1 → d1 ≠ d →
      (∀ q : Str, isUnder (filepathClean (filepathJoin [m.WebRoot, d1])) q = true →
        q ≠ filepathClean (filepathJoin ["/etc/caddy/sites".toList, d ++ ".conf".toList]) →
        FS.lookup (m.Delete env d w).2.fs q = FS.lookup w.fs q) ∧
      (isUnder (filepathClean (filepathJoin [m.WebRoot, d]))
          (filepathClean (filepathJoin ["/etc/caddy/sites".toList, d1 ++ ".conf".toList]))
          = false →
        FS.lookup (m.Delete env d w).2.fs
            (filepathClean (filepathJoin ["/etc/caddy/sites".toList, d1 ++ ".conf".toList])) =
          FS.lookup w.fs
            (filepathClean (filepathJoin ["/etc/caddy/sites".toList, d1 ++ ".conf".toList])))) := by
  refine ⟨fun q h1 h2 => Manager.Delete_frame m env d w q h1 h2, fun hd d1 hd1 hne => ⟨?_, ?_⟩⟩
  · intro q hq h2
    exact Manager.Delete_frame m env d w q (siteTrees_apart m.WebRoot d d1 q hroot hd hd1 hne hq) h2
  · intro h1
    exact Manager.Delete_frame m env d w _ h1
      (confPath_injective d d1 hd.2.2.2 hd1.2.2.2 hne)

theorem Manager.Delete_only_named_site_witness :
    NewManager.WebRoot.head? = some '/' ∧
    siteName "www.example.com".toList ∧ siteName "example.com".toList ∧
    "example.com".toList ≠ "www.example.com".toList ∧
    isUnder (filepathClean (filepathJoin [NewManager.WebRoot, "example.com".toList]))
      "/var/www/example.com/public/index.php".toList = true ∧
    FS.lookup (NewManager.Delete allSucceed "www.example.com".toList aliasWorld).2.fs
        "/var/www/example.com/public/index.php".toList =
      FS.lookup aliasWorld.fs "/var/www/example.com/public/index.php".toList ∧
    FS.lookup (NewManager.Delete allSucceed "www.example.com".toList aliasWorld).2.fs
        (filepathClean (filepathJoin ["/etc/caddy/sites".toList,
          "example.com".toList ++ ".conf".toList])) =
      FS.lookup aliasWorld.fs
        (filepathClean (filepathJoin ["/etc/caddy/sites".toList,
          "example.com".toList ++ ".conf".toList])) :=
  ⟨rfl, by decide, by decide, by decide, by decide,
    ((Manager.Delete_only_named_site NewManager allSucceed "www.example.com".toList aliasWorld
      rfl).2 (by decide) "example.com".toList (by decide) (by decide)).1
        "/var/www/example.com/public/index.php".toList (by decide) (by decide),
    ((Manager.Delete_only_named_site NewManager allSucceed "www.example.com".toList aliasWorld
      rfl).2 (by decide) "example.com".toList (by decide) (by decide)).2 (by decide)⟩

/-! ## The optimisation block of createConfig -/

theorem followLinks_after_write (fs : FS) (key data : Str) (fuel : Nat) (start : Str)
    (h : followLinks fs fuel start = some key) :
    followLinks ((key, Entry.file data) :: FS.erase fs key) fuel start = some key := by
  induction fuel generalizing start with
  | zero => simp [followLinks] at h
  | succ n ih =>
    have hkey := followLinks_target fs (n + 1) start key h
    unfold followLinks at h ⊢
    split at h
    · rename_i target hl
      have hne : key ≠ start := by
        rintro rfl
        exact hkey target hl
      have hl' : FS.lookup ((key, Entry.file data) :: FS.erase fs key) start =
          some (Entry.symlink target) := by
        rw [FS.lookup_cons, if_neg hne, FS.lookup_erase_ne _ _ _ (Ne.symm hne), hl]
      rw [hl']
      exact ih _ h
    · simp only [Option.some.injEq] at h
      subst h
      have hl' : FS.lookup ((start, Entry.file data) :: FS.erase fs start) start =
          some (Entry.file data) := by
        rw [FS.lookup_cons, if_pos rfl]
      rw [hl']

/-- A file that has been written reads back as the data. -/
theorem osReadFile_osWriteFile (path data : Str) (w : World)
    (h : (osWriteFile path data w).1 = none) :
    osReadFile path (osWriteFile path data w).2 = Except.ok data := by
  unfold osWriteFile at h ⊢
  by_cases hp : path = []
  · rw [if_pos hp] at h; simp at h
  · rw [if_neg hp] at h ⊢
    cases hf : followLinks w.fs 41 (filepathClean path) with
    | none => rw [hf] at h; simp at h
    | some key =>
      rw [hf] at h
      simp only at h ⊢
      by_cases h1 : ¬ FS.isDir w.fs (filepathDir key) = true
      · rw [if_pos h1] at h; simp at h
      · rw [if_neg h1] at h ⊢
        by_cases h2 : FS.isDir w.fs key = true
        · rw [if_pos h2] at h; simp at h
        · rw [if_neg h2]
          unfold osReadFile
          rw [if_neg hp]
          simp only
          rw [followLinks_after_write w.fs key data 41 _ hf]
          have hk : ¬ (key = "/".toList ∨ key = ".".toList) := by
            intro hc
            apply h2
            unfold FS.isDir FS.stat
            rw [if_pos hc]
            simp
          have hs : FS.stat ((key, Entry.file data) :: FS.erase w.fs key) key =
              some (Entry.file data) := by
            unfold FS.stat
            rw [if_neg hk, FS.lookup_cons, if_pos rfl]
          simp only [hs]

theorem Manager.createConfig_eq (env : Env) (tools : Tools) (s : Site) (w : World)
    (hcmd : env.status (configCommand s) = none) :
    Manager.createConfig env tools s w =
      osWriteFile (configPath s)
        (let content :=
          match osReadFile (configPath s) (runTool env tools (configCommand s) w).2 with
          | Except.ok data => data
          | Except.error _ => []
         if ((content.length : Int) - 100) > 0 then
           content.take ((content.length : Int) - 100).toNat ++ WordPress.OptimizeConfig ++
             content.drop ((content.length : Int) - 100).toNat
         else content)
        (runTool env tools (configCommand s) w).2 := by
  unfold Manager.createConfig
  simp only [runTool, configCommand, configPath] at hcmd ⊢
  rw [hcmd]

theorem utf8Size_ascii (c : Char) (h : c.toNat < 128) : c.utf8Size = 1 := by
  unfold Char.utf8Size
  have : c.val ≤ 0x7F := by
    rw [UInt32.le_def]
    have h1 : c.val.toNat < 128 := h
    show c.val.val ≤ (0x7F : UInt32).val
    rw [Fin.le_def]
    show c.val.toNat ≤ 127
    omega
  simp [this]

/-- An ASCII text has as many bytes as characters. -/
theorem byteLen_ascii (s : Str) (h : isASCII s) : byteLen s = s.length := by
  induction s with
  | nil => rfl
  | cons c t ih =>
    unfold byteLen at ih ⊢
    rw [List.map_cons, List.sum_cons, ih (fun x hx => h x (List.mem_cons_of_mem _ hx)),
      utf8Size_ascii c (h c (List.mem_cons_self _ _)), List.length_cons]
    omega

set_option maxRecDepth 8192 in
theorem WordPress.OptimizeConfig_length : WordPress.OptimizeConfig.length = 482 := by decide

/-- C24: the block is not added to a short configuration file.  When `wp config create`
has succeeded and left a configuration file with the ASCII content `content`, and
`createConfig` returns nil, the file holds afterwards: for a content of more than 100
bytes, the content with the block of `OptimizeConfig` inserted 100 bytes before its end,
which contains the whole block and keeps every byte of the content in order; for a
content of at most 100 bytes, the content as it was, and the block is not in it.  So it
is with the 38 bytes `<?php` and the marker line: the marker is there, `Create` returns
nil, and the file is written back as it was. -/
theorem Manager.createConfig_block (env : Env) (tools : Tools) (s : Site) (w : World)
    (content : Str)
    (hcmd : env.status (configCommand s) = none)
    (hread : osReadFile (configPath s) (runTool env tools (configCommand s) w).2 =
      Except.ok content)
    (hascii : isASCII content)
    (hok : (Manager.createConfig env tools s w).1 = none) :
    (100 < byteLen content →
      osReadFile (configPath s) (Manager.createConfig env tools s w).2 =
        Except.ok (content.take (byteLen content - 100) ++ WordPress.OptimizeConfig ++
          content.drop (byteLen content - 100)) ∧
      WordPress.OptimizeConfig <:+:
        content.take (byteLen content - 100) ++ WordPress.OptimizeConfig ++
          content.drop (byteLen content - 100) ∧
      content.take (byteLen content - 100) ++ content.drop (byteLen content - 100) = content ∧
      List.Sublist content
        (content.take (byteLen content - 100) ++ WordPress.OptimizeConfig ++
          content.drop (byteLen content - 100))) ∧
    (byteLen content ≤ 100 →
      osReadFile (configPath s) (Manager.createConfig env tools s w).2 = Except.ok content ∧
      ¬ WordPress.OptimizeConfig <:+: content) ∧
    ((NewManager.Create allSucceed sampleTools (siteOf "example.com".toList true)
        emptyWorld).2.1 = none ∧
      osReadFile "/var/www/example.com/public/wp-config.php".toList
        (NewManager.Create allSucceed sampleTools (siteOf "example.com".toList true)
          emptyWorld).2.2 = Except.ok "<?php\n/* That\x27s all, stop editing! */\n".toList ∧
      configMarker <:+: "<?php\n/* That\x27s all, stop editing! */\n".toList ∧
      byteLen "<?php\n/* That\x27s all, stop editing! */\n".toList = 38 ∧
      ¬ WordPress.OptimizeConfig <:+: "<?php\n/* That\x27s all, stop editing! */\n".toList) := by
  have hshort : ∀ t : Str, t.length ≤ 100 → ¬ WordPress.OptimizeConfig <:+: t := by
    intro t ht h
    have := h.length_le
    rw [WordPress.OptimizeConfig_length] at this
    omega
  refine ⟨?_, ?_, rfl, rfl, by decide, by decide, hshort _ (by decide)⟩
  · rw [Manager.createConfig_eq env tools s w hcmd] at hok ⊢
    rw [hread] at hok ⊢
    simp only at hok ⊢
    rw [byteLen_ascii content hascii]
    intro hlen
    have h1 : ((content.length : Int) - 100) > 0 := by omega
    have h2 : ((content.length : Int) - 100).toNat = content.length - 100 := by omega
    rw [if_pos h1, h2] at hok ⊢
    refine ⟨osReadFile_osWriteFile _ _ _ hok, ?_, List.take_append_drop _ _, ?_⟩
    · exact ⟨content.take (content.length - 100), content.drop (content.length - 100), rfl⟩
    · conv_lhs => rw [← List.take_append_drop (content.length - 100) content]
      rw [List.append_assoc]
      exact List.Sublist.append (List.Sublist.refl _) (List.sublist_append_right _ _)
  · rw [Manager.createConfig_eq env tools s w hcmd] at hok ⊢
    rw [hread] at hok ⊢
    simp only at hok ⊢
    rw [byteLen_ascii content hascii]
    intro hlen
    have h1 : ¬ ((content.length : Int) - 100) > 0 := by omega
    rw [if_neg h1] at hok ⊢
    exact ⟨osReadFile_osWriteFile _ _ _ hok, hshort content hlen⟩

set_option maxRecDepth 8192 in
theorem Manager.createConfig_block_witness :
    allSucceed.status (configCommand (provisionedSite NewManager (siteOf "example.com".toList true)))
      = none ∧
    osReadFile (configPath (provisionedSite NewManager (siteOf "example.com".toList true)))
      (runTool allSucceed modelTools
        (configCommand (provisionedSite NewManager (siteOf "example.com".toList true)))
        existingLayoutWorld).2 = Except.ok standardConfig ∧
    isASCII standardConfig ∧
    (Manager.createConfig allSucceed modelTools
      (provisionedSite NewManager (siteOf "example.com".toList true)) existingLayoutWorld).1
      = none ∧
    100 < byteLen standardConfig ∧
    osReadFile (configPath (provisionedSite NewManager (siteOf "example.com".toList true)))
      (Manager.createConfig allSucceed modelTools
        (provisionedSite NewManager (siteOf "example.com".toList true)) existingLayoutWorld).2 =
      Except.ok (standardConfig.take (byteLen standardConfig - 100) ++ WordPress.OptimizeConfig ++
        standardConfig.drop (byteLen standardConfig - 100)) ∧
    osReadFile (configPath (provisionedSite NewManager (siteOf "example.com".toList true)))
      (runTool allSucceed sampleTools
        (configCommand (provisionedSite NewManager (siteOf "example.com".toList true)))
        existingLayoutWorld).2 = Except.ok "<?php\n/* That\x27s all, stop editing! */\n".toList ∧
    isASCII "<?php\n/* That\x27s all, stop editing! */\n".toList ∧
    (Manager.createConfig allSucceed sampleTools
      (provisionedSite NewManager (siteOf "example.com".toList true)) existingLayoutWorld).1
      = none ∧
    byteLen "<?php\n/* That\x27s all, stop editing! */\n".toList ≤ 100 ∧
    (osReadFile (configPath (provisionedSite NewManager (siteOf "example.com".toList true)))
      (Manager.createConfig allSucceed sampleTools
        (provisionedSite NewManager (siteOf "example.com".toList true)) existingLayoutWorld).2 =
      Except.ok "<?php\n/* That\x27s all, stop editing! */\n".toList ∧
     ¬ WordPress.OptimizeConfig <:+: "<?php\n/* That\x27s all, stop editing! */\n".toList) :=
  ⟨rfl, rfl, by decide, rfl, by decide,
    ((Manager.createConfig_block allSucceed modelTools
      (provisionedSite NewManager (siteOf "example.com".toList true)) existingLayoutWorld
      standardConfig rfl rfl (by decide) rfl).1 (by decide)).1,
    rfl, by decide, rfl, by decide,
    (Manager.createConfig_block allSucceed sampleTools
      (provisionedSite NewManager (siteOf "example.com".toList true)) existingLayoutWorld
      "<?php\n/* That\x27s all, stop editing! */\n".toList rfl rfl (by decide) rfl).2.1
      (by decide)⟩

set_option maxRecDepth 8192 in
/-- C27: the block is not inserted before the marker.  `wp config create` leaves a
`wp-config.php` that contains the marker, followed by the lines that load WordPress;
`createConfig` cuts the content 100 characters before its end, which is behind the marker
and inside the word `defined`, and puts the block there. -/
theorem Manager.createConfig_block_after_marker :
    osReadFile (configPath (provisionedSite NewManager (siteOf "example.com".toList true)))
      (runTool allSucceed modelTools
        (configCommand (provisionedSite NewManager (siteOf "example.com".toList true)))
        existingLayoutWorld).2 = Except.ok (configHead ++ configMarker ++ configTail) ∧
    ¬ configMarker <:+: configHead ∧
    (Manager.createConfig allSucceed modelTools
      (provisionedSite NewManager (siteOf "example.com".toList true)) existingLayoutWorld).1
      = none ∧
    osReadFile (configPath (provisionedSite NewManager (siteOf "example.com".toList true)))
      (Manager.createConfig allSucceed modelTools
        (provisionedSite NewManager (siteOf "example.com".toList true)) existingLayoutWorld).2 =
      Except.ok (configHead ++ configMarker ++ " Happy publishing. */\nif ( ! define".toList ++
        WordPress.OptimizeConfig ++
        ("d( \x27ABSPATH\x27 ) ) \x7b\n\tdefine( \x27ABSPATH\x27, __DIR__ . \x27/\x27 );\n\x7d\n" ++
         "require_once ABSPATH . \x27wp-settings.php\x27;\n").toList) ∧
    configHead ++ configMarker ++ " Happy publishing. */\nif ( ! define".toList ++
        WordPress.OptimizeConfig ++
        ("d( \x27ABSPATH\x27 ) ) \x7b\n\tdefine( \x27ABSPATH\x27, __DIR__ . \x27/\x27 );\n\x7d\n" ++
         "require_once ABSPATH . \x27wp-settings.php\x27;\n").toList ≠
      configHead ++ WordPress.OptimizeConfig ++ configMarker ++ configTail := by
  refine ⟨rfl, by decide, rfl, rfl, by decide⟩

/-! ## The result of writing the proxy configuration -/

theorem Manager.Clone_returns (m : Manager) (env : Env) (tools : Tools)
    (sourceDomain targetDomain : Str) (w : World) :
    (m.Clone env tools sourceDomain targetDomain w).1 =
      match env.status ["cp".toList, "-r".toList, filepathJoin [m.WebRoot, sourceDomain],
          filepathJoin [m.WebRoot, targetDomain]] with
      | some err => some ("copy failed: ".toList ++ err)
      | none =>
        match env.status (mysqlCommand (siteOf targetDomain true)) with
        | some err => some ("database creation failed: ".toList ++ err)
        | none => none := by
  unfold Manager.Clone
  simp only [runTool]
  cases h1 : env.status ["cp".toList, "-r".toList, filepathJoin [m.WebRoot, sourceDomain],
      filepathJoin [m.WebRoot, targetDomain]] with
  | some err => rfl
  | none =>
    simp only [createDatabase_eq]
    have hm : ∀ p : Str, mysqlCommand (Site.mk targetDomain p [] [] [] false true) =
        mysqlCommand (siteOf targetDomain true) := fun _ => rfl
    rw [hm]
    cases h2 : env.status (mysqlCommand (siteOf targetDomain true)) with
    | some err => rfl
    | none => rfl

/-- C26: `Clone` and `AddDomain` do not look at the result of `AddSite`: `Clone` returns
nil exactly when the copy and the database creation succeed, `AddDomain` exactly when the
symlink is created.  On a filesystem where the proxy configuration cannot be written,
`AddSite` returns an error, `Create` returns it as its own, and `Clone` and `AddDomain`
return nil with no configuration file written; a failing reload makes none of the three
fail. -/
theorem Manager.Clone_AddDomain_drop_proxy_error :
    (∀ (m : Manager) (env : Env) (tools : Tools) (sourceDomain targetDomain : Str) (w : World),
      (m.Clone env tools sourceDomain targetDomain w).1 = none ↔
        env.status ["cp".toList, "-r".toList, filepathJoin [m.WebRoot, sourceDomain],
          filepathJoin [m.WebRoot, targetDomain]] = none ∧
        env.status (mysqlCommand (siteOf targetDomain true)) = none) ∧
    (∀ (m : Manager) (env : Env) (siteDomain newDomain : Str) (w : World),
      (m.AddDomain env siteDomain newDomain w).1 = none ↔
        (osSymlink (filepathJoin [m.WebRoot, siteDomain])
          (filepathJoin [m.WebRoot, newDomain]) w).1 = none) ∧
    (∀ t : List (List Str),
      (NewManager.CaddyConf.AddSite "example2.com".toList true
        { fs := brokenProxyWorld.fs, trace := t }).1 =
        some "open /etc/caddy/sites/example2.com.conf: no such file or directory".toList) ∧
    (NewManager.CaddyConf.AddSite "www.example.com".toList true
      (osSymlink (filepathJoin [NewManager.WebRoot, "example.com".toList])
        (filepathJoin [NewManager.WebRoot, "www.example.com".toList]) brokenProxyWorld).2).1 =
      some "open /etc/caddy/sites/www.example.com.conf: no such file or directory".toList ∧
    (NewManager.Create allSucceed sampleTools (siteOf "example.com".toList true)
      brokenProxyWorld).2.1 =
      some ("failed to create Caddy config: open /etc/caddy/sites/example.com.conf: " ++
        "no such file or directory").toList ∧
    (NewManager.Clone allSucceed noEffect "example.com".toList "example2.com".toList
      brokenProxyWorld).1 = none ∧
    (NewManager.Clone allSucceed noEffect "example.com".toList "example2.com".toList
      brokenProxyWorld).2.fs = brokenProxyWorld.fs ∧
    (NewManager.AddDomain allSucceed "example.com".toList "www.example.com".toList
      brokenProxyWorld).1 = none ∧
    (NewManager.AddDomain allSucceed "example.com".toList "www.example.com".toList
      brokenProxyWorld).2.fs =
      ("/var/www/www.example.com".toList, Entry.symlink "/var/www/example.com".toList) ::
        brokenProxyWorld.fs ∧
    (NewManager.Create reloadFails sampleTools (siteOf "example.com".toList true)
      emptyWorld).2.1 = none ∧
    (NewManager.Clone reloadFails noEffect "example.com".toList "example2.com".toList
      emptyWorld).1 = none ∧
    (NewManager.AddDomain reloadFails "example.com".toList "www.example.com".toList
      webRootWorld).1 = none := by
  refine ⟨?_, ?_, fun t => rfl, rfl, rfl, rfl, rfl, rfl, rfl, rfl, rfl, rfl⟩
  · intro m env tools s t w
    rw [Manager.Clone_returns]
    cases h1 : env.status ["cp".toList, "-r".toList, filepathJoin [m.WebRoot, s],
        filepathJoin [m.WebRoot, t]] with
    | some err => simp
    | none =>
      cases h2 : env.status (mysqlCommand (siteOf t true)) with
      | some err => simp
      | none => simp
  · intro m env s n w
    unfold Manager.AddDomain
    simp only
    cases h : osSymlink (filepathJoin [m.WebRoot, s]) (filepathJoin [m.WebRoot, n]) w with
    | mk r w1 =>
      cases r with
      | some err => simp
      | none => simp

/-! ## The firewall lists -/

theorem stringsTrimSpace_csfLine (key value : Str) (hk : csfKey key) :
    stringsTrimSpace (csfLine key value) = key ++ " = \x22".toList ++ value ++ "\x22".toList := by
  obtain ⟨_, c, hc, hs⟩ := hk
  cases key with
  | nil => simp at hc
  | cons k ks =>
    simp only [List.head?_cons, Option.some.injEq] at hc
    subst hc
    unfold stringsTrimSpace csfLine
    have h1 : List.dropWhile unicodeIsSpace
        (k :: ks ++ " = \x22".toList ++ value ++ "\x22\n".toList) =
        k :: ks ++ " = \x22".toList ++ value ++ "\x22\n".toList := by
      simp only [List.cons_append]
      rw [List.dropWhile_cons_of_neg (by simp [hs])]
    rw [h1]
    have h2 : (k :: ks ++ " = \x22".toList ++ value ++ "\x22\n".toList).reverse =
        '\n' :: '\x22' :: (k :: ks ++ " = \x22".toList ++ value).reverse := by
      simp
    rw [h2, List.dropWhile_cons_of_pos (by decide), List.dropWhile_cons_of_neg (by decide)]
    simp

theorem stringsTrim_quoted (l : Str) (hl : csfList l) :
    stringsTrim (" \x22".toList ++ l ++ "\x22".toList) "\x22 ".toList = l := by
  obtain ⟨_, hh1, hh2, ht1, ht2⟩ := hl
  unfold stringsTrim
  have hcut : ∀ c : Char, decide (c ∈ "\x22 ".toList) = true ↔ (c = '\x22' ∨ c = ' ') := by
    intro c; simp
  cases l with
  | nil => decide
  | cons c t =>
    have hc : c ≠ '\x22' ∧ c ≠ ' ' :=
      ⟨fun e => hh1 (by rw [e]; rfl), fun e => hh2 (by rw [e]; rfl)⟩
    have h1 : List.dropWhile (fun c => decide (c ∈ "\x22 ".toList))
        (" \x22".toList ++ (c :: t) ++ "\x22".toList) = c :: t ++ "\x22".toList := by
      show List.dropWhile _ (' ' :: '\x22' :: (c :: t ++ "\x22".toList)) = _
      rw [List.dropWhile_cons_of_pos (by decide), List.dropWhile_cons_of_pos (by decide)]
      simp only [List.cons_append]
      rw [List.dropWhile_cons_of_neg]
      rw [hcut]
      rintro (h | h)
      · exact hc.1 h
      · exact hc.2 h
    rw [h1]
    have h2 : (c :: t ++ "\x22".toList).reverse = '\x22' :: (c :: t).reverse := by simp
    rw [h2, List.dropWhile_cons_of_pos (by decide)]
    have hne : (c :: t).reverse ≠ [] := by simp
    obtain ⟨x, xs, hx⟩ := List.exists_cons_of_ne_nil hne
    have hlast : (c :: t).getLast? = some x := by
      rw [List.getLast?_eq_head?_reverse, hx]; rfl
    have hx1 : x ≠ '\x22' ∧ x ≠ ' ' :=
      ⟨fun e => ht1 (by rw [hlast, e]), fun e => ht2 (by rw [hlast, e])⟩
    rw [hx, List.dropWhile_cons_of_neg, ← hx, List.reverse_reverse]
    rw [hcut]
    rintro (h | h)
    · exact hx1.1 h
    · exact hx1.2 h

theorem splitOn_csfLine (key value : Str) (hk : '=' ∉ key) (hl : '=' ∉ value) :
    (splitOn '=' (key ++ " = \x22".toList ++ value ++ "\x22".toList))[1]? =
      some (" \x22".toList ++ value ++ "\x22".toList) := by
  have h : key ++ " = \x22".toList ++ value ++ "\x22".toList =
      (key ++ " ".toList) ++ '=' :: (" \x22".toList ++ value ++ "\x22".toList) := by simp
  rw [h, splitOn_append_sep, splitOn_of_not_mem '=' (key ++ " ".toList),
    splitOn_of_not_mem '=' (" \x22".toList ++ value ++ "\x22".toList)]
  · rfl
  · intro hc
    simp only [List.mem_append] at hc
    rcases hc with (hc | hc) | hc
    · revert hc; decide
    · exact hl hc
    · revert hc; decide
  · intro hc
    simp only [List.mem_append] at hc
    rcases hc with hc | hc
    · exact hk hc
    · revert hc; decide

/-- C30: when `grep` prints the line `KEY = "L"`, `AddToConfig(KEY, v)` looks for `v` as
a substring of `L`: when `v` occurs in `L` it runs no `sed` and returns nil, so that the
stored list stays `L`; otherwise it sets the key to `L,v` (to `v` when `L` is empty).
`80` occurs in `8080,443` and is none of its elements, and `OpenPort(80)` on the lists
`8080,443` runs the two `grep` commands and the restart, and no `sed`. -/
theorem CSF.AddToConfig_substring (env : Env) (outs : Outputs) (key value l : Str) (w : World)
    (hk : csfKey key) (hl : csfList l)
    (hgrep : env.status (grepCommand key) = none)
    (hout : outs.stdout w (grepCommand key) = csfLine key l) :
    (value <:+: l →
      CSF.AddToConfig env outs key value w =
        Except.ok (none, { w with trace := w.trace ++ [grepCommand key] })) ∧
    (¬ value <:+: l →
      CSF.AddToConfig env outs key value w =
        Except.ok (CSF.SetConfig env key
          (if l = [] then value else l ++ ",".toList ++ value)
          { w with trace := w.trace ++ [grepCommand key] })) ∧
    "80".toList <:+: "8080,443".toList ∧ "80".toList ∉ splitOn ',' "8080,443".toList ∧
    CSF.OpenPort allSucceed sampleOutputs 80 emptyWorld =
      Except.ok (none,
        { fs := [],
          trace := [grepCommand "TCP_IN".toList, grepCommand "TCP_OUT".toList,
            ["csf".toList, "-r".toList]] }) := by
  have hA : CSF.AddToConfig env outs key value w =
      if ¬ value <:+: l then
        Except.ok (CSF.SetConfig env key ((if l ≠ [] then l ++ ",".toList else l) ++ value)
          { w with trace := w.trace ++ [grepCommand key] })
      else Except.ok (none, { w with trace := w.trace ++ [grepCommand key] }) := by
    unfold CSF.AddToConfig
    simp only [runCommand]
    unfold grepCommand at hgrep hout
    rw [hgrep, hout]
    simp only
    rw [stringsTrimSpace_csfLine key l hk, splitOn_csfLine key l hk.1 hl.1]
    simp only
    rw [stringsTrim_quoted l hl]
    rfl
  refine ⟨fun h => ?_, fun h => ?_, by decide, by decide, rfl⟩
  · rw [hA, if_neg (not_not.2 h)]
  · rw [hA, if_pos h]
    by_cases hne : l = []
    · subst hne; simp
    · rw [if_pos hne, if_neg hne]

theorem CSF.AddToConfig_substring_witness :
    csfKey "TCP_IN".toList ∧ csfList "8080,443".toList ∧
    allSucceed.status (grepCommand "TCP_IN".toList) = none ∧
    sampleOutputs.stdout emptyWorld (grepCommand "TCP_IN".toList) =
      csfLine "TCP_IN".toList "8080,443".toList ∧
    "80".toList <:+: "8080,443".toList ∧
    CSF.AddToConfig allSucceed sampleOutputs "TCP_IN".toList "80".toList emptyWorld =
      Except.ok (none, { emptyWorld with trace := emptyWorld.trace ++ [grepCommand "TCP_IN".toList] }) ∧
    ¬ "25".toList <:+: "8080,443".toList ∧
    CSF.AddToConfig allSucceed sampleOutputs "TCP_IN".toList "25".toList emptyWorld =
      Except.ok (CSF.SetConfig allSucceed "TCP_IN".toList
        (if "8080,443".toList = [] then "25".toList
          else "8080,443".toList ++ ",".toList ++ "25".toList)
        { emptyWorld with trace := emptyWorld.trace ++ [grepCommand "TCP_IN".toList] }) :=
  ⟨⟨by decide, 'T', rfl, rfl⟩, by decide, rfl, rfl, by decide,
    (CSF.AddToConfig_substring allSucceed sampleOutputs "TCP_IN".toList "80".toList
      "8080,443".toList emptyWorld ⟨by decide, 'T', rfl, rfl⟩ (by decide) rfl rfl).1 (by decide),
    by decide,
    (CSF.AddToConfig_substring allSucceed sampleOutputs "TCP_IN".toList "25".toList
      "8080,443".toList emptyWorld ⟨by decide, 'T', rfl, rfl⟩ (by decide) rfl rfl).2.1
      (by decide)⟩

/-! ## The last character of a cleaned path -/

theorem splitOn_snoc (sep c : Char) (s : Str) (hc : c ≠ sep) :
    ∃ (init : List Str) (l : Str), splitOn sep (s ++ [c]) = init ++ [l ++ [c]] := by
  induction s with
  | nil =>
    refine ⟨[], [], ?_⟩
    simp [splitOn, hc]
  | cons a t ih =>
    obtain ⟨init, l, h⟩ := ih
    rw [List.cons_append, splitOn, h]
    cases init with
    | nil =>
      simp only [List.nil_append]
      by_cases ha : a = sep
      · rw [if_pos ha]
        exact ⟨[[]], l, rfl⟩
      · rw [if_neg ha]
        exact ⟨[], a :: l, rfl⟩
    | cons i rest =>
      simp only [List.cons_append]
      by_cases ha : a = sep
      · rw [if_pos ha]
        exact ⟨[] :: i :: rest, l, rfl⟩
      · rw [if_neg ha]
        exact ⟨(a :: i) :: rest, l, rfl⟩

theorem intercalate_snoc (out : List Str) (n : Str) :
    ∃ base : Str, "/".toList.intercalate (out ++ [n]) = base ++ n := by
  by_cases hne : out = []
  · subst hne
    exact ⟨[], by simp [intercalate_singleton]⟩
  · exact ⟨"/".toList.intercalate out ++ "/".toList, by
      rw [intercalate_append_singleton _ _ _ hne]⟩

/-- A cleaned path ends with the character the path ends with, when that is neither a
separator nor a dot. -/
theorem filepathClean_snoc (p : Str) (c : Char) (h1 : c ≠ '/') (h2 : c ≠ '.') :
    ∃ q : Str, filepathClean (p ++ [c]) = q ++ [c] := by
  obtain ⟨init, l, hs⟩ := splitOn_snoc '/' c p h1
  have hn : siteName (l ++ [c]) := by
    have hmem := splitOn_no_sep '/' (p ++ [c]) (l ++ [c]) (by rw [hs]; simp)
    refine ⟨by simp, ?_, ?_, hmem⟩
    · intro hc
      have : (l ++ [c]).getLast? = some '.' := by rw [hc]; rfl
      rw [List.getLast?_append_of_ne_nil _ (by simp)] at this
      simp at this
      exact h2 this
    · intro hc
      have : (l ++ [c]).getLast? = some '.' := by rw [hc]; rfl
      rw [List.getLast?_append_of_ne_nil _ (by simp)] at this
      simp at this
      exact h2 this
  unfold filepathClean
  rw [if_neg (by simp)]
  simp only
  rw [hs, List.foldl_append, List.foldl_cons, List.foldl_nil, cleanStep_siteName _ _ _ hn]
  obtain ⟨base, hb⟩ := intercalate_snoc
    (List.foldl (cleanStep ((p ++ [c]).head? = some '/')) [] init) (l ++ [c])
  rw [hb]
  split
  · exact ⟨'/' :: (base ++ l), by simp⟩
  · rw [if_neg (by simp)]
    exact ⟨base ++ l, by simp⟩

theorem filepathClean_ends (path : Str) (c : Char) (h1 : c ≠ '/') (h2 : c ≠ '.')
    (h : path.getLast? = some c) : (filepathClean path).getLast? = some c := by
  obtain ⟨p, hp⟩ : ∃ p, path = p ++ [c] := by
    have hne : path ≠ [] := by rintro rfl; simp at h
    refine ⟨path.dropLast, ?_⟩
    have := List.dropLast_append_getLast hne
    rw [List.getLast?_eq_getLast _ hne] at h
    simp only [Option.some.injEq] at h
    rw [h] at this
    exact this.symm
  obtain ⟨q, hq⟩ := filepathClean_snoc p c h1 h2
  rw [hp, hq]
  simp

theorem filepathJoin_ends (elems : List Str) (n : Str) (c : Char) (h1 : c ≠ '/') (h2 : c ≠ '.')
    (h : n.getLast? = some c) : (filepathJoin (elems ++ [n])).getLast? = some c := by
  have hn : n ≠ [] := by rintro rfl; simp at h
  induction elems with
  | nil =>
    unfold filepathJoin
    simp only [List.nil_append]
    rw [List.dropWhile_cons_of_neg (by simpa using hn)]
    simp only [intercalate_singleton]
    exact filepathClean_ends _ c h1 h2 h
  | cons e rest ih =>
    by_cases he : e = []
    · subst he
      have : filepathJoin ([] :: rest ++ [n]) = filepathJoin (rest ++ [n]) := by
        unfold filepathJoin
        rw [List.cons_append, List.dropWhile_cons_of_pos (by simp)]
      rw [this]
      exact ih
    · unfold filepathJoin
      rw [List.cons_append, List.dropWhile_cons_of_neg (by simpa using he)]
      simp only
      apply filepathClean_ends _ c h1 h2
      have : e :: (rest ++ [n]) = (e :: rest) ++ [n] := rfl
      rw [this]
      obtain ⟨base, hb⟩ := intercalate_snoc (e :: rest) n
      rw [hb, List.getLast?_append_of_ne_nil _ hn, h]

/-! ## The dump files -/

theorem osRemove_removes (path : Str) (w : World) (hp : path ≠ [])
    (hk : ¬ (filepathClean path = "/".toList ∨ filepathClean path = ".".toList))
    (hd : ¬ (FS.lookup w.fs (filepathClean path) = some Entry.dir ∧
      FS.hasChild w.fs (filepathClean path) = true)) :
    FS.lookup (osRemove path w).2.fs (filepathClean path) = none := by
  unfold osRemove
  simp only
  rw [if_neg hp, if_neg hk]
  cases hl : FS.lookup w.fs (filepathClean path) with
  | none => exact hl
  | some e =>
    cases e with
    | dir =>
      simp only
      have hc : ¬ FS.hasChild w.fs (filepathClean path) = true := fun hc => hd ⟨hl, hc⟩
      rw [if_neg hc]
      exact FS.lookup_erase_self _ _
    | file c => exact FS.lookup_erase_self _ _
    | symlink t => exact FS.lookup_erase_self _ _

theorem FS.isLink_false_iff (fs : FS) (p : Str) :
    FS.isLink fs p = false ↔ ∀ t : Str, FS.lookup fs p ≠ some (Entry.symlink t) := by
  unfold FS.isLink
  cases h : FS.lookup fs p with
  | none => simp
  | some e => cases e <;> simp

theorem followLinks_not_link (fs : FS) (p : Str) (fuel : Nat) (h : FS.isLink fs p = false) :
    followLinks fs (fuel + 1) p = some p := by
  rw [FS.isLink_false_iff] at h
  unfold followLinks
  split
  · rename_i t ht
    exact absurd ht (h t)
  · rfl

theorem osWriteFile_lookup_none (path data : Str) (w : World) (k : Str)
    (hk : FS.lookup w.fs k = none) (hl : FS.isLink w.fs (filepathClean path) = false)
    (hne : k ≠ filepathClean path) :
    FS.lookup (osWriteFile path data w).2.fs k = none := by
  unfold osWriteFile
  split
  · exact hk
  · rw [followLinks_not_link _ _ 40 hl]
    simp only
    split
    · exact hk
    · split
      · exact hk
      · simp only
        rw [FS.lookup_cons, if_neg (Ne.symm hne)]
        exact FS.lookup_erase_none _ _ _ hk

theorem osRemove_isLink (path : Str) (w : World) (p : Str) (h : FS.isLink w.fs p = false) :
    FS.isLink (osRemove path w).2.fs p = false := by
  rw [FS.isLink_false_iff] at h ⊢
  intro t ht
  rcases osRemove_fs path w with h1 | h1
  · rw [h1] at ht; exact h t ht
  · rw [h1] at ht
    by_cases hp : p = filepathClean path
    · rw [hp, FS.lookup_erase_self] at ht; simp at ht
    · rw [FS.lookup_erase_ne _ _ _ hp] at ht; exact h t ht

theorem osWriteFile_isLink (path data : Str) (w : World) (p : Str)
    (h : FS.isLink w.fs p = false) : FS.isLink (osWriteFile path data w).2.fs p = false := by
  rw [FS.isLink_false_iff] at h ⊢
  intro t ht
  rcases osWriteFile_outcome path data w with ⟨_, h1⟩ | ⟨key, _, _, h1⟩
  · rw [h1] at ht; exact h t ht
  · rw [h1, FS.lookup_cons] at ht
    by_cases hp : key = p
    · rw [if_pos hp] at ht; simp at ht
    · rw [if_neg hp, FS.lookup_erase_ne _ _ _ (Ne.symm hp)] at ht; exact h t ht

theorem osMkdirAll_isLink (path : Str) (w : World) (p : Str)
    (h : FS.isLink w.fs p = false) : FS.isLink (osMkdirAll path w).2.fs p = false := by
  rw [FS.isLink_false_iff] at h ⊢
  intro t ht
  rcases osMkdirAll_new path w p _ ht with h1 | h1
  · simp at h1
  · exact h t h1

theorem mkdirChain_lookup_none (chain : List Str) (w : World) (k : Str)
    (hk : FS.lookup w.fs k = none) (hn : k ∉ chain) :
    FS.lookup (mkdirChain chain w).2.fs k = none := by
  induction chain with
  | nil => exact hk
  | cons a parents ih =>
    unfold mkdirChain
    split
    · exact hk
    · split
      · exact hk
      · have ih' := ih (fun hm => hn (List.mem_cons_of_mem _ hm))
        cases hm : mkdirChain parents w with
        | mk r w1 =>
          rw [hm] at ih'
          cases r with
          | some err => exact ih'
          | none =>
            simp only
            rw [FS.lookup_cons, if_neg (fun e => hn (by rw [← e]; exact List.mem_cons_self _ _))]
            exact ih'

theorem osMkdirAll_lookup_none (path : Str) (w : World) (k : Str)
    (hk : FS.lookup w.fs k = none) (hn : k ∉ ancestors (filepathClean path)) :
    FS.lookup (osMkdirAll path w).2.fs k = none := by
  unfold osMkdirAll
  split
  · exact hk
  · exact mkdirChain_lookup_none _ w k hk (fun hm => hn (List.mem_reverse.1 hm))

theorem Caddy.AddSite_lookup_none (c : Caddy) (d : Str) (b : Bool) (w : World) (k : Str)
    (hk : FS.lookup w.fs k = none) (hn : k ∉ ancestors (filepathClean c.ConfigDir))
    (hl : FS.isLink w.fs (filepathClean (filepathJoin [c.ConfigDir, d ++ ".conf".toList]))
      = false)
    (hne : k ≠ filepathClean (filepathJoin [c.ConfigDir, d ++ ".conf".toList])) :
    FS.lookup (c.AddSite d b w).2.fs k = none := by
  unfold Caddy.AddSite
  simp only
  exact osWriteFile_lookup_none _ _ _ k (osMkdirAll_lookup_none _ w k hk hn)
    (osMkdirAll_isLink _ w _ hl) hne

theorem dumpPath_key (pre d : Str) :
    (filepathClean (pre ++ d ++ ".sql".toList)).getLast? = some 'l' :=
  filepathClean_ends _ 'l' (by decide) (by decide) (by
    rw [List.getLast?_append_of_ne_nil _ (by decide)]; rfl)

theorem Manager.PushToProduction_fs (m : Manager) (env : Env) (tools : Tools)
    (stamp domain : Str) (w : World) :
    (m.PushToProduction env tools stamp domain w).2.fs =
      (osRemove (pushDumpPath domain) (pushDumpWorld m env tools stamp domain w)).2.fs := by
  simp only [Manager.PushToProduction, pushDumpWorld, pushDumpPath, runCommand_fs]

theorem Manager.Clone_fs (m : Manager) (env : Env) (tools : Tools)
    (sourceDomain targetDomain : Str) (w : World)
    (hcp : env.status ["cp".toList, "-r".toList, filepathJoin [m.WebRoot, sourceDomain],
      filepathJoin [m.WebRoot, targetDomain]] = none)
    (hdb : env.status (mysqlCommand (siteOf targetDomain true)) = none) :
    ∃ (data : Str) (t : List (List Str)),
      (m.Clone env tools sourceDomain targetDomain w).2.fs =
        (m.CaddyConf.AddSite targetDomain true
          { fs := (osWriteFile
              (filepathJoin [filepathJoin [m.WebRoot, targetDomain], "public".toList,
                "wp-config.php".toList]) data
              (osRemove (cloneDumpPath sourceDomain)
                (cloneDumpWorld m env tools sourceDomain targetDomain w)).2).2.fs,
            trace := t }).2.fs := by
  have hm : ∀ p : Str, mysqlCommand (Site.mk targetDomain p [] [] [] false true) =
      mysqlCommand (siteOf targetDomain true) := fun _ => rfl
  unfold Manager.Clone cloneDumpWorld
  simp only [runTool, hcp, createDatabase_eq, hm, hdb, runCommand, cloneDumpPath]
  exact ⟨_, _, rfl⟩

/-- C21: the dump file is gone when the operation returns.  `PushToProduction` always
returns nil, and when what lies at the dump path after the export and the import is not a
directory with entries, nothing lies there afterwards.  `Clone`, once the copy and the
database creation have succeeded, returns nil whatever the export and the import return,
and nothing lies at the dump path afterwards, when the same holds of the dump path,
neither the target `wp-config.php` nor the target proxy configuration is a symbolic link,
and the dump path is not the proxy configuration directory or one of its parents. -/
theorem Manager.Clone_PushToProduction_remove_dump (m : Manager) (env : Env) (tools : Tools) :
    (∀ (stamp domain : Str) (w : World),
      ¬ (FS.lookup (pushDumpWorld m env tools stamp domain w).fs
            (filepathClean (pushDumpPath domain)) = some Entry.dir ∧
          FS.hasChild (pushDumpWorld m env tools stamp domain w).fs
            (filepathClean (pushDumpPath domain)) = true) →
      (m.PushToProduction env tools stamp domain w).1 = none ∧
      FS.lookup (m.PushToProduction env tools stamp domain w).2.fs
        (filepathClean (pushDumpPath domain)) = none) ∧
    (∀ (sourceDomain targetDomain : Str) (w : World),
      env.status ["cp".toList, "-r".toList, filepathJoin [m.WebRoot, sourceDomain],
        filepathJoin [m.WebRoot, targetDomain]] = none →
      env.status (mysqlCommand (siteOf targetDomain true)) = none →
      ¬ (FS.lookup (cloneDumpWorld m env tools sourceDomain targetDomain w).fs
            (filepathClean (cloneDumpPath sourceDomain)) = some Entry.dir ∧
          FS.hasChild (cloneDumpWorld m env tools sourceDomain targetDomain w).fs
            (filepathClean (cloneDumpPath sourceDomain)) = true) →
      FS.isLink (cloneDumpWorld m env tools sourceDomain targetDomain w).fs
        (filepathClean (filepathJoin [filepathJoin [m.WebRoot, targetDomain],
          "public".toList, "wp-config.php".toList])) = false →
      FS.isLink (cloneDumpWorld m env tools sourceDomain targetDomain w).fs
        (filepathClean (filepathJoin [m.CaddyConf.ConfigDir,
          targetDomain ++ ".conf".toList])) = false →
      filepathClean (cloneDumpPath sourceDomain) ∉
        ancestors (filepathClean m.CaddyConf.ConfigDir) →
      (m.Clone env tools sourceDomain targetDomain w).1 = none ∧
      FS.lookup (m.Clone env tools sourceDomain targetDomain w).2.fs
        (filepathClean (cloneDumpPath sourceDomain)) = none) := by
  constructor
  · intro stamp domain w hd
    refine ⟨rfl, ?_⟩
    rw [Manager.PushToProduction_fs]
    have hlast := dumpPath_key "/tmp/staging_".toList domain
    apply osRemove_removes _ _ (by simp [pushDumpPath]) _ hd
    rintro (h | h) <;> · unfold pushDumpPath at h; rw [h] at hlast; revert hlast; decide
  · intro src tgt w hcp hdb hd hcfg hconf hanc
    have hlast := dumpPath_key "/tmp/clone_".toList src
    have hkey : ¬ (filepathClean (cloneDumpPath src) = "/".toList ∨
        filepathClean (cloneDumpPath src) = ".".toList) := by
      rintro (h | h) <;> · unfold cloneDumpPath at h; rw [h] at hlast; revert hlast; decide
    refine ⟨by rw [Manager.Clone_returns, hcp, hdb], ?_⟩
    obtain ⟨data, t, hfs⟩ := Manager.Clone_fs m env tools src tgt w hcp hdb
    rw [hfs]
    have h5 : FS.lookup (osRemove (cloneDumpPath src)
        (cloneDumpWorld m env tools src tgt w)).2.fs (filepathClean (cloneDumpPath src)) = none :=
      osRemove_removes _ _ (by simp [cloneDumpPath]) hkey hd
    have hne1 : filepathClean (cloneDumpPath src) ≠
        filepathClean (filepathJoin [filepathJoin [m.WebRoot, tgt], "public".toList,
          "wp-config.php".toList]) := by
      intro h
      have h1 := filepathClean_ends _ 'p' (by decide) (by decide)
        (filepathJoin_ends [filepathJoin [m.WebRoot, tgt], "public".toList]
          "wp-config.php".toList 'p' (by decide) (by decide) rfl)
      simp only [List.cons_append, List.nil_append] at h1
      rw [← h] at h1
      unfold cloneDumpPath at h1
      rw [hlast] at h1
      revert h1; decide
    have hne2 : filepathClean (cloneDumpPath src) ≠
        filepathClean (filepathJoin [m.CaddyConf.ConfigDir, tgt ++ ".conf".toList]) := by
      intro h
      have h1 := filepathClean_ends _ 'f' (by decide) (by decide)
        (filepathJoin_ends [m.CaddyConf.ConfigDir] (tgt ++ ".conf".toList) 'f'
          (by decide) (by decide)
          (by rw [List.getLast?_append_of_ne_nil _ (by decide)]; rfl))
      simp only [List.cons_append, List.nil_append] at h1
      rw [← h] at h1
      unfold cloneDumpPath at h1
      rw [hlast] at h1
      revert h1; decide
    have h6 := osWriteFile_lookup_none
      (filepathJoin [filepathJoin [m.WebRoot, tgt], "public".toList, "wp-config.php".toList])
      data (osRemove (cloneDumpPath src) (cloneDumpWorld m env tools src tgt w)).2
      (filepathClean (cloneDumpPath src)) h5 (osRemove_isLink _ _ _ hcfg) hne1
    exact Caddy.AddSite_lookup_none m.CaddyConf tgt true _ _ h6 hanc
      (osWriteFile_isLink _ _ _ _ (osRemove_isLink _ _ _ hconf)) hne2

theorem Manager.Clone_PushToProduction_remove_dump_witness :
    ¬ (FS.lookup (pushDumpWorld NewManager wpFails modelTools "2026-01-02_03-04-05".toList
            "example.com".toList sourceSiteWorld).fs
          (filepathClean (pushDumpPath "example.com".toList)) = some Entry.dir ∧
        FS.hasChild (pushDumpWorld NewManager wpFails modelTools "2026-01-02_03-04-05".toList
            "example.com".toList sourceSiteWorld).fs
          (filepathClean (pushDumpPath "example.com".toList)) = true) ∧
    ((NewManager.PushToProduction wpFails modelTools "2026-01-02_03-04-05".toList
        "example.com".toList sourceSiteWorld).1 = none ∧
      FS.lookup (NewManager.PushToProduction wpFails modelTools "2026-01-02_03-04-05".toList
        "example.com".toList sourceSiteWorld).2.fs
        (filepathClean (pushDumpPath "example.com".toList)) = none) ∧
    wpFails.status ["cp".toList, "-r".toList,
      filepathJoin [NewManager.WebRoot, "example.com".toList],
      filepathJoin [NewManager.WebRoot, "example2.com".toList]] = none ∧
    wpFails.status (mysqlCommand (siteOf "example2.com".toList true)) = none ∧
    FS.lookup (cloneDumpWorld NewManager wpFails modelTools "example.com".toList
        "example2.com".toList sourceSiteWorld).fs
      (filepathClean (cloneDumpPath "example.com".toList)) =
        some (Entry.file "-- MySQL dump".toList) ∧
    FS.isLink (cloneDumpWorld NewManager wpFails modelTools "example.com".toList
        "example2.com".toList sourceSiteWorld).fs
      (filepathClean (filepathJoin [filepathJoin [NewManager.WebRoot, "example2.com".toList],
        "public".toList, "wp-config.php".toList])) = false ∧
    FS.isLink (cloneDumpWorld NewManager wpFails modelTools "example.com".toList
        "example2.com".toList sourceSiteWorld).fs
      (filepathClean (filepathJoin [NewManager.CaddyConf.ConfigDir,
        "example2.com".toList ++ ".conf".toList])) = false ∧
    filepathClean (cloneDumpPath "example.com".toList) ∉
      ancestors (filepathClean NewManager.CaddyConf.ConfigDir) ∧
    ((NewManager.Clone wpFails modelTools "example.com".toList "example2.com".toList
        sourceSiteWorld).1 = none ∧
      FS.lookup (NewManager.Clone wpFails modelTools "example.com".toList "example2.com".toList
        sourceSiteWorld).2.fs (filepathClean (cloneDumpPath "example.com".toList)) = none) :=
  ⟨fun h => by
      have h1 := h.1
      rw [show FS.lookup (pushDumpWorld NewManager wpFails modelTools
        "2026-01-02_03-04-05".toList "example.com".toList sourceSiteWorld).fs
        (filepathClean (pushDumpPath "example.com".toList)) =
          some (Entry.file "-- MySQL dump".toList) from rfl] at h1
      simp at h1,
    (Manager.Clone_PushToProduction_remove_dump NewManager wpFails modelTools).1
      "2026-01-02_03-04-05".toList "example.com".toList sourceSiteWorld (fun h => by
        have h1 := h.1
        rw [show FS.lookup (pushDumpWorld NewManager wpFails modelTools
          "2026-01-02_03-04-05".toList "example.com".toList sourceSiteWorld).fs
          (filepathClean (pushDumpPath "example.com".toList)) =
            some (Entry.file "-- MySQL dump".toList) from rfl] at h1
        simp at h1),
    rfl, rfl, rfl, rfl, rfl, by decide,
    (Manager.Clone_PushToProduction_remove_dump NewManager wpFails modelTools).2
      "example.com".toList "example2.com".toList sourceSiteWorld rfl rfl (fun h => by
        have h1 := h.1
        rw [show FS.lookup (cloneDumpWorld NewManager wpFails modelTools "example.com".toList
          "example2.com".toList sourceSiteWorld).fs
          (filepathClean (cloneDumpPath "example.com".toList)) =
            some (Entry.file "-- MySQL dump".toList) from rfl] at h1
        simp at h1) rfl rfl (by decide)⟩

/-! ## The settings of a cloned site -/

set_option maxRecDepth 8192 in
/-- C22: the import and the URL rewrite of `Clone` are addressed to the installation at
`target/public`, whose `wp-config.php` is the copy of the source file: it is that copy when
the import has run, and it is still the same text when `Clone` returns, because the
rewrite of the three settings finds none of its patterns.  The file names the database
`example_com_db` of the source, not the database `example2_com_db` that `Clone` has
created. -/
theorem Manager.Clone_keeps_source_settings :
    osReadFile "/var/www/example.com/public/wp-config.php".toList sourceSiteWorld =
      Except.ok standardConfig ∧
    "define( \x27DB_NAME\x27, \x27example_com_db\x27 );".toList <:+: standardConfig ∧
    ¬ "example2_com_db".toList <:+: standardConfig ∧
    (NewManager.Clone allSucceed modelTools "example.com".toList "example2.com".toList
      sourceSiteWorld).1 = none ∧
    osReadFile "/var/www/example2.com/public/wp-config.php".toList
      (cloneDumpWorld NewManager allSucceed modelTools "example.com".toList
        "example2.com".toList sourceSiteWorld) = Except.ok standardConfig ∧
    osReadFile "/var/www/example2.com/public/wp-config.php".toList
      (NewManager.Clone allSucceed modelTools "example.com".toList "example2.com".toList
        sourceSiteWorld).2 = Except.ok standardConfig ∧
    cloneConfigContent standardConfig "example2_com_db".toList "example2_com_user".toList
      generatePassword = standardConfig ∧
    (NewManager.Clone allSucceed modelTools "example.com".toList "example2.com".toList
      sourceSiteWorld).2.trace =
      [["cp".toList, "-r".toList, "/var/www/example.com".toList, "/var/www/example2.com".toList],
       ["mysql".toList, "-e".toList,
        createDatabaseSQL "example2_com_db".toList "example2_com_user".toList generatePassword],
       ["wp".toList, "db".toList, "export".toList, "/tmp/clone_example.com.sql".toList,
        "--path=/var/www/example.com/public".toList],
       ["wp".toList, "db".toList, "import".toList, "/tmp/clone_example.com.sql".toList,
        "--path=/var/www/example2.com/public".toList],
       ["wp".toList, "search-replace".toList, "https://example.com".toList,
        "https://example2.com".toList, "--all-tables".toList,
        "--path=/var/www/example2.com/public".toList],
       ["wp".toList, "search-replace".toList, "http://example.com".toList,
        "https://example2.com".toList, "--all-tables".toList,
        "--path=/var/www/example2.com/public".toList],
       ["chown".toList, "-R".toList, "www-data:www-data".toList,
        "/var/www/example2.com".toList],
       ["systemctl".toList, "reload".toList, "caddy".toList]] := by
  refine ⟨rfl, by decide, by decide, rfl, rfl, rfl, rfl, rfl⟩

end IronStack
